import Mathlib

/-!
# Isometric level renderer (`components/render/sdl2backend.cpp`)

A shallow embedding of the coordinate transform, the draw-level cache, the
frame compositing routines and the level traversal of the renderer, followed
by the properties established about them.

Conventions of the embedding:

* `int` / `int32_t` values are mathematical integers (`Int`); signed overflow is
  undefined behaviour in C++, so every statement is about executions in which no
  signed overflow happens.  C++ integer division and `std::div` truncate toward
  zero: `Int.tdiv` / `Int.tmod`.
* `size_t` values are natural numbers; conversions to `int32_t` are explicit
  (`castInt32`).
* Globals (`WIDTH`, `HEIGHT`, `atlasTexture`, `drawLevelCache`) are passed
  explicitly or kept in the explicit renderer state.
-/

namespace Render

/-! ## Definitions -/

/-- Two-component vector, `Vec2<T>`; `Misc::Point` and `Vec2i` are `Vec2<int32_t>`. -/
structure Vec2 (T : Type) where
  x : T
  y : T
deriving DecidableEq

/-- Integer point, `Misc::Point`. -/
abbrev Point := Vec2 Int

instance : Add Point := ⟨fun a b => ⟨a.x + b.x, a.y + b.y⟩⟩

instance : Sub Point := ⟨fun a b => ⟨a.x - b.x, a.y - b.y⟩⟩

/-- Which half of a tile a screen point falls into, `TileHalf`. -/
inductive TileHalf where
  | left
  | right
deriving DecidableEq

/-- A tile position together with a half-tile discriminator, `Tile`. -/
structure Tile where
  pos : Point
  half : TileHalf
deriving DecidableEq

/-- The constant `tileHeight`. -/
def tileHeight : Int := 32

/-- The constant `tileWidth = tileHeight * 2`. -/
def tileWidth : Int := tileHeight * 2

/-- The constant `bottomMenuSize`. -/
def bottomMenuSize : Int := 144

/-- The constant `staticObjectHeight`. -/
def staticObjectHeight : Int := 256

/-- The scalar operations the template `tileTopPoint<T>` uses on `T`: the ring
operations, the conversion `T(n)` from an integer constant and the conversion to
`int32_t` performed by `Vec2i(Vec2<T>)`. -/
class Scalar (T : Type) extends Add T, Sub T, Mul T where
  ofInt : Int → T
  toInt : T → Int

instance : Scalar Int where
  ofInt := id
  toInt := id

/-- Modelled from the spec: the fixed-point number type `FixedPoint` behind
`Vec2Fix` (its header is not part of the sources).  A value is an integer count
`raw` of units of `1 / scale`; the scale is a parameter.  Sums and differences
are exact; products and the conversion to an integer divide by the scale, here
with truncation.  The spec only fixes that the projection is exact on its
inputs, and the results below use this type at integer values, where every
operation is exact whatever the rounding. -/
structure FixedPoint (scale : Nat) where
  raw : Int
deriving DecidableEq

instance (scale : Nat) : Scalar (FixedPoint scale) where
  add a b := ⟨a.raw + b.raw⟩
  sub a b := ⟨a.raw - b.raw⟩
  mul a b := ⟨(a.raw * b.raw).tdiv scale⟩
  ofInt n := ⟨n * scale⟩
  toInt a := a.raw.tdiv scale

/-- Fixed-point vector, `Vec2Fix`. -/
abbrev Vec2Fix (scale : Nat) := Vec2 (FixedPoint scale)

/-- The fixed-point vector with integer components (zero fractional part). -/
def Vec2Fix.ofTile (scale : Nat) (c : Point) : Vec2Fix scale :=
  ⟨Scalar.ofInt c.x, Scalar.ofInt c.y⟩

/-- `tileTopPoint`: the forward isometric projection
`Vec2i(Vec2<T>(T(tileWidth / 2) * (tile.x - tile.y), (tile.y + tile.x) * (tileHeight / 2)))`. -/
def tileTopPoint {T : Type} [Scalar T] (tile : Vec2 T) : Point :=
  ⟨Scalar.toInt (Scalar.ofInt (tileWidth.tdiv 2) * (tile.x - tile.y)),
   Scalar.toInt ((tile.y + tile.x) * Scalar.ofInt (tileHeight.tdiv 2))⟩

/-- `getTileFromScreenCoords`: two `std::div` by `tileWidth`; the quotients are
the tile, the comparison of the remainders is the half. -/
def getTileFromScreenCoords (screenPos toScreen : Point) : Tile :=
  let point := screenPos - toScreen
  let xq := (2 * point.y + point.x).tdiv tileWidth
  let xr := (2 * point.y + point.x).tmod tileWidth
  let yq := (2 * point.y - point.x).tdiv tileWidth
  let yr := (2 * point.y - point.x).tmod tileWidth
  ⟨⟨xq, yq⟩, if xr > yr then TileHalf.right else TileHalf.left⟩

/-- `worldToScreenVector`, with the globals `WIDTH` and `HEIGHT` as arguments. -/
def worldToScreenVector {T : Type} [Scalar T] (WIDTH HEIGHT : Int) (fractionalPos : Vec2 T) : Point :=
  let point := tileTopPoint fractionalPos
  (⟨WIDTH.tdiv 2, (HEIGHT - bottomMenuSize).tdiv 2⟩ : Point) - point

/-- The conversion `static_cast<int32_t>` of an unsigned value: reduction modulo
`2^32` read as a two's-complement number. -/
def castInt32 (n : Nat) : Int :=
  if n % 2 ^ 32 < 2 ^ 31 then ((n % 2 ^ 32 : Nat) : Int) else ((n % 2 ^ 32 : Nat) : Int) - 2 ^ 32

/-- `getTileByScreenPos`: the arguments are `size_t` and are cast to `int32_t`. -/
def getTileByScreenPos {T : Type} [Scalar T] (WIDTH HEIGHT : Int) (x y : Nat)
    (fractionalPos : Vec2 T) : Tile :=
  let toScreen := worldToScreenVector WIDTH HEIGHT fractionalPos
  getTileFromScreenCoords ⟨castInt32 x, castInt32 y⟩ toScreen

/-! ### Surfaces and frames -/

/-- `Cel::Colour`: three 8-bit channels and the visibility flag. -/
structure Colour where
  r : Fin 256
  g : Fin 256
  b : Fin 256
  visible : Bool
deriving DecidableEq

/-- `Cel::CelFrame` as the renderer uses it: `width()`, `height()` and `get(x, y)`. -/
structure CelFrame where
  width : Nat
  height : Nat
  get : Nat → Nat → Colour

/-- A 32-bit `SDL_Surface`: `w`, `h` and the pixel memory as one `Uint32` per
pixel, row after row (`pitch = 4 * w` bytes, `BytesPerPixel = 4`). -/
structure Surface where
  w : Nat
  h : Nat
  pixels : List Nat
deriving DecidableEq

/-- `SDL_MapRGBA` for the masks `createTransparentSurface` passes
(`0x000000FF`, `0x0000FF00`, `0x00FF0000`, `0xFF000000`); the arguments are `Uint8`. -/
def mapRGBA (r g b a : Nat) : Nat :=
  r % 256 + (g % 256) * 2 ^ 8 + (b % 256) * 2 ^ 16 + (a % 256) * 2 ^ 24

/-- `SDL_GetRGBA` for the same masks: the channels `(r, g, b, a)` of a pixel value. -/
def getRGBA (pixel : Nat) : Nat × Nat × Nat × Nat :=
  (pixel % 256, pixel / 2 ^ 8 % 256, pixel / 2 ^ 16 % 256, pixel / 2 ^ 24 % 256)

/-- The offset, in pixels, of `(Uint8*)pixels + y * pitch + x * bpp`. -/
def pixelIndex (s : Surface) (x y : Int) : Int :=
  y * s.w + x

/-- The `Uint32` stored for `(x, y)`; `0` stands for memory outside the surface. -/
def rawPixel (s : Surface) (x y : Int) : Nat :=
  if 0 ≤ pixelIndex s x y then s.pixels.getD (pixelIndex s x y).toNat 0 else 0

/-- `setpixel` in the `bpp == 4` case. A store outside the pixel memory
(undefined behaviour in the source) leaves the surface as it is. -/
def setpixel (surface : Surface) (x y : Int) (c : Colour) : Surface :=
  let pixel := mapRGBA c.r c.g c.b ((if c.visible then 1 else 0) * 255)
  if 0 ≤ pixelIndex surface x y then
    { surface with pixels := surface.pixels.set (pixelIndex surface x y).toNat pixel }
  else surface

/-- `getPixel` in the `bpp == 4` case. -/
def getPixel (s : Surface) (x y : Int) : Colour :=
  let pix := getRGBA (rawPixel s x y)
  ⟨Fin.ofNat pix.1, Fin.ofNat pix.2.1, Fin.ofNat pix.2.2.1, pix.2.2.2 == 255⟩

/-- `clearTransparentSurface`: `SDL_FillRect` of the whole surface with `SDL_MapRGBA(0, 0, 0, 0)`. -/
def clearTransparentSurface (s : Surface) : Surface :=
  { s with pixels := List.replicate s.pixels.length (mapRGBA 0 0 0 0) }

/-- `createTransparentSurface`: a new 32-bit surface, cleared. -/
def createTransparentSurface (width height : Nat) : Surface :=
  clearTransparentSurface ⟨width, height, List.replicate (width * height) 0⟩

/-- The inner loop of `drawFrame` (`for y < n`) for column `x`: a visible frame
pixel is stored at `(start_x + x, start_y + y)`, an invisible one is skipped. -/
def drawFrameRows (s : Surface) (start_x start_y : Int) (frame : CelFrame) (x n : Nat) : Surface :=
  (List.range n).foldl (fun s y =>
    let c := frame.get x y
    if c.visible then setpixel s (start_x + x) (start_y + y) c else s) s

/-- The outer loop of `drawFrame` (`for x < m`). -/
def drawFrameCols (s : Surface) (start_x start_y : Int) (frame : CelFrame) (m : Nat) : Surface :=
  (List.range m).foldl (fun s x => drawFrameRows s start_x start_y frame x frame.height) s

/-- `drawFrame`: for every `x < frame.width()` and every `y < frame.height()`. -/
def drawFrame (s : Surface) (start_x start_y : Int) (frame : CelFrame) : Surface :=
  drawFrameCols s start_x start_y frame frame.width

/-- The 2 x 2 frame of the compositing example: `(0, 0)` is visible with `r = 10`,
`(1, 1)` is visible with `b = 10`, the other two pixels are invisible. -/
def exampleFrame : CelFrame where
  width := 2
  height := 2
  get := fun x y =>
    if x = 0 ∧ y = 0 then ⟨10, 0, 0, true⟩
    else if x = 1 ∧ y = 1 then ⟨0, 0, 10, true⟩
    else ⟨0, 0, 0, false⟩

/-! ### Tileset pillars -/

/-- `Cel::CelFile` as the renderer uses it: `numFrames()` and `operator[]`. -/
structure CelFile where
  numFrames : Nat
  frame : Nat → CelFrame

/-- The bitwise `&` of two `int` values: the `and` of their 32-bit
two's-complement representations. -/
def andInt32 (a b : Int) : Int :=
  castInt32 ((a % 2 ^ 32).toNat &&& (b % 2 ^ 32).toNat)

/-- The frame index of a pillar cell, `(cell & 0x0FFF) - 1`. -/
def minFrameIndex (cell : Int) : Int :=
  andInt32 cell 0x0FFF - 1

/-- `drawMinTile`: the left frame at `x`, the right frame at `x + 32`, each
skipped when its index is `-1`. -/
def drawMinTile (s : Surface) (f : CelFile) (x y : Int) (l r : Int) : Surface :=
  let s1 := if l ≠ -1 then drawFrame s x y (f.frame l.toNat) else s
  if r ≠ -1 then drawFrame s1 (x + 32) y (f.frame r.toNat) else s1

/-- One iteration of the row loop of `drawMinPillar`: the index `i` of the first
of the two cells read (`pillar[i]`, `pillar[i + 1]`) and the arguments `y`, `l`,
`r` of the `drawMinTile` call. -/
structure MinRow where
  i : Nat
  y : Int
  l : Int
  r : Int
deriving DecidableEq

/-- The row loop of `drawMinPillar`, `for (; i < lim; i += 2)` with `y += 32` after
each row. A read past the end of `pillar` (undefined behaviour in the source)
gives no result. The first argument bounds the number of iterations;
`minPillarRows` starts it at `lim - i`. -/
def minPillarLoop (pillar : List Int) : Nat → Nat → Nat → Int → Option (List MinRow)
  | 0, _, _, _ => some []
  | fuel + 1, i, lim, y =>
    if i < lim then
      match pillar[i]?, pillar[i + 1]? with
      | some a, some b =>
        (minPillarLoop pillar fuel (i + 2) lim (y + 32)).map
          (fun rest => ⟨i, y, minFrameIndex a, minFrameIndex b⟩ :: rest)
      | _, _ => none
    else some []

/-- The value of `pillar.size() - 2` in `size_t` arithmetic. -/
def sizeMinusTwo (size : Nat) : Nat :=
  (size + 2 ^ 64 - 2) % 2 ^ 64

/-- The rows `drawMinPillar` draws: the compensation for pillars of 10 entries,
the choice of `i`, `lim` and the start `y` by `top`, then the row loop. -/
def minPillarRows (pillar : List Int) (y : Int) (top : Bool) : Option (List MinRow) :=
  let y1 := if pillar.length = 10 then y + 3 * 32 else y
  if top then
    minPillarLoop pillar (sizeMinusTwo pillar.length - 0) 0 (sizeMinusTwo pillar.length) y1
  else
    minPillarLoop pillar (pillar.length - sizeMinusTwo pillar.length)
      (sizeMinusTwo pillar.length) pillar.length (y1 + sizeMinusTwo pillar.length * 16)

/-- `drawMinPillar`: `drawMinTile` for each row in turn. -/
def drawMinPillar (s : Surface) (x y : Int) (pillar : List Int) (tileset : CelFile) (top : Bool) :
    Option Surface :=
  (minPillarRows pillar y top).map
    (fun rows => rows.foldl (fun s row => drawMinTile s tileset x row.y row.l row.r) s)

/-- `drawMinPillarTop`. -/
def drawMinPillarTop (s : Surface) (x y : Int) (pillar : List Int) (tileset : CelFile) :
    Option Surface :=
  drawMinPillar s x y pillar tileset true

/-- `drawMinPillarBase`. -/
def drawMinPillarBase (s : Surface) (x y : Int) (pillar : List Int) (tileset : CelFile) :
    Option Surface :=
  drawMinPillar s x y pillar tileset false

/-- The indices of `pillar` read while the rows were produced, in order: `i` and
`i + 1` for each row. -/
def rowsRead : List MinRow → List Nat
  | [] => []
  | row :: rest => row.i :: (row.i + 1) :: rowsRead rest

/-! ### Atlas lookup and the draw-level cache -/

/-- The fields of an atlas entry that the renderer reads (`mX`, `mY`, `mLayer`,
`mWidth`, `mHeight`); the declaring header is not part of the sources. -/
structure AtlasTextureEntry where
  mX : Nat
  mY : Nat
  mLayer : Nat
  mWidth : Nat
  mHeight : Nat
deriving DecidableEq

/-- The atlas lookup map, `atlasTexture->getLookupMap()`: a key is present with
its entry or absent. -/
abbrev LookupMap := Nat → Option AtlasTextureEntry

/-- Modelled from the spec: the per-instance record `SpriteVertexPerInstance`
(declared in a header that is not part of the sources): image size, atlas
offset with layer, screen offset and hover colour as RGBA. The widths of the
fields are not given, so each component holds the value assigned to it. -/
structure SpriteVertexPerInstance where
  v_imageSize : Nat × Nat
  v_atlasOffset : Nat × Nat × Nat
  v_imageOffset : Int × Int
  v_hoverColor : Nat × Nat × Nat × Nat
deriving DecidableEq

/-- The value-initialised record, `SpriteVertexPerInstance vertexData = {}`. -/
def SpriteVertexPerInstance.zero : SpriteVertexPerInstance :=
  ⟨(0, 0), (0, 0, 0), (0, 0), (0, 0, 0, 0)⟩

/-- How a renderer call can fail: `out_of_range` thrown by `at` on the lookup
map, or a failed assertion. -/
inductive RenderError where
  | outOfRange
  | assertFailed
deriving DecidableEq

/-- `DrawLevelCache`: the member `mInstanceData`. -/
structure DrawLevelCache where
  mInstanceData : List SpriteVertexPerInstance
deriving DecidableEq

/-- The constructor `DrawLevelCache(size_t initSize)`:
`mInstanceData.resize(initSize)` gives the vector `initSize` value-initialised
elements. -/
def DrawLevelCache.create (initSize : Nat) : DrawLevelCache :=
  ⟨List.replicate initSize SpriteVertexPerInstance.zero⟩

/-- `DrawLevelCache::addSprite`. The result is the outcome of the call and the
cache after it: `lookupMap.at(sprite)` throws for an absent key, before the
cache is touched. -/
def DrawLevelCache.addSprite (lookupMap : LookupMap) (self : DrawLevelCache) (sprite : Nat)
    (x y : Int) (highlightColor : Option Colour) : Except RenderError Unit × DrawLevelCache :=
  match lookupMap sprite with
  | none => (Except.error RenderError.outOfRange, self)
  | some atlasEntry =>
    let vertexData := SpriteVertexPerInstance.zero
    let vertexData := { vertexData with v_imageSize := (atlasEntry.mWidth, atlasEntry.mHeight) }
    let vertexData :=
      { vertexData with v_atlasOffset := (atlasEntry.mX, atlasEntry.mY, atlasEntry.mLayer) }
    let vertexData := { vertexData with v_imageOffset := (x, y) }
    let vertexData :=
      match highlightColor with
      | some c => { vertexData with v_hoverColor := (c.r.val, c.g.val, c.b.val, 255) }
      | none => vertexData
    (Except.ok (), ⟨self.mInstanceData ++ [vertexData]⟩)

/-- `DrawLevelCache::instanceCount`. -/
def DrawLevelCache.instanceCount (self : DrawLevelCache) : Nat :=
  self.mInstanceData.length

/-- `DrawLevelCache::getData`: the second component of the pair, the size in
bytes, for a record of `recordSize` bytes. -/
def DrawLevelCache.getData (recordSize : Nat) (self : DrawLevelCache) : Nat :=
  self.mInstanceData.length * recordSize

/-- `DrawLevelCache::clear`. -/
def DrawLevelCache.clear (_self : DrawLevelCache) : DrawLevelCache :=
  ⟨[]⟩

/-- The global `drawLevelCache = DrawLevelCache(2000)`. -/
def initialDrawLevelCache : DrawLevelCache :=
  DrawLevelCache.create 2000

/-- `addSprite` repeated for a list of calls `(sprite, x, y, highlightColor)`,
stopping at the first failure. -/
def DrawLevelCache.addSprites (lookupMap : LookupMap) (self : DrawLevelCache) :
    List (Nat × Int × Int × Option Colour) → Except RenderError Unit × DrawLevelCache
  | [] => (Except.ok (), self)
  | (sprite, x, y, c) :: rest =>
    match self.addSprite lookupMap sprite x y c with
    | (Except.ok _, cache) => cache.addSprites lookupMap rest
    | (Except.error e, cache) => (Except.error e, cache)

/-- `spriteSize`: the width and height of the atlas entry; `at` throws for an
absent key. -/
def spriteSize (lookupMap : LookupMap) (sprite : Nat) : Except RenderError (Int × Int) :=
  match lookupMap sprite with
  | none => Except.error RenderError.outOfRange
  | some atlasEntry => Except.ok (atlasEntry.mWidth, atlasEntry.mHeight)

/-! ### Renderer state and calls to the collaborators -/

/-- A call the level renderer makes to the world model, the sprite cache or the
command queue, in the order of the calls. -/
inductive Access where
  | levelGet (pos : Point)
  | itemsGet (x y : Int)
  | objsGet (x y : Int)
  | cacheGet (handle : Nat)
  | setImmortal (handle : Nat) (immortal : Bool)
  | setInstanceData (data : List SpriteVertexPerInstance)
  | drawInstances (instanceCount : Nat)
deriving DecidableEq

/-- The mutable state a frame works on: the global `drawLevelCache` and the
record of the calls made so far. -/
structure RenderState where
  drawLevelCache : DrawLevelCache
  log : List Access
deriving DecidableEq

/-- A renderer action: it ends normally with a value or fails, and leaves a state. -/
def RenderM (α : Type) : Type :=
  RenderState → Except RenderError α × RenderState

instance : Monad RenderM where
  pure a := fun st => (Except.ok a, st)
  bind m f := fun st =>
    match m st with
    | (Except.ok a, st1) => f a st1
    | (Except.error e, st1) => (Except.error e, st1)

/-- Record a call to a collaborator. -/
def logAccess (a : Access) : RenderM Unit :=
  fun st => (Except.ok (), { st with log := st.log ++ [a] })

/-- Run a fallible computation that does not touch the state. -/
def liftExcept {α : Type} (r : Except RenderError α) : RenderM α :=
  fun st => (r, st)

/-- The free function `drawSprite(uint32_t sprite, ...)`: adds to the level cache. -/
def drawSprite (lookupMap : LookupMap) (sprite : Nat) (x y : Int)
    (highlightColor : Option Colour) : RenderM Unit :=
  fun st =>
    ((st.drawLevelCache.addSprite lookupMap sprite x y highlightColor).1,
      { st with
        drawLevelCache := (st.drawLevelCache.addSprite lookupMap sprite x y highlightColor).2 })

/-- The overload `drawSprite(const Sprite& sprite, ...)`: the handle is cast with
`(uint32_t)(intptr_t)sprite`. -/
def drawSpriteHandle (lookupMap : LookupMap) (sprite : Nat) (x y : Int)
    (highlightColor : Option Colour) : RenderM Unit :=
  drawSprite lookupMap (sprite % 2 ^ 32) x y highlightColor

/-- `drawAtTile`: one `drawSprite`, centred on the tile top by width and bottom
aligned by height. -/
def drawAtTile (lookupMap : LookupMap) (sprite : Nat) (tileTop : Point) (spriteW spriteH : Int)
    (highlightColor : Option Colour) : RenderM Unit :=
  drawSpriteHandle lookupMap sprite (tileTop.x - spriteW.tdiv 2) (tileTop.y - spriteH + tileHeight)
    highlightColor

/-- `SpriteGroup`: the member `mSprites`. -/
structure SpriteGroup where
  mSprites : List Nat
deriving DecidableEq

/-- `SpriteGroup::size`. -/
def SpriteGroup.size (self : SpriteGroup) : Nat :=
  self.mSprites.length

/-- `SpriteGroup::operator[]` with its `debug_assert(index < mSprites.size())`; a
negative `int32_t` index converts to a `size_t` above every size. -/
def SpriteGroup.at (self : SpriteGroup) (index : Int) : Except RenderError Nat :=
  if 0 ≤ index then
    match self.mSprites[index.toNat]? with
    | some sprite => Except.ok sprite
    | none => Except.error RenderError.assertFailed
  else Except.error RenderError.assertFailed

/-- `Level::Level` as `drawLevel` reads it: `width()`, `height()` and
`get(pos).index()`. -/
structure Level where
  width : Nat
  height : Nat
  index : Point → Nat

/-- An entry of `LevelObjects`: the fields `drawLevel` reads. -/
structure LevelObject (scale : Nat) where
  valid : Bool
  spriteCacheIndex : Nat
  spriteFrame : Int
  fractionalPos : Vec2Fix scale
  hoverColor : Option Colour

/-- `LevelObjects`: `get(x, y)` is the list of the entries on a tile. -/
abbrev LevelObjects (scale : Nat) := Int → Int → List (LevelObject scale)

/-- `SpriteCacheBase::get`, recorded. -/
def cacheGet (cache : Nat → SpriteGroup) (handle : Nat) : RenderM SpriteGroup := do
  logAccess (Access.cacheGet handle)
  pure (cache handle)

/-- `level.get(pos).index()`, recorded. -/
def levelGet (level : Level) (pos : Point) : RenderM Nat := do
  logAccess (Access.levelGet pos)
  pure (level.index pos)

/-- `items.get(x, y)`, recorded. -/
def itemsGet {scale : Nat} (items : LevelObjects scale) (x y : Int) :
    RenderM (List (LevelObject scale)) := do
  logAccess (Access.itemsGet x y)
  pure (items x y)

/-- `objs.get(x, y)`, recorded. -/
def objsGet {scale : Nat} (objs : LevelObjects scale) (x y : Int) :
    RenderM (List (LevelObject scale)) := do
  logAccess (Access.objsGet x y)
  pure (objs x y)

/-- `drawMovingSprite`: anchored at the projection of the fractional position,
with the size of the atlas entry. -/
def drawMovingSprite {scale : Nat} (lookupMap : LookupMap) (sprite : Nat)
    (fractionalPos : Vec2Fix scale) (toScreen : Point) (highlightColor : Option Colour) :
    RenderM Unit := do
  let (w, h) ← liftExcept (spriteSize lookupMap sprite)
  let point := tileTopPoint fractionalPos
  let res := point + toScreen
  drawAtTile lookupMap sprite res w h highlightColor

/-! ### Level traversal -/

/-- The loop of `processLine`: while `point.x < WIDTH + tileWidth / 2` the point
moves one tile to the right, the tile one step along the row, and the pair is
handed to `processTile`. The first argument bounds the number of iterations;
`processLine` starts it at the distance to the exit. -/
def processLineLoop (WIDTH : Int) : Nat → Point → Tile → List (Tile × Point)
  | 0, _, _ => []
  | fuel + 1, point, tile =>
    if point.x < WIDTH + tileWidth.tdiv 2 then
      (⟨⟨tile.pos.x + 1, tile.pos.y - 1⟩, tile.half⟩, ⟨point.x + tileWidth, point.y⟩) ::
        processLineLoop WIDTH fuel ⟨point.x + tileWidth, point.y⟩
          ⟨⟨tile.pos.x + 1, tile.pos.y - 1⟩, tile.half⟩
    else []

/-- The lambda `processLine` of `drawObjectsByTiles`: the calls of `processTile`
for one scan line. -/
def processLine (WIDTH : Int) (startingPoint : Point) (startingTile : Tile) : List (Tile × Point) :=
  processLineLoop WIDTH (WIDTH + tileWidth.tdiv 2 - startingPoint.x).toNat startingPoint startingTile

/-- The outer loop of `drawObjectsByTiles`: while
`startingPoint.y < HEIGHT + staticObjectHeight - tileHeight`, two scan lines, each
half a tile lower than the one before; the first starts half a tile to the left
with `startingTile.pos.y` advanced, the second back at `startingPoint.x` with
`startingTile.pos.x` advanced too. The first argument bounds the number of
iterations; `visitedTiles` starts it at the distance to the exit. -/
def scanLoop (WIDTH HEIGHT : Int) : Nat → Point → Tile → List (Tile × Point)
  | 0, _, _ => []
  | fuel + 1, startingPoint, startingTile =>
    if startingPoint.y < HEIGHT + staticObjectHeight - tileHeight then
      processLine WIDTH
          ⟨startingPoint.x - tileWidth.tdiv 2, startingPoint.y + tileHeight.tdiv 2⟩
          ⟨⟨startingTile.pos.x, startingTile.pos.y + 1⟩, startingTile.half⟩ ++
        processLine WIDTH
          ⟨startingPoint.x - tileWidth.tdiv 2 + tileWidth.tdiv 2,
            startingPoint.y + tileHeight.tdiv 2 + tileHeight.tdiv 2⟩
          ⟨⟨startingTile.pos.x + 1, startingTile.pos.y + 1⟩, startingTile.half⟩ ++
        scanLoop WIDTH HEIGHT fuel
          ⟨startingPoint.x - tileWidth.tdiv 2 + tileWidth.tdiv 2,
            startingPoint.y + tileHeight.tdiv 2 + tileHeight.tdiv 2⟩
          ⟨⟨startingTile.pos.x + 1, startingTile.pos.y + 1⟩, startingTile.half⟩
    else []

/-- The calls `processTile(tile, point)` that `drawObjectsByTiles` makes, in order. -/
def visitedTiles (toScreen : Point) (WIDTH HEIGHT : Int) : List (Tile × Point) :=
  scanLoop WIDTH HEIGHT
    (HEIGHT + staticObjectHeight - tileHeight
      - (tileTopPoint (getTileFromScreenCoords ⟨-2 * tileWidth, -2 * tileHeight⟩ toScreen).pos
          + toScreen).y).toNat
    (tileTopPoint (getTileFromScreenCoords ⟨-2 * tileWidth, -2 * tileHeight⟩ toScreen).pos + toScreen)
    (getTileFromScreenCoords ⟨-2 * tileWidth, -2 * tileHeight⟩ toScreen)

/-- `drawObjectsByTiles`: `processTile` runs on the visited tiles in order; a
failure ends the traversal. -/
def drawObjectsByTiles (toScreen : Point) (WIDTH HEIGHT : Int)
    (processTile : Tile → Point → RenderM Unit) : RenderM Unit :=
  (visitedTiles toScreen WIDTH HEIGHT).forM (fun tp => processTile tp.1 tp.2)

/-! ### Level drawing -/

/-- The lambda `isInvalidTile` of `drawLevel`. -/
def isInvalidTile (level : Level) (tile : Tile) : Bool :=
  decide (tile.pos.x < 0) || decide (tile.pos.y < 0) ||
    decide (tile.pos.x ≥ castInt32 level.width) || decide (tile.pos.y ≥ castInt32 level.height)

/-- The lambda of the first pass of `drawLevel` (objects on the ground). -/
def groundTile (lookupMap : LookupMap) (level : Level) (minBottoms : SpriteGroup)
    (tile : Tile) (topLeft : Point) : RenderM Unit := do
  if isInvalidTile level tile then
    let sprite ← liftExcept (minBottoms.at 0)
    drawAtTile lookupMap sprite topLeft tileWidth staticObjectHeight none
  else
    let index ← levelGet level tile.pos
    if index < minBottoms.size then
      let sprite ← liftExcept (minBottoms.at index)
      drawAtTile lookupMap sprite topLeft tileWidth staticObjectHeight none

/-- The lambda of the second pass of `drawLevel` (above the ground and moving
objects). -/
def overlayTile {scale : Nat} (lookupMap : LookupMap) (level : Level) (minTops : SpriteGroup)
    (specialSpritesHandle : Nat) (specialSpritesMap : Int → Option Int)
    (cache : Nat → SpriteGroup) (objs items : LevelObjects scale) (toScreen : Point)
    (tile : Tile) (topLeft : Point) : RenderM Unit := do
  if isInvalidTile level tile then
    pure ()
  else
    let index ← levelGet level tile.pos
    if index < minTops.size then
      let sprite ← liftExcept (minTops.at index)
      drawAtTile lookupMap sprite topLeft tileWidth staticObjectHeight none
      match specialSpritesMap (castInt32 index) with
      | some specialSpriteIndex =>
        let specialSpriteGroup ← cacheGet cache specialSpritesHandle
        let sprite ← liftExcept (specialSpriteGroup.at specialSpriteIndex)
        let (w, h) ← liftExcept (spriteSize lookupMap sprite)
        drawAtTile lookupMap sprite topLeft w h none
      | none => pure ()
    let itemsForTile ← itemsGet items tile.pos.x tile.pos.y
    itemsForTile.forM (fun item => do
      let group ← cacheGet cache item.spriteCacheIndex
      let sprite ← liftExcept (group.at item.spriteFrame)
      let (w, h) ← liftExcept (spriteSize lookupMap sprite)
      drawAtTile lookupMap sprite topLeft w h item.hoverColor)
    let objsForTile ← objsGet objs tile.pos.x tile.pos.y
    objsForTile.forM (fun obj => do
      if obj.valid then
        let sprite ← cacheGet cache obj.spriteCacheIndex
        let frame ← liftExcept (sprite.at obj.spriteFrame)
        drawMovingSprite lookupMap frame obj.fractionalPos toScreen obj.hoverColor)

/-- `drawCachedLevel`: the records of `drawLevelCache.getData()` go to the instance
vertex buffer with `setData`, then one instanced draw of `instanceCount()`
instances. -/
def drawCachedLevel : RenderM Unit :=
  fun st => (Except.ok (),
    { st with log := st.log ++ [Access.setInstanceData st.drawLevelCache.mInstanceData,
        Access.drawInstances st.drawLevelCache.instanceCount] })

/-- `drawLevelCache.clear()` on the global cache. -/
def clearDrawLevelCache : RenderM Unit :=
  fun st => (Except.ok (), { st with drawLevelCache := st.drawLevelCache.clear })

/-- `drawLevel`, with the globals `WIDTH`, `HEIGHT` and the atlas lookup map as
arguments. -/
def drawLevel {scale : Nat} (lookupMap : LookupMap) (WIDTH HEIGHT : Int) (level : Level)
    (minTopsHandle minBottomsHandle specialSpritesHandle : Nat)
    (specialSpritesMap : Int → Option Int) (cache : Nat → SpriteGroup)
    (objs items : LevelObjects scale) (fractionalPos : Vec2Fix scale) : RenderM Unit := do
  let toScreen := worldToScreenVector WIDTH HEIGHT fractionalPos
  let minBottoms ← cacheGet cache minBottomsHandle
  drawObjectsByTiles toScreen WIDTH HEIGHT (groundTile lookupMap level minBottoms)
  let minTops ← cacheGet cache minTopsHandle
  logAccess (Access.setImmortal minTopsHandle true)
  drawObjectsByTiles toScreen WIDTH HEIGHT
    (overlayTile lookupMap level minTops specialSpritesHandle specialSpritesMap cache objs items
      toScreen)
  logAccess (Access.setImmortal minTopsHandle false)
  drawCachedLevel
  clearDrawLevelCache

/-- A recorded call reads the world model inside the level: a `level.get`,
`items.get` or `objs.get` is for a position that `isInvalidTile` accepts; the
other calls read no tile. -/
def Access.inLevel (level : Level) : Access → Prop
  | Access.levelGet pos => isInvalidTile level ⟨pos, TileHalf.left⟩ = false
  | Access.itemsGet x y => isInvalidTile level ⟨⟨x, y⟩, TileHalf.left⟩ = false
  | Access.objsGet x y => isInvalidTile level ⟨⟨x, y⟩, TileHalf.left⟩ = false
  | _ => True

/-- An action only adds calls to the record, all of them inside the level. -/
def ReadsInLevel {α : Type} (level : Level) (m : RenderM α) : Prop :=
  ∀ st : RenderState, ∃ ext : List Access,
    (m st).2.log = st.log ++ ext ∧ ∀ a ∈ ext, Access.inLevel level a

/-- `loadTilesetSprite`, up to the upload of each pillar surface: the 64 x 256
surface `newPillar` is cleared and drawn on at origin `(0, 0)` for each of the
first `min.size() - 1` pillars, and the result is the surface handed to
`getGLTexFromSurface` each time. An empty `min` makes the size of `newMin` wrap
around and the allocation fail. -/
def loadTilesetSprite (cel : CelFile) (min : List (List Int)) (top : Bool) :
    Option (List Surface) :=
  if min.length = 0 then none
  else
    (List.range (min.length - 1)).mapM (fun i =>
      if top then
        drawMinPillarTop (clearTransparentSurface (createTransparentSurface 64 256)) 0 0
          (min.getD i []) cel
      else
        drawMinPillarBase (clearTransparentSurface (createTransparentSurface 64 256)) 0 0
          (min.getD i []) cel)

/-- The order of the calls: along the diagonals `x + y`, and by `x` on a diagonal. -/
def tileBefore (a b : Tile × Point) : Prop :=
  a.1.pos.x + a.1.pos.y < b.1.pos.x + b.1.pos.y ∨
    (a.1.pos.x + a.1.pos.y = b.1.pos.x + b.1.pos.y ∧ a.1.pos.x < b.1.pos.x)

/-- The record `drawAtTile` appends for a sprite whose atlas entry is `e`, anchored
at `tileTop` with the size `(spriteW, spriteH)`. -/
def anchoredRecord (e : AtlasTextureEntry) (tileTop : Point) (spriteW spriteH : Int)
    (c : Option Colour) : SpriteVertexPerInstance :=
  { v_imageSize := (e.mWidth, e.mHeight)
    v_atlasOffset := (e.mX, e.mY, e.mLayer)
    v_imageOffset := (tileTop.x - spriteW.tdiv 2, tileTop.y - spriteH + 32)
    v_hoverColor :=
      match c with
      | some c => (c.r.val, c.g.val, c.b.val, 255)
      | none => (0, 0, 0, 0) }

/-- The sprite `group[frame]` for an index in range. -/
def spriteOf (group : SpriteGroup) (frame : Int) : Nat :=
  group.mSprites.getD frame.toNat 0

/-- The state after one more record and the given calls. -/
def RenderState.extend (st : RenderState) (records : List SpriteVertexPerInstance)
    (calls : List Access) : RenderState :=
  ⟨⟨st.drawLevelCache.mInstanceData ++ records⟩, st.log ++ calls⟩

/-- The record the anchoring rule prescribes for a static tile sprite: frame
`index` of `group`, anchored at `topLeft` with the fixed size
`(tileWidth, staticObjectHeight)`. -/
def staticRecord (entry : Nat → AtlasTextureEntry) (group : SpriteGroup) (index : Int)
    (topLeft : Point) : SpriteVertexPerInstance :=
  anchoredRecord (entry (spriteOf group index % 2 ^ 32)) topLeft tileWidth staticObjectHeight none

/-- The record the anchoring rule prescribes for an item, overlay or moving
object: frame `index` of `group`, anchored at `tileTop` with the width and height
of the atlas entry that `spriteSize` reads for it. -/
def ownSizeRecord (entry : Nat → AtlasTextureEntry) (group : SpriteGroup) (index : Int)
    (tileTop : Point) (c : Option Colour) : SpriteVertexPerInstance :=
  anchoredRecord (entry (spriteOf group index % 2 ^ 32)) tileTop
    (entry (spriteOf group index)).mWidth (entry (spriteOf group index)).mHeight c

/-- The records the anchoring rule prescribes for one tile inside the level in
the second pass of `drawLevel`, in drawing order: the static top sprite and its
overlay when the tile index has a top sprite, the items of the tile, the valid
moving objects of the tile. -/
def overlayRecords {scale : Nat} (entry : Nat → AtlasTextureEntry) (level : Level)
    (minTops : SpriteGroup) (specialSpritesHandle : Nat) (specialSpritesMap : Int → Option Int)
    (cache : Nat → SpriteGroup) (objs items : LevelObjects scale) (toScreen : Point)
    (tile : Tile) (topLeft : Point) : List SpriteVertexPerInstance :=
  (if level.index tile.pos < minTops.size then
    staticRecord entry minTops (level.index tile.pos) topLeft ::
      (match specialSpritesMap (castInt32 (level.index tile.pos)) with
       | some specialSpriteIndex =>
         [ownSizeRecord entry (cache specialSpritesHandle) specialSpriteIndex topLeft none]
       | none => [])
   else []) ++
  (items tile.pos.x tile.pos.y).map
    (fun item => ownSizeRecord entry (cache item.spriteCacheIndex) item.spriteFrame topLeft
      item.hoverColor) ++
  ((objs tile.pos.x tile.pos.y).filter (fun obj => obj.valid)).map
    (fun obj => ownSizeRecord entry (cache obj.spriteCacheIndex) obj.spriteFrame
      (tileTopPoint obj.fractionalPos + toScreen) obj.hoverColor)

/-- The frames that `overlayTile` takes from sprite groups on a tile are inside
their groups: the overlay of the tile index, the frames of the items and of the
valid moving objects. -/
def framesInRange {scale : Nat} (level : Level) (minTops : SpriteGroup)
    (specialSpritesHandle : Nat) (specialSpritesMap : Int → Option Int)
    (cache : Nat → SpriteGroup) (objs items : LevelObjects scale) (tile : Tile) : Prop :=
  (level.index tile.pos < minTops.size →
    ∀ k, specialSpritesMap (castInt32 (level.index tile.pos)) = some k →
      0 ≤ k ∧ k.toNat < (cache specialSpritesHandle).size) ∧
  (∀ item ∈ items tile.pos.x tile.pos.y,
    0 ≤ item.spriteFrame ∧ item.spriteFrame.toNat < (cache item.spriteCacheIndex).size) ∧
  (∀ obj ∈ objs tile.pos.x tile.pos.y, obj.valid = true →
    0 ≤ obj.spriteFrame ∧ obj.spriteFrame.toNat < (cache obj.spriteCacheIndex).size)

/-- The records the anchoring rule prescribes for one tile in the first pass of
`drawLevel`: frame 0 of the bottoms for a tile outside the level, the frame of
the tile index for a tile inside it when the bottoms have that frame. -/
def groundRecords (entry : Nat → AtlasTextureEntry) (level : Level) (minBottoms : SpriteGroup)
    (tile : Tile) (topLeft : Point) : List SpriteVertexPerInstance :=
  if isInvalidTile level tile then [staticRecord entry minBottoms 0 topLeft]
  else if level.index tile.pos < minBottoms.size then
    [staticRecord entry minBottoms (level.index tile.pos) topLeft]
  else []

/-- An example atlas: handle `s` has a 96 x 128 entry at `(s, 0)` of layer 0. -/
def exampleEntry (s : Nat) : AtlasTextureEntry :=
  ⟨s, 0, 0, 96, 128⟩

/-- An example 2 x 2 level, every tile of index 1. -/
def exampleLevel : Level :=
  ⟨2, 2, fun _ => 1⟩

/-- An example sprite cache: every group has the frames 30 and 31. -/
def exampleCache (_ : Nat) : SpriteGroup :=
  ⟨[30, 31]⟩

/-- Example items: one item on every tile, frame 1, no hover colour. -/
def exampleItems : LevelObjects 1000 :=
  fun _ _ => [⟨true, 0, 1, Vec2Fix.ofTile 1000 ⟨0, 0⟩, none⟩]

/-- Example moving objects: on every tile a valid one at tile `(1, 1)` with a
hover colour and one that is not valid. -/
def exampleObjs : LevelObjects 1000 :=
  fun _ _ => [⟨true, 0, 0, Vec2Fix.ofTile 1000 ⟨1, 1⟩, some ⟨200, 100, 50, true⟩⟩,
    ⟨false, 0, 5, Vec2Fix.ofTile 1000 ⟨0, 0⟩, none⟩]

/-! ### Single-texture concatenation -/

/-- The measuring loop of `loadCelToSingleTexture` and of `SpriteGroup::toPng`
over the first `n` frames: the running sum of the frame widths and the largest
frame height so far, both `int32_t` starting at 0. -/
def celExtent (cel : CelFile) (n : Nat) : Int × Int :=
  (List.range n).foldl (fun (acc : Int × Int) i =>
    (acc.1 + (cel.frame i).width,
      if ((cel.frame i).height : Int) > acc.2 then ((cel.frame i).height : Int) else acc.2)) (0, 0)

/-- The drawing loop of `loadCelToSingleTexture` and of `SpriteGroup::toPng` over
the first `n` frames: `drawFrame(surface, x, 0, cel[i])`, then `x += cel[i].width()`,
with `x` starting at 0. The result is the surface and the final `x`. -/
def drawCelFrames (cel : CelFile) (surface : Surface) (n : Nat) : Surface × Int :=
  (List.range n).foldl (fun (acc : Surface × Int) i =>
    (drawFrame acc.1 acc.2 0 (cel.frame i), acc.2 + (cel.frame i).width)) (surface, 0)

/-- `loadCelToSingleTexture`, up to the upload: the surface handed to
`getGLTexFromSurface`. The two `debug_assert`s fail on a total width or a largest
height that is not positive. -/
def loadCelToSingleTexture (cel : CelFile) : Except RenderError Surface :=
  let width := (celExtent cel cel.numFrames).1
  let height := (celExtent cel cel.numFrames).2
  if ¬ width > 0 then Except.error RenderError.assertFailed
  else if ¬ height > 0 then Except.error RenderError.assertFailed
  else
    Except.ok (drawCelFrames cel (createTransparentSurface width.toNat height.toNat)
      cel.numFrames).1

/-- `SpriteGroup::toPng`, up to the file output: the surface handed to
`SDL_SavePNG`, or nothing when the function returns early (no frame, or a total
width of 0). -/
def SpriteGroup.toPng (cel : CelFile) : Option Surface :=
  if cel.numFrames = 0 then none
  else
    let sumWidth := (celExtent cel cel.numFrames).1
    let maxHeight := (celExtent cel cel.numFrames).2
    if sumWidth = 0 then none
    else
      some (drawCelFrames cel (createTransparentSurface sumWidth.toNat maxHeight.toNat)
        cel.numFrames).1

/-- The sum of the widths of the frames `0 .. n-1` of an archive. -/
def sumWidths (cel : CelFile) : Nat → Nat
  | 0 => 0
  | n + 1 => sumWidths cel n + (cel.frame n).width

/-- The largest height among the frames `0 .. n-1` of an archive (0 when `n = 0`). -/
def maxHeights (cel : CelFile) : Nat → Nat
  | 0 => 0
  | n + 1 => max (maxHeights cel n) (cel.frame n).height

/-- An archive of one frame, one pixel wide and of height 0. -/
def flatCel : CelFile :=
  ⟨1, fun _ => ⟨1, 0, fun _ _ => ⟨0, 0, 0, false⟩⟩⟩

/-- An archive of two frames: the 2 x 2 frame of the compositing example, then a
frame of one visible pixel. -/
def exampleCel : CelFile :=
  ⟨2, fun i => if i = 0 then exampleFrame else ⟨1, 1, fun _ _ => ⟨7, 8, 9, true⟩⟩⟩

/-- The surface the concatenation is specified to give: a transparent surface as
wide as the sum of the frame widths and as high as the highest frame, with the
frames drawn on it one after the other. -/
def celSurface (cel : CelFile) : Surface :=
  (drawCelFrames cel
    (createTransparentSurface (sumWidths cel cel.numFrames) (maxHeights cel cel.numFrames))
    cel.numFrames).1

/-! ### Vertical-animation split and tile-grid resize -/

/-- One pass of the body of the pixel loops of `loadVanimSprite` and of
`loadResizedSprite`: the coordinates handed to `getPixel` on the source and to
`setpixel` on the destination. -/
structure PixelCopy where
  srcX : Nat
  srcY : Nat
  dstX : Nat
  dstY : Nat
deriving DecidableEq

/-- The effect of pixel copies on the destination `tmp`:
`px = getPixel(original, srcX, srcY)`, then `setpixel(tmp, dstX, dstY, px)`, one
copy after the other. -/
def applyCopies (original : Surface) (copies : List PixelCopy) (tmp : Surface) : Surface :=
  copies.foldl (fun tmp c => setpixel tmp c.dstX c.dstY (getPixel original c.srcX c.srcY)) tmp

/-- The pixel value `setpixel` stores for a colour: its three channels, and alpha
255 when it is visible, 0 when it is not. -/
def storedPixel (c : Colour) : Nat :=
  mapRGBA c.r c.g c.b ((if c.visible then 1 else 0) * 255)

/-- The iterations of the pixel loops of `loadVanimSprite` for the band that
starts at row `srcY`, in order: `for x < original->w`, inside it `for y < vAnim`,
and the copy from `(x, srcY + y)` to `(x, y)` when `srcY + y < original->h`. -/
def bandCopies (w h srcY vAnim : Nat) : List PixelCopy :=
  (List.range w).flatMap (fun x =>
    (List.range vAnim).flatMap (fun y =>
      if srcY + y < h then [(⟨x, srcY + y, x, y⟩ : PixelCopy)] else []))

/-- The value of `(size_t)original->h - 1` in `size_t` arithmetic. -/
def sizeMinusOne (size : Nat) : Nat :=
  (size + 2 ^ 64 - 1) % 2 ^ 64

/-- The outer loop of `loadVanimSprite`,
`for (srcY = 0; srcY < (size_t)original->h - 1; srcY += vAnim)`: the band is copied
onto `tmp`, `tmp` is uploaded as the next frame and then cleared. The result is
the list of the uploaded surfaces. The first argument bounds the number of
iterations; a loop that is still running when it is used up gives no result. -/
def loadVanimLoop (original : Surface) (vAnim : Nat) : Nat → Nat → Surface → Option (List Surface)
  | 0, srcY, _ => if srcY < sizeMinusOne original.h then none else some []
  | fuel + 1, srcY, tmp =>
    if srcY < sizeMinusOne original.h then
      (loadVanimLoop original vAnim fuel ((srcY + vAnim) % 2 ^ 64)
          (clearTransparentSurface
            (applyCopies original (bandCopies original.w original.h srcY vAnim) tmp))).map
        (fun rest => applyCopies original (bandCopies original.w original.h srcY vAnim) tmp :: rest)
    else some []

/-- `loadVanimSprite` on the loaded image `original`, up to the uploads: the frames
in order. The loop is allowed as many iterations as `srcY` has values below its
bound. -/
def loadVanimSprite (original : Surface) (vAnim : Nat) : Option (List Surface) :=
  loadVanimLoop original vAnim (sizeMinusOne original.h) 0
    (createTransparentSurface original.w vAnim)

/-- The iterations of the two pixel loops of `loadResizedSprite` for one tile, in
order: `for y < tileHeight`, inside it `for x < tileWidth`, and the copy from
`(srcX + x, srcY + y)` to `(dstX + x, dstY + y)`. -/
def tileCopies (srcX srcY dstX dstY tileWidth tileHeight : Nat) : List PixelCopy :=
  (List.range tileHeight).flatMap (fun y =>
    (List.range tileWidth).map (fun x => ⟨srcX + x, srcY + y, dstX + x, dstY + y⟩))

/-- The `while (true)` loop of `loadResizedSprite`: the tile under the source
cursor is copied to the destination cursor; the source cursor moves one tile on,
wrapping to the next tile row at the right edge, and the loop ends when it is
below the source; then the same for the destination cursor. The cursors are
`size_t`. The result is the destination surface with the pixel copies made, in
order. The first argument bounds the number of iterations; a loop that is still
running when it is used up gives no result. -/
def loadResizedLoop (original : Surface) (width height tileWidth tileHeight : Nat) :
    Nat → Nat → Nat → Nat → Nat → Surface → List PixelCopy → Option (Surface × List PixelCopy)
  | 0, _, _, _, _, _, _ => none
  | fuel + 1, srcX, srcY, dstX, dstY, tmp, copies =>
    let tmp1 := applyCopies original (tileCopies srcX srcY dstX dstY tileWidth tileHeight) tmp
    let copies1 := copies ++ tileCopies srcX srcY dstX dstY tileWidth tileHeight
    let srcX1 := (srcX + tileWidth) % 2 ^ 64
    let srcX2 := if srcX1 ≥ original.w then 0 else srcX1
    let srcY2 := if srcX1 ≥ original.w then (srcY + tileHeight) % 2 ^ 64 else srcY
    if srcY2 ≥ original.h then some (tmp1, copies1)
    else
      let dstX1 := (dstX + tileWidth) % 2 ^ 64
      let dstX2 := if dstX1 ≥ width then 0 else dstX1
      let dstY2 := if dstX1 ≥ width then (dstY + tileHeight) % 2 ^ 64 else dstY
      if dstY2 ≥ height then some (tmp1, copies1)
      else loadResizedLoop original width height tileWidth tileHeight fuel srcX2 srcY2 dstX2 dstY2
        tmp1 copies1

/-- `loadResizedSprite` on the loaded image `original`, up to the upload: the
surface handed to `getGLTexFromSurface` and the pixel copies made. A loop that
ends does so within `(w + 1) * (h + 1)` iterations, `w x h` the size of the
source. -/
def loadResizedSprite (original : Surface) (width height tileWidth tileHeight : Nat) :
    Option (Surface × List PixelCopy) :=
  loadResizedLoop original width height tileWidth tileHeight
    ((original.w + 1) * (original.h + 1)) 0 0 0 0 (createTransparentSurface width height) []

/-- The copies of the first `n` tiles of the source onto the first `n` tiles of
the destination, both counted row by row: tile `k` of a grid with `cols` tiles in
a row has its corner at `((k % cols) * tileWidth, (k / cols) * tileHeight)`. -/
def tileCopiesUpTo (srcCols dstCols tileWidth tileHeight n : Nat) : List PixelCopy :=
  (List.range n).flatMap (fun k =>
    tileCopies ((k % srcCols) * tileWidth) ((k / srcCols) * tileHeight)
      ((k % dstCols) * tileWidth) ((k / dstCols) * tileHeight) tileWidth tileHeight)

/-- A source image one pixel wide and three rows high, all opaque. -/
def threeRows : Surface :=
  ⟨1, 3, [mapRGBA 10 0 0 255, mapRGBA 20 0 0 255, mapRGBA 30 0 0 255]⟩

/-- A 4 x 1 source of two 2 x 1 tiles; the third pixel is half transparent. -/
def twoTiles : Surface :=
  ⟨4, 1, [mapRGBA 1 0 0 255, mapRGBA 2 0 0 255, mapRGBA 3 0 0 128, mapRGBA 4 0 0 255]⟩

/-- A source image one pixel wide and four rows high; the last pixel is half
transparent. -/
def fourRows : Surface :=
  ⟨1, 4, [mapRGBA 10 0 0 255, mapRGBA 20 0 0 255, mapRGBA 30 0 0 255, mapRGBA 40 0 0 128]⟩

/-! ### Image extension -/

/-- The loop of `getImageExtension`, `for (...; i > 0; i--)` with the `break` on
`path[i] == '.'`, started at `i`: the value of `i` after the loop. A read past the
end of `path` (undefined behaviour in the source) gives no result. -/
def extensionLoop (path : List Char) : Nat → Option Nat
  | 0 => some 0
  | i + 1 =>
    match path[i + 1]? with
    | some c => if c = '.' then some (i + 1) else extensionLoop path i
    | none => none

/-- `std::string::substr(pos, len)`: the characters from `pos` on, at most `len`
of them; `pos > size()` throws `std::out_of_range`. -/
def substr (s : List Char) (pos len : Nat) : Option (List Char) :=
  if pos > s.length then none else some ((s.drop pos).take len)

/-- `getImageExtension` on the characters (`char` values) of `path`: the loop starts at
`path.length() - 1` and the result is `path.substr(i + 1, path.length() - i)`, all
in `size_t` arithmetic. -/
def getImageExtension (path : List Char) : Option (List Char) :=
  (extensionLoop path (sizeMinusOne path.length)).bind (fun i =>
    substr path ((i + 1) % 2 ^ 64) ((path.length + 2 ^ 64 - i) % 2 ^ 64))

/-- An action that cannot fail: it ends normally in the state `step` gives. -/
def stepAction (step : RenderState → RenderState) : RenderM Unit :=
  fun st => (Except.ok (), step st)

/-- The atlas knows the sprite handle `s`, both as `spriteSize` looks it up
(`size_t`) and as `drawSprite` does (`uint32_t`), with the entries `entry` names. -/
def knownSprite (lookupMap : LookupMap) (entry : Nat → AtlasTextureEntry) (s : Nat) : Prop :=
  lookupMap s = some (entry s) ∧ lookupMap (s % 2 ^ 32) = some (entry (s % 2 ^ 32))

/-- The atlas knows every sprite of the group. -/
def knownGroup (lookupMap : LookupMap) (entry : Nat → AtlasTextureEntry) (group : SpriteGroup) :
    Prop :=
  ∀ s ∈ group.mSprites, knownSprite lookupMap entry s

/-- An example atlas with the handles below 100. -/
def exampleLookupMap : LookupMap :=
  fun s => if s < 100 then some (exampleEntry s) else none

/-- The records the anchoring rule prescribes for a whole run of `drawLevel`, in
drawing order: for every call of the traversal the records of the first pass,
then for every call of the traversal the records of the second pass, none for a
tile outside the level. -/
def levelRecords {scale : Nat} (entry : Nat → AtlasTextureEntry) (WIDTH HEIGHT : Int)
    (level : Level) (minTopsHandle minBottomsHandle specialSpritesHandle : Nat)
    (specialSpritesMap : Int → Option Int) (cache : Nat → SpriteGroup)
    (objs items : LevelObjects scale) (fractionalPos : Vec2Fix scale) :
    List SpriteVertexPerInstance :=
  ((visitedTiles (worldToScreenVector WIDTH HEIGHT fractionalPos) WIDTH HEIGHT).map
    (fun call => groundRecords entry level (cache minBottomsHandle) call.1 call.2)).flatten ++
  ((visitedTiles (worldToScreenVector WIDTH HEIGHT fractionalPos) WIDTH HEIGHT).map
    (fun call =>
      if isInvalidTile level call.1 then []
      else overlayRecords entry level (cache minTopsHandle) specialSpritesHandle
        specialSpritesMap cache objs items (worldToScreenVector WIDTH HEIGHT fractionalPos)
        call.1 call.2)).flatten

/-! ## Theorems -/

/-! ### Coordinate transform -/

theorem point_add_x (a b : Point) : (a + b).x = a.x + b.x := rfl

theorem point_add_y (a b : Point) : (a + b).y = a.y + b.y := rfl

theorem point_sub_x (a b : Point) : (a - b).x = a.x - b.x := rfl

theorem point_sub_y (a b : Point) : (a - b).y = a.y - b.y := rfl

theorem point_add_comm (a b : Point) : a + b = b + a := by
  show (⟨a.x + b.x, a.y + b.y⟩ : Point) = ⟨b.x + a.x, b.y + a.y⟩
  rw [add_comm a.x, add_comm a.y]

theorem tileTopPoint_int (tile : Point) :
    tileTopPoint tile = ⟨32 * (tile.x - tile.y), (tile.y + tile.x) * 16⟩ := by
  rfl

theorem tileTopPoint_fixed (scale : Nat) (hs : 0 < scale) (c : Point) :
    tileTopPoint (Vec2Fix.ofTile scale c) = tileTopPoint c := by
  have hs0 : (scale : Int) ≠ 0 := by omega
  have h1 : (32 * (scale : Int) * (c.x * scale - c.y * scale)).tdiv scale
      = 32 * (c.x - c.y) * scale := by
    have : 32 * (scale : Int) * (c.x * scale - c.y * scale)
        = (32 * (c.x - c.y) * scale) * scale := by ring
    rw [this, Int.mul_tdiv_cancel _ hs0]
  have h2 : ((c.y * (scale : Int) + c.x * scale) * (16 * scale)).tdiv scale
      = (c.y + c.x) * 16 * scale := by
    have : (c.y * (scale : Int) + c.x * scale) * (16 * scale)
        = ((c.y + c.x) * 16 * scale) * scale := by ring
    rw [this, Int.mul_tdiv_cancel _ hs0]
  show (⟨((32 * (scale : Int) * (c.x * scale - c.y * scale)).tdiv scale).tdiv scale,
        (((c.y * (scale : Int) + c.x * scale) * (16 * scale)).tdiv scale).tdiv scale⟩ : Point)
      = ⟨32 * (c.x - c.y), (c.y + c.x) * 16⟩
  rw [h1, h2, Int.mul_tdiv_cancel _ hs0, Int.mul_tdiv_cancel _ hs0]

theorem getTileFromScreenCoords_top (tile o : Point) :
    getTileFromScreenCoords (tileTopPoint tile + o) o = ⟨tile, TileHalf.left⟩ := by
  have hx : 2 * ((tile.y + tile.x) * 16 + o.y - o.y) + (32 * (tile.x - tile.y) + o.x - o.x)
      = tile.x * 64 := by ring
  have hy : 2 * ((tile.y + tile.x) * 16 + o.y - o.y) - (32 * (tile.x - tile.y) + o.x - o.x)
      = tile.y * 64 := by ring
  simp only [getTileFromScreenCoords, tileTopPoint_int, point_add_x, point_add_y,
    point_sub_x, point_sub_y, hx, hy]
  have h64 : tileWidth = 64 := rfl
  rw [h64, Int.mul_tdiv_cancel _ (by decide), Int.mul_tdiv_cancel _ (by decide),
    Int.mul_tmod_left, Int.mul_tmod_left]
  simp

/-- C1: round trip. For all integer tile coordinates `(x, y)` and every offset
`o`, `getTileFromScreenCoords(tileTopPoint((x, y)) + o, o)` is the tile `(x, y)`,
and the half-tile discriminator is `left` at every such top vertex. -/
theorem roundTrip_tileTopPoint (x y : Int) (o : Point) :
    (getTileFromScreenCoords (tileTopPoint (⟨x, y⟩ : Point) + o) o).pos = ⟨x, y⟩ ∧
    (getTileFromScreenCoords (tileTopPoint (⟨x, y⟩ : Point) + o) o).half = TileHalf.left := by
  rw [getTileFromScreenCoords_top]
  exact ⟨rfl, rfl⟩

/-- Where both numerators are non-negative the quotients of `std::div` are the
floors, and the returned tile is the one whose diamond contains the point. -/
theorem getTileFromScreenCoords_contains_of_nonneg (screenPos toScreen : Point)
    (hx : 0 ≤ 2 * (screenPos - toScreen).y + (screenPos - toScreen).x)
    (hy : 0 ≤ 2 * (screenPos - toScreen).y - (screenPos - toScreen).x) :
    (64 * (getTileFromScreenCoords screenPos toScreen).pos.x
        ≤ 2 * (screenPos - toScreen).y + (screenPos - toScreen).x ∧
      2 * (screenPos - toScreen).y + (screenPos - toScreen).x
        < 64 * ((getTileFromScreenCoords screenPos toScreen).pos.x + 1)) ∧
    (64 * (getTileFromScreenCoords screenPos toScreen).pos.y
        ≤ 2 * (screenPos - toScreen).y - (screenPos - toScreen).x ∧
      2 * (screenPos - toScreen).y - (screenPos - toScreen).x
        < 64 * ((getTileFromScreenCoords screenPos toScreen).pos.y + 1)) := by
  have h64 : tileWidth = 64 := rfl
  simp only [getTileFromScreenCoords, h64]
  rw [Int.tdiv_eq_ediv hx (by decide), Int.tdiv_eq_ediv hy (by decide)]
  omega

/-- C2: the inverse is not exact left of / above the origin tile. With the
default window and the camera on tile `(0, 0)` (`toScreen = (640, 408)`), the
screen point `(639, 408)` has `d = (-1, 0)`, so `2 * d.y + d.x = -1`;
`std::div` truncates toward zero and the code returns tile `(0, 0)`, for which
`64 * tx <= 2 * d.y + d.x` fails (the point lies in the diamond of tile
`(-1, 0)`). -/
theorem getTileFromScreenCoords_truncates_negative :
    getTileFromScreenCoords ⟨639, 408⟩ ⟨640, 408⟩ = ⟨⟨0, 0⟩, TileHalf.left⟩ ∧
    ¬ (64 * (getTileFromScreenCoords ⟨639, 408⟩ ⟨640, 408⟩).pos.x
        ≤ 2 * ((⟨639, 408⟩ : Point) - ⟨640, 408⟩).y + ((⟨639, 408⟩ : Point) - ⟨640, 408⟩).x) ∧
    (64 * (-1 : Int) ≤ 2 * ((⟨639, 408⟩ : Point) - ⟨640, 408⟩).y + ((⟨639, 408⟩ : Point) - ⟨640, 408⟩).x ∧
      2 * ((⟨639, 408⟩ : Point) - ⟨640, 408⟩).y + ((⟨639, 408⟩ : Point) - ⟨640, 408⟩).x < 64 * (-1 + 1)) := by
  decide

theorem castInt32_of_lt (n : Int) (h0 : 0 ≤ n) (h1 : n < 2 ^ 31) : castInt32 n.toNat = n := by
  unfold castInt32
  have h2 : n.toNat % 2 ^ 32 = n.toNat := Nat.mod_eq_of_lt (by omega)
  rw [h2]
  have h3 : n.toNat < 2 ^ 31 := by omega
  rw [if_pos h3]
  omega

theorem worldToScreenVector_add_tileTopPoint {T : Type} [Scalar T] (WIDTH HEIGHT : Int)
    (c : Vec2 T) :
    worldToScreenVector WIDTH HEIGHT c + tileTopPoint c
      = ⟨WIDTH.tdiv 2, (HEIGHT - bottomMenuSize).tdiv 2⟩ := by
  show (⟨WIDTH.tdiv 2 - (tileTopPoint c).x + (tileTopPoint c).x,
      (HEIGHT - bottomMenuSize).tdiv 2 - (tileTopPoint c).y + (tileTopPoint c).y⟩ : Point) = _
  congr 1 <;> ring

/-- C3: camera centring. For every camera position `c` with zero fractional part
and every window size with `HEIGHT >= 144`, `worldToScreenVector(c) +
tileTopPoint(c)` is the point `(WIDTH/2, (HEIGHT-144)/2)`, and
`getTileByScreenPos(WIDTH/2, (HEIGHT-144)/2, c)` returns tile `c`. -/
theorem camera_centring (scale : Nat) (hs : 0 < scale) (WIDTH HEIGHT : Int) (c : Point)
    (hW0 : 0 ≤ WIDTH) (hW : WIDTH < 2 ^ 31) (hH0 : 144 ≤ HEIGHT) (hH : HEIGHT < 2 ^ 31) :
    worldToScreenVector WIDTH HEIGHT (Vec2Fix.ofTile scale c) + tileTopPoint (Vec2Fix.ofTile scale c)
      = ⟨WIDTH.tdiv 2, (HEIGHT - 144).tdiv 2⟩ ∧
    getTileByScreenPos WIDTH HEIGHT (WIDTH.tdiv 2).toNat ((HEIGHT - 144).tdiv 2).toNat
        (Vec2Fix.ofTile scale c) = ⟨c, TileHalf.left⟩ := by
  refine ⟨worldToScreenVector_add_tileTopPoint WIDTH HEIGHT _, ?_⟩
  have hx0 : 0 ≤ WIDTH.tdiv 2 := Int.tdiv_nonneg hW0 (by decide)
  have hx1 : WIDTH.tdiv 2 < 2 ^ 31 := by
    rw [Int.tdiv_eq_ediv hW0 (by decide)]
    omega
  have hy0 : 0 ≤ (HEIGHT - 144).tdiv 2 := Int.tdiv_nonneg (by omega) (by decide)
  have hy1 : (HEIGHT - 144).tdiv 2 < 2 ^ 31 := by
    rw [Int.tdiv_eq_ediv (by omega) (by decide)]
    omega
  unfold getTileByScreenPos
  rw [castInt32_of_lt _ hx0 hx1, castInt32_of_lt _ hy0 hy1]
  have hsum := worldToScreenVector_add_tileTopPoint WIDTH HEIGHT (Vec2Fix.ofTile scale c)
  have hb : bottomMenuSize = 144 := rfl
  rw [hb, tileTopPoint_fixed scale hs, point_add_comm] at hsum
  show getTileFromScreenCoords _ _ = _
  rw [← hsum]
  exact getTileFromScreenCoords_top c _

/-- Witness of C3: the default 1280 x 960 window, scale 1000, camera on tile (3, 5). -/
theorem camera_centring_witness :
    worldToScreenVector 1280 960 (Vec2Fix.ofTile 1000 ⟨3, 5⟩) + tileTopPoint (Vec2Fix.ofTile 1000 ⟨3, 5⟩)
      = ⟨(1280 : Int).tdiv 2, ((960 : Int) - 144).tdiv 2⟩ ∧
    getTileByScreenPos 1280 960 ((1280 : Int).tdiv 2).toNat (((960 : Int) - 144).tdiv 2).toNat
        (Vec2Fix.ofTile 1000 ⟨3, 5⟩) = ⟨⟨3, 5⟩, TileHalf.left⟩ :=
  camera_centring 1000 (by decide) 1280 960 ⟨3, 5⟩ (by decide) (by decide) (by decide) (by decide)

/-! ### Frame compositing -/

theorem getRGBA_mapRGBA (r g b a : Nat) (hr : r < 256) (hg : g < 256) (hb : b < 256)
    (ha : a < 256) : getRGBA (mapRGBA r g b a) = (r, g, b, a) := by
  unfold getRGBA mapRGBA
  simp only [Prod.mk.injEq]
  refine ⟨?_, ?_, ?_, ?_⟩ <;> omega

theorem setpixel_w (s : Surface) (x y : Int) (c : Colour) : (setpixel s x y c).w = s.w := by
  by_cases h : 0 ≤ pixelIndex s x y <;> simp [setpixel, h]

theorem setpixel_h (s : Surface) (x y : Int) (c : Colour) : (setpixel s x y c).h = s.h := by
  by_cases h : 0 ≤ pixelIndex s x y <;> simp [setpixel, h]

theorem setpixel_length (s : Surface) (x y : Int) (c : Colour) :
    (setpixel s x y c).pixels.length = s.pixels.length := by
  by_cases h : 0 ≤ pixelIndex s x y <;> simp [setpixel, h]

theorem pixelIndex_natCast (s : Surface) (a b : Nat) :
    pixelIndex s a b = ((b * s.w + a : Nat) : Int) := by
  unfold pixelIndex
  push_cast
  rfl

theorem index_inj (w a b p q : Nat) (ha : a < w) (hp : p < w) (h : b * w + a = q * w + p) :
    p = a ∧ q = b := by
  have h1 : (b * w + a) % w = a := by rw [Nat.mul_comm, Nat.mul_add_mod, Nat.mod_eq_of_lt ha]
  have h2 : (q * w + p) % w = p := by rw [Nat.mul_comm, Nat.mul_add_mod, Nat.mod_eq_of_lt hp]
  have h3 : a = p := by rw [← h1, ← h2, h]
  subst h3
  have hw : 0 < w := by omega
  have h4 : b * w = q * w := by omega
  exact ⟨rfl, (Nat.eq_of_mul_eq_mul_right hw h4).symm⟩

theorem rawPixel_setpixel (s : Surface) (hwf : s.pixels.length = s.w * s.h) (a b p q : Nat)
    (ha : a < s.w) (hb : b < s.h) (hp : p < s.w) (c : Colour) :
    rawPixel (setpixel s a b c) p q
      = if p = a ∧ q = b then mapRGBA c.r c.g c.b ((if c.visible then 1 else 0) * 255)
        else rawPixel s p q := by
  have hlen : b * s.w + a < s.pixels.length := by
    rw [hwf]
    calc b * s.w + a < b * s.w + s.w := by omega
      _ = s.w * (b + 1) := by ring
      _ ≤ s.w * s.h := Nat.mul_le_mul_left _ hb
  unfold rawPixel setpixel
  simp only [pixelIndex_natCast, Int.toNat_natCast, Int.natCast_nonneg, if_true,
    List.getD_eq_getElem?_getD, List.getElem?_set]
  by_cases h : b * s.w + a = q * s.w + p
  · have := index_inj s.w a b p q ha hp h
    rw [h] at hlen
    simp [h, this, hlen]
  · have h' : ¬ (p = a ∧ q = b) := by
      rintro ⟨rfl, rfl⟩
      exact h rfl
    simp [h, h']

theorem drawFrameRows_succ (s : Surface) (sx sy : Int) (f : CelFrame) (x n : Nat) :
    drawFrameRows s sx sy f x (n + 1)
      = if (f.get x n).visible then setpixel (drawFrameRows s sx sy f x n) (sx + x) (sy + n) (f.get x n)
        else drawFrameRows s sx sy f x n := by
  unfold drawFrameRows
  rw [List.range_succ, List.foldl_append]
  rfl

theorem drawFrameCols_succ (s : Surface) (sx sy : Int) (f : CelFrame) (m : Nat) :
    drawFrameCols s sx sy f (m + 1)
      = drawFrameRows (drawFrameCols s sx sy f m) sx sy f m f.height := by
  unfold drawFrameCols
  rw [List.range_succ, List.foldl_append]
  rfl

/-- The value stored for a visible frame pixel. -/
theorem mapRGBA_visible (c : Colour) (hv : c.visible = true) :
    mapRGBA c.r c.g c.b ((if c.visible then 1 else 0) * 255) = mapRGBA c.r c.g c.b 255 := by
  rw [if_pos hv]

theorem drawFrameRows_spec (f : CelFrame) (sx sy x : Nat) (s : Surface)
    (hwf : s.pixels.length = s.w * s.h) (hx : sx + x < s.w) (n : Nat) (hn : sy + n ≤ s.h) :
    (drawFrameRows s sx sy f x n).w = s.w ∧ (drawFrameRows s sx sy f x n).h = s.h ∧
    (drawFrameRows s sx sy f x n).pixels.length = s.pixels.length ∧
    ∀ p q : Nat, p < s.w →
      rawPixel (drawFrameRows s sx sy f x n) p q
        = if p = sx + x ∧ sy ≤ q ∧ q < sy + n ∧ (f.get x (q - sy)).visible = true then
            mapRGBA (f.get x (q - sy)).r (f.get x (q - sy)).g (f.get x (q - sy)).b 255
          else rawPixel s p q := by
  induction n with
  | zero =>
    refine ⟨rfl, rfl, rfl, fun p q _ => ?_⟩
    have : ¬ (p = sx + x ∧ sy ≤ q ∧ q < sy + 0 ∧ (f.get x (q - sy)).visible = true) := by
      rintro ⟨_, h1, h2, _⟩
      omega
    rw [if_neg this]
    rfl
  | succ n ih =>
    obtain ⟨ihw, ihh, ihl, ihp⟩ := ih (by omega)
    rw [drawFrameRows_succ]
    by_cases hv : (f.get x n).visible = true
    · rw [if_pos hv]
      have hcx : ((sx : Int) + x) = ((sx + x : Nat) : Int) := by push_cast; rfl
      have hcy : ((sy : Int) + n) = ((sy + n : Nat) : Int) := by push_cast; rfl
      rw [hcx, hcy]
      refine ⟨by rw [setpixel_w, ihw], by rw [setpixel_h, ihh], by rw [setpixel_length, ihl],
        fun p q hp => ?_⟩
      rw [rawPixel_setpixel _ (by rw [ihl, ihw, ihh, hwf]) _ _ _ _ (by rw [ihw]; exact hx)
        (by rw [ihh]; omega) (by rw [ihw]; exact hp), ihp p q hp, mapRGBA_visible _ hv]
      by_cases hpq : p = sx + x ∧ q = sy + n
      · obtain ⟨rfl, rfl⟩ := hpq
        have hq : sy + n - sy = n := by omega
        simp [hq, hv]
      · rw [if_neg hpq]
        apply if_congr _ rfl rfl
        constructor
        · rintro ⟨h1, h2, h3, h4⟩
          exact ⟨h1, h2, by omega, h4⟩
        · rintro ⟨h1, h2, h3, h4⟩
          refine ⟨h1, h2, ?_, h4⟩
          have : q ≠ sy + n := fun h => hpq ⟨h1, h⟩
          omega
    · rw [if_neg hv]
      refine ⟨ihw, ihh, ihl, fun p q hp => ?_⟩
      rw [ihp p q hp]
      apply if_congr _ rfl rfl
      constructor
      · rintro ⟨h1, h2, h3, h4⟩
        exact ⟨h1, h2, by omega, h4⟩
      · rintro ⟨h1, h2, h3, h4⟩
        refine ⟨h1, h2, ?_, h4⟩
        have : q ≠ sy + n := by
          intro h
          have hq' : q - sy = n := by omega
          rw [hq'] at h4
          exact hv h4
        omega

theorem drawFrameCols_spec (f : CelFrame) (sx sy : Nat) (s : Surface)
    (hwf : s.pixels.length = s.w * s.h) (hy : sy + f.height ≤ s.h) (m : Nat) (hm : sx + m ≤ s.w) :
    (drawFrameCols s sx sy f m).w = s.w ∧ (drawFrameCols s sx sy f m).h = s.h ∧
    (drawFrameCols s sx sy f m).pixels.length = s.pixels.length ∧
    ∀ p q : Nat, p < s.w →
      rawPixel (drawFrameCols s sx sy f m) p q
        = if sx ≤ p ∧ p < sx + m ∧ sy ≤ q ∧ q < sy + f.height ∧
              (f.get (p - sx) (q - sy)).visible = true then
            mapRGBA (f.get (p - sx) (q - sy)).r (f.get (p - sx) (q - sy)).g
              (f.get (p - sx) (q - sy)).b 255
          else rawPixel s p q := by
  induction m with
  | zero =>
    refine ⟨rfl, rfl, rfl, fun p q _ => ?_⟩
    have : ¬ (sx ≤ p ∧ p < sx + 0 ∧ sy ≤ q ∧ q < sy + f.height ∧
        (f.get (p - sx) (q - sy)).visible = true) := by
      rintro ⟨h1, h2, _⟩
      omega
    rw [if_neg this]
    rfl
  | succ m ih =>
    obtain ⟨ihw, ihh, ihl, ihp⟩ := ih (by omega)
    rw [drawFrameCols_succ]
    obtain ⟨cw, ch, cl, cp⟩ := drawFrameRows_spec f sx sy m (drawFrameCols s sx sy f m)
      (by rw [ihl, ihw, ihh, hwf]) (by rw [ihw]; omega) f.height (by rw [ihh]; exact hy)
    refine ⟨by rw [cw, ihw], by rw [ch, ihh], by rw [cl, ihl], fun p q hp => ?_⟩
    rw [cp p q (by rw [ihw]; exact hp), ihp p q hp]
    by_cases hpm : p = sx + m
    · subst hpm
      have hpm' : sx + m - sx = m := by omega
      have hno : ¬ (sx ≤ sx + m ∧ sx + m < sx + m ∧ sy ≤ q ∧ q < sy + f.height ∧
          (f.get (sx + m - sx) (q - sy)).visible = true) := by
        rintro ⟨_, h2, _⟩
        omega
      rw [if_neg hno, hpm']
      apply if_congr _ rfl rfl
      constructor
      · rintro ⟨_, h2, h3, h4⟩
        exact ⟨by omega, by omega, h2, h3, h4⟩
      · rintro ⟨_, _, h2, h3, h4⟩
        exact ⟨rfl, h2, h3, h4⟩
    · have hno : ¬ (p = sx + m ∧ sy ≤ q ∧ q < sy + f.height ∧
          (f.get m (q - sy)).visible = true) := fun h => hpm h.1
      rw [if_neg hno]
      apply if_congr _ rfl rfl
      constructor
      · rintro ⟨h1, h2, h3⟩
        exact ⟨h1, by omega, h3⟩
      · rintro ⟨h1, h2, h3⟩
        exact ⟨h1, by omega, h3⟩

theorem drawFrame_spec (f : CelFrame) (sx sy : Nat) (s : Surface)
    (hwf : s.pixels.length = s.w * s.h) (hx : sx + f.width ≤ s.w) (hy : sy + f.height ≤ s.h)
    (p q : Nat) (hp : p < s.w) :
    rawPixel (drawFrame s sx sy f) p q
      = if sx ≤ p ∧ p < sx + f.width ∧ sy ≤ q ∧ q < sy + f.height ∧
            (f.get (p - sx) (q - sy)).visible = true then
          mapRGBA (f.get (p - sx) (q - sy)).r (f.get (p - sx) (q - sy)).g
            (f.get (p - sx) (q - sy)).b 255
        else rawPixel s p q :=
  (drawFrameCols_spec f sx sy s hwf hy f.width hx).2.2.2 p q hp

theorem rawPixel_createTransparentSurface (width height : Nat) (x y : Int) :
    rawPixel (createTransparentSurface width height) x y = 0 := by
  unfold rawPixel createTransparentSurface clearTransparentSurface
  split
  · simp only [List.getD_eq_getElem?_getD, List.getElem?_replicate]
    split <;> rfl
  · rfl

/-- C4: transparent compositing. For a frame `f` and a 32-bit surface `s` that
contains the rectangle `[sx, sx+w) x [sy, sy+h)`, after `drawFrame(s, sx, sy, f)`
the pixel at `(sx+x, sy+y)` holds `(r, g, b, 255)` of `f.get(x, y)` when that
frame pixel is visible and is unchanged otherwise, every pixel outside the
rectangle is unchanged, and on a freshly created transparent surface the pixels
with alpha 255 are exactly the visible frame pixels, all others having alpha 0. -/
theorem drawFrame_transparent_compositing (f : CelFrame) (s : Surface) (sx sy : Int)
    (hwf : s.pixels.length = s.w * s.h) (hx0 : 0 ≤ sx) (hy0 : 0 ≤ sy)
    (hx1 : sx + f.width ≤ s.w) (hy1 : sy + f.height ≤ s.h) :
    (∀ x y : Nat, x < f.width → y < f.height →
      rawPixel (drawFrame s sx sy f) (sx + x) (sy + y)
        = if (f.get x y).visible then mapRGBA (f.get x y).r (f.get x y).g (f.get x y).b 255
          else rawPixel s (sx + x) (sy + y)) ∧
    (∀ x y : Nat, x < f.width → y < f.height → (f.get x y).visible = true →
      getRGBA (rawPixel (drawFrame s sx sy f) (sx + x) (sy + y))
        = (((f.get x y).r : Nat), ((f.get x y).g : Nat), ((f.get x y).b : Nat), 255)) ∧
    (∀ px py : Int, 0 ≤ px → px < s.w → 0 ≤ py → py < s.h →
      ¬ (sx ≤ px ∧ px < sx + f.width ∧ sy ≤ py ∧ py < sy + f.height) →
      rawPixel (drawFrame s sx sy f) px py = rawPixel s px py) ∧
    (s = createTransparentSurface s.w s.h →
      ∀ px py : Int, 0 ≤ px → px < s.w → 0 ≤ py → py < s.h →
        (getRGBA (rawPixel (drawFrame s sx sy f) px py)).2.2.2
          = if sx ≤ px ∧ px < sx + f.width ∧ sy ≤ py ∧ py < sy + f.height ∧
                (f.get (px - sx).toNat (py - sy).toNat).visible = true then 255 else 0) := by
  lift sx to Nat using hx0
  lift sy to Nat using hy0
  have hx : sx + f.width ≤ s.w := by exact_mod_cast hx1
  have hy : sy + f.height ≤ s.h := by exact_mod_cast hy1
  have key : ∀ x y : Nat, x < f.width → y < f.height →
      rawPixel (drawFrame s sx sy f) ((sx : Int) + x) ((sy : Int) + y)
        = if (f.get x y).visible then mapRGBA (f.get x y).r (f.get x y).g (f.get x y).b 255
          else rawPixel s ((sx : Int) + x) ((sy : Int) + y) := by
    intro x y hxw hyh
    have hcx : ((sx : Int) + x) = ((sx + x : Nat) : Int) := by push_cast; rfl
    have hcy : ((sy : Int) + y) = ((sy + y : Nat) : Int) := by push_cast; rfl
    rw [hcx, hcy, drawFrame_spec f sx sy s hwf hx hy _ _ (by omega)]
    have e1 : sx + x - sx = x := by omega
    have e2 : sy + y - sy = y := by omega
    rw [e1, e2]
    apply if_congr _ rfl rfl
    constructor
    · rintro ⟨_, _, _, _, h⟩
      exact h
    · intro h
      exact ⟨by omega, by omega, by omega, by omega, h⟩
  refine ⟨key, ?_, ?_, ?_⟩
  · intro x y hxw hyh hv
    rw [key x y hxw hyh, if_pos hv]
    exact getRGBA_mapRGBA _ _ _ 255 (f.get x y).r.isLt (f.get x y).g.isLt (f.get x y).b.isLt
      (by decide)
  · intro px py hp0 hp1 hq0 hq1 hout
    lift px to Nat using hp0
    lift py to Nat using hq0
    rw [drawFrame_spec f sx sy s hwf hx hy _ _ (by exact_mod_cast hp1)]
    apply if_neg
    rintro ⟨h1, h2, h3, h4, _⟩
    apply hout
    refine ⟨?_, ?_, ?_, ?_⟩ <;> omega
  · intro hs px py hp0 hp1 hq0 hq1
    lift px to Nat using hp0
    lift py to Nat using hq0
    rw [drawFrame_spec f sx sy s hwf hx hy _ _ (by exact_mod_cast hp1)]
    have e1 : ((px : Int) - sx).toNat = px - sx := by omega
    have e2 : ((py : Int) - sy).toNat = py - sy := by omega
    rw [e1, e2]
    have hc : (sx ≤ px ∧ px < sx + f.width ∧ sy ≤ py ∧ py < sy + f.height ∧
          (f.get (px - sx) (py - sy)).visible = true)
        ↔ ((sx : Int) ≤ px ∧ (px : Int) < sx + f.width ∧ (sy : Int) ≤ py ∧
          (py : Int) < sy + f.height ∧ (f.get (px - sx) (py - sy)).visible = true) := by
      constructor
      · rintro ⟨h1, h2, h3, h4, h5⟩
        exact ⟨by omega, by omega, by omega, by omega, h5⟩
      · rintro ⟨h1, h2, h3, h4, h5⟩
        exact ⟨by omega, by omega, by omega, by omega, h5⟩
    rw [if_congr hc rfl rfl]
    split
    · rw [getRGBA_mapRGBA _ _ _ 255 (Fin.isLt _) (Fin.isLt _) (Fin.isLt _) (by decide)]
    · rw [hs, rawPixel_createTransparentSurface]
      rfl

/-- Witness of C4: the 2 x 2 example frame drawn at the origin of a fresh 2 x 2
transparent surface gives two opaque pixels at their positions and two
fully transparent ones. -/
theorem drawFrame_transparent_compositing_witness :
    (getRGBA (rawPixel (drawFrame (createTransparentSurface 2 2) 0 0 exampleFrame) 0 0)
        = (10, 0, 0, 255) ∧
      getRGBA (rawPixel (drawFrame (createTransparentSurface 2 2) 0 0 exampleFrame) 1 1)
        = (0, 0, 10, 255)) ∧
    ((getRGBA (rawPixel (drawFrame (createTransparentSurface 2 2) 0 0 exampleFrame) 1 0)).2.2.2 = 0 ∧
      (getRGBA (rawPixel (drawFrame (createTransparentSurface 2 2) 0 0 exampleFrame) 0 1)).2.2.2 = 0) := by
  have h := drawFrame_transparent_compositing exampleFrame (createTransparentSurface 2 2) 0 0
    (by decide) (by decide) (by decide) (by decide) (by decide)
  refine ⟨⟨h.2.1 0 0 (by decide) (by decide) rfl, h.2.1 1 1 (by decide) (by decide) rfl⟩, ?_, ?_⟩
  · exact h.2.2.2 rfl 1 0 (by decide) (by decide) (by decide) (by decide)
  · exact h.2.2.2 rfl 0 1 (by decide) (by decide) (by decide) (by decide)

/-! ### Draw-level cache -/

theorem addSprite_present (lookupMap : LookupMap) (cache : DrawLevelCache) (h : Nat)
    (e : AtlasTextureEntry) (sx sy : Int) (c : Option Colour) (he : lookupMap h = some e) :
    cache.addSprite lookupMap h sx sy c
      = (Except.ok (), ⟨cache.mInstanceData ++
          [⟨(e.mWidth, e.mHeight), (e.mX, e.mY, e.mLayer), (sx, sy),
            match c with
            | some c => (c.r.val, c.g.val, c.b.val, 255)
            | none => (0, 0, 0, 0)⟩]⟩) := by
  unfold DrawLevelCache.addSprite
  rw [he]
  cases c <;> rfl

theorem addSprite_absent (lookupMap : LookupMap) (cache : DrawLevelCache) (h : Nat)
    (sx sy : Int) (c : Option Colour) (he : lookupMap h = none) :
    cache.addSprite lookupMap h sx sy c = (Except.error RenderError.outOfRange, cache) := by
  unfold DrawLevelCache.addSprite
  rw [he]

/-- C6: idempotent clear. For every cache state, `clear()` leaves
`instanceCount() = 0`, a second `clear()` again leaves `instanceCount() = 0`,
and an `addSprite` with a handle present in the atlas lookup map after the clear
succeeds and leaves `instanceCount() = 1`. -/
theorem clear_idempotent_then_addSprite (lookupMap : LookupMap) (cache : DrawLevelCache)
    (h : Nat) (e : AtlasTextureEntry) (sx sy : Int) (c : Option Colour)
    (he : lookupMap h = some e) :
    cache.clear.instanceCount = 0 ∧ cache.clear.clear.instanceCount = 0 ∧
    (cache.clear.addSprite lookupMap h sx sy c).1 = Except.ok () ∧
    (cache.clear.addSprite lookupMap h sx sy c).2.instanceCount = 1 ∧
    (cache.clear.clear.addSprite lookupMap h sx sy c).2.instanceCount = 1 := by
  rw [addSprite_present lookupMap _ h e sx sy c he, addSprite_present lookupMap _ h e sx sy c he]
  exact ⟨rfl, rfl, rfl, rfl, rfl⟩

/-- Witness of C6: a cache holding three records, cleared, then one sprite added. -/
theorem clear_idempotent_then_addSprite_witness :
    (DrawLevelCache.create 3).clear.instanceCount = 0 ∧
    (DrawLevelCache.create 3).clear.clear.instanceCount = 0 ∧
    ((DrawLevelCache.create 3).clear.addSprite (fun _ => some ⟨1, 2, 0, 64, 256⟩) 7 10 20 none).1
      = Except.ok () ∧
    ((DrawLevelCache.create 3).clear.addSprite (fun _ => some ⟨1, 2, 0, 64, 256⟩) 7 10 20
      none).2.instanceCount = 1 ∧
    ((DrawLevelCache.create 3).clear.clear.addSprite (fun _ => some ⟨1, 2, 0, 64, 256⟩) 7 10 20
      none).2.instanceCount = 1 :=
  clear_idempotent_then_addSprite (fun _ => some ⟨1, 2, 0, 64, 256⟩) (DrawLevelCache.create 3) 7
    ⟨1, 2, 0, 64, 256⟩ 10 20 none rfl

theorem addSprites_count (lookupMap : LookupMap) (calls : List (Nat × Int × Int × Option Colour))
    (cache : DrawLevelCache)
    (hok : (cache.addSprites lookupMap calls).1 = Except.ok ()) :
    (cache.addSprites lookupMap calls).2.instanceCount = cache.instanceCount + calls.length := by
  induction calls generalizing cache with
  | nil => rfl
  | cons call rest ih =>
    obtain ⟨sprite, x, y, c⟩ := call
    unfold DrawLevelCache.addSprites at hok ⊢
    cases he : lookupMap sprite with
    | none =>
      rw [addSprite_absent lookupMap cache sprite x y c he] at hok
      cases hok
    | some e =>
      rw [addSprite_present lookupMap cache sprite e x y c he] at hok ⊢
      simp only [] at hok ⊢
      rw [ih _ hok]
      simp only [DrawLevelCache.instanceCount, List.length_append, List.length_cons,
        List.length_nil]
      omega

/-- C7: the constructor argument is not only a capacity hint. `resize(initSize)`
gives the new cache `initSize` zeroed records: `DrawLevelCache(n)` has
`instanceCount() = n`, the global cache built with 2000 has 2000 instances and
`getData()` reports 2000 records, and after `k` successful `addSprite` calls on
it the count is `2000 + k`, not `k`. -/
theorem create_holds_initSize_instances :
    (∀ n : Nat, (DrawLevelCache.create n).instanceCount = n) ∧
    initialDrawLevelCache.instanceCount = 2000 ∧
    (∀ recordSize : Nat, initialDrawLevelCache.getData recordSize = 2000 * recordSize) ∧
    (∀ (lookupMap : LookupMap) (calls : List (Nat × Int × Int × Option Colour)),
      (initialDrawLevelCache.addSprites lookupMap calls).1 = Except.ok () →
      (initialDrawLevelCache.addSprites lookupMap calls).2.instanceCount = 2000 + calls.length) := by
  have hn : ∀ n : Nat, (DrawLevelCache.create n).instanceCount = n := fun n => by
    simp [DrawLevelCache.create, DrawLevelCache.instanceCount]
  refine ⟨hn, hn 2000, fun r => ?_, fun lookupMap calls hok => ?_⟩
  · show (List.replicate 2000 SpriteVertexPerInstance.zero).length * r = 2000 * r
    rw [List.length_replicate]
  · rw [addSprites_count lookupMap calls _ hok]
    exact congrArg (· + calls.length) (hn 2000)

/-- C8: for a handle `h` with atlas entry `e`, `addSprite(h, sx, sy, c)` succeeds,
appends exactly one record after the earlier ones, which are unchanged, and
the record has `imageSize = (e.width, e.height)`, `atlasOffset = (e.x, e.y,
e.layer)`, `imageOffset = (sx, sy)` and `hoverColor = (c.r, c.g, c.b, 255)` when
`c` is present, `(0, 0, 0, 0)` when it is absent. -/
theorem addSprite_appends_record (lookupMap : LookupMap) (cache : DrawLevelCache) (h : Nat)
    (e : AtlasTextureEntry) (sx sy : Int) (c : Option Colour) (he : lookupMap h = some e) :
    (cache.addSprite lookupMap h sx sy c).1 = Except.ok () ∧
    (cache.addSprite lookupMap h sx sy c).2.mInstanceData
      = cache.mInstanceData ++
          [{ v_imageSize := (e.mWidth, e.mHeight)
             v_atlasOffset := (e.mX, e.mY, e.mLayer)
             v_imageOffset := (sx, sy)
             v_hoverColor :=
               match c with
               | some c => (c.r.val, c.g.val, c.b.val, 255)
               | none => (0, 0, 0, 0) }] ∧
    (cache.addSprite lookupMap h sx sy c).2.instanceCount = cache.instanceCount + 1 := by
  rw [addSprite_present lookupMap cache h e sx sy c he]
  refine ⟨rfl, rfl, ?_⟩
  simp [DrawLevelCache.instanceCount]

/-- Witness of C8: a cache with two records, handle 7 with a 64 x 256 entry at
`(1, 2)` of layer 3, drawn at `(10, -20)` with a hover colour. -/
theorem addSprite_appends_record_witness :
    ((DrawLevelCache.create 2).addSprite (fun k => if k = 7 then some ⟨1, 2, 3, 64, 256⟩ else none)
      7 10 (-20) (some ⟨200, 100, 50, true⟩)).2.mInstanceData
      = [SpriteVertexPerInstance.zero, SpriteVertexPerInstance.zero,
          ⟨(64, 256), (1, 2, 3), (10, -20), (200, 100, 50, 255)⟩] :=
  (addSprite_appends_record (fun k => if k = 7 then some ⟨1, 2, 3, 64, 256⟩ else none)
    (DrawLevelCache.create 2) 7 ⟨1, 2, 3, 64, 256⟩ 10 (-20) (some ⟨200, 100, 50, true⟩) rfl).2.1

/-- C9: an unknown handle is a hard failure. For a handle absent from the atlas
lookup map, `addSprite` fails with `out_of_range` and the cache is what it was
before the call; `drawSprite` fails the same way and leaves the whole renderer
state as it was; `spriteSize` fails too. -/
theorem unknown_handle_fails (lookupMap : LookupMap) (cache : DrawLevelCache)
    (st : RenderState) (h : Nat) (sx sy : Int) (c : Option Colour) (he : lookupMap h = none) :
    cache.addSprite lookupMap h sx sy c = (Except.error RenderError.outOfRange, cache) ∧
    drawSprite lookupMap h sx sy c st = (Except.error RenderError.outOfRange, st) ∧
    (h < 2 ^ 32 →
      drawSpriteHandle lookupMap h sx sy c st = (Except.error RenderError.outOfRange, st)) ∧
    spriteSize lookupMap h = Except.error RenderError.outOfRange := by
  have hd : drawSprite lookupMap h sx sy c st = (Except.error RenderError.outOfRange, st) := by
    unfold drawSprite
    rw [addSprite_absent lookupMap _ h sx sy c he]
  refine ⟨addSprite_absent lookupMap cache h sx sy c he, hd, fun hlt => ?_, ?_⟩
  · unfold drawSpriteHandle
    rw [Nat.mod_eq_of_lt hlt]
    exact hd
  · unfold spriteSize
    rw [he]

/-- Witness of C9: handle 8 against a lookup map that only knows handle 7. -/
theorem unknown_handle_fails_witness :
    (DrawLevelCache.create 2).addSprite (fun k => if k = 7 then some ⟨1, 2, 3, 64, 256⟩ else none)
        8 10 20 none
      = (Except.error RenderError.outOfRange, DrawLevelCache.create 2) ∧
    spriteSize (fun k => if k = 7 then some ⟨1, 2, 3, 64, 256⟩ else none) 8
      = Except.error RenderError.outOfRange :=
  ⟨(unknown_handle_fails (fun k => if k = 7 then some ⟨1, 2, 3, 64, 256⟩ else none)
      (DrawLevelCache.create 2) ⟨DrawLevelCache.create 2, []⟩ 8 10 20 none rfl).1,
    (unknown_handle_fails (fun k => if k = 7 then some ⟨1, 2, 3, 64, 256⟩ else none)
      (DrawLevelCache.create 2) ⟨DrawLevelCache.create 2, []⟩ 8 10 20 none rfl).2.2.2⟩


/-! ### Level traversal and level drawing -/

theorem processLineLoop_anchored (WIDTH : Int) (toScreen : Point) (fuel : Nat) :
    ∀ (point : Point) (tile : Tile), point = tileTopPoint tile.pos + toScreen →
      ∀ tp ∈ processLineLoop WIDTH fuel point tile, tp.2 = tileTopPoint tp.1.pos + toScreen := by
  induction fuel with
  | zero =>
    intro point tile _ tp htp
    simp [processLineLoop] at htp
  | succ fuel ih =>
    intro point tile hpt tp htp
    unfold processLineLoop at htp
    split at htp
    · have hnext : (⟨point.x + tileWidth, point.y⟩ : Point)
          = tileTopPoint (⟨tile.pos.x + 1, tile.pos.y - 1⟩ : Point) + toScreen := by
        rw [hpt, tileTopPoint_int, tileTopPoint_int]
        show (⟨32 * (tile.pos.x - tile.pos.y) + toScreen.x + 64,
            (tile.pos.y + tile.pos.x) * 16 + toScreen.y⟩ : Point)
          = ⟨32 * (tile.pos.x + 1 - (tile.pos.y - 1)) + toScreen.x,
            (tile.pos.y - 1 + (tile.pos.x + 1)) * 16 + toScreen.y⟩
        congr 1 <;> ring
      rcases List.mem_cons.mp htp with h | h
      · rw [h]
        exact hnext
      · exact ih _ _ hnext tp h
    · simp at htp

theorem processLine_anchored (WIDTH : Int) (toScreen : Point) (point : Point) (tile : Tile)
    (hpt : point = tileTopPoint tile.pos + toScreen) :
    ∀ tp ∈ processLine WIDTH point tile, tp.2 = tileTopPoint tp.1.pos + toScreen :=
  processLineLoop_anchored WIDTH toScreen _ point tile hpt

theorem scanLoop_anchored (WIDTH HEIGHT : Int) (toScreen : Point) (fuel : Nat) :
    ∀ (point : Point) (tile : Tile), point = tileTopPoint tile.pos + toScreen →
      ∀ tp ∈ scanLoop WIDTH HEIGHT fuel point tile, tp.2 = tileTopPoint tp.1.pos + toScreen := by
  induction fuel with
  | zero =>
    intro point tile _ tp htp
    simp [scanLoop] at htp
  | succ fuel ih =>
    intro point tile hpt tp htp
    unfold scanLoop at htp
    split at htp
    · have h1 : (⟨point.x - tileWidth.tdiv 2, point.y + tileHeight.tdiv 2⟩ : Point)
          = tileTopPoint (⟨tile.pos.x, tile.pos.y + 1⟩ : Point) + toScreen := by
        rw [hpt, tileTopPoint_int, tileTopPoint_int]
        show (⟨32 * (tile.pos.x - tile.pos.y) + toScreen.x - 32,
            (tile.pos.y + tile.pos.x) * 16 + toScreen.y + 16⟩ : Point)
          = ⟨32 * (tile.pos.x - (tile.pos.y + 1)) + toScreen.x,
            (tile.pos.y + 1 + tile.pos.x) * 16 + toScreen.y⟩
        congr 1 <;> ring
      have h2 : (⟨point.x - tileWidth.tdiv 2 + tileWidth.tdiv 2,
            point.y + tileHeight.tdiv 2 + tileHeight.tdiv 2⟩ : Point)
          = tileTopPoint (⟨tile.pos.x + 1, tile.pos.y + 1⟩ : Point) + toScreen := by
        rw [hpt, tileTopPoint_int, tileTopPoint_int]
        show (⟨32 * (tile.pos.x - tile.pos.y) + toScreen.x - 32 + 32,
            (tile.pos.y + tile.pos.x) * 16 + toScreen.y + 16 + 16⟩ : Point)
          = ⟨32 * (tile.pos.x + 1 - (tile.pos.y + 1)) + toScreen.x,
            (tile.pos.y + 1 + (tile.pos.x + 1)) * 16 + toScreen.y⟩
        congr 1 <;> ring
      rcases List.mem_append.mp htp with h | h
      · rcases List.mem_append.mp h with h | h
        · exact processLine_anchored WIDTH toScreen _ _ h1 tp h
        · exact processLine_anchored WIDTH toScreen _ _ h2 tp h
      · exact ih _ _ h2 tp h
    · simp at htp

theorem visitedTiles_anchored (toScreen : Point) (WIDTH HEIGHT : Int) :
    ∀ tp ∈ visitedTiles toScreen WIDTH HEIGHT, tp.2 = tileTopPoint tp.1.pos + toScreen :=
  scanLoop_anchored WIDTH HEIGHT toScreen _ _ _ rfl


theorem bind_apply {α β : Type} (m : RenderM α) (f : α → RenderM β) (st : RenderState) :
    (m >>= f) st
      = match m st with
        | (Except.ok a, st1) => f a st1
        | (Except.error e, st1) => (Except.error e, st1) :=
  rfl

theorem drawAtTile_present (lookupMap : LookupMap) (sprite : Nat) (e : AtlasTextureEntry)
    (tileTop : Point) (spriteW spriteH : Int) (c : Option Colour) (st : RenderState)
    (he : lookupMap (sprite % 2 ^ 32) = some e) :
    drawAtTile lookupMap sprite tileTop spriteW spriteH c st
      = (Except.ok (),
          { drawLevelCache := ⟨st.drawLevelCache.mInstanceData ++
              [⟨(e.mWidth, e.mHeight), (e.mX, e.mY, e.mLayer),
                (tileTop.x - spriteW.tdiv 2, tileTop.y - spriteH + 32),
                match c with
                | some c => (c.r.val, c.g.val, c.b.val, 255)
                | none => (0, 0, 0, 0)⟩]⟩
            log := st.log }) := by
  unfold drawAtTile drawSpriteHandle drawSprite
  rw [addSprite_present lookupMap _ _ e _ _ c he]
  rfl

theorem groundTile_invalid (lookupMap : LookupMap) (level : Level) (minBottoms : SpriteGroup)
    (tile : Tile) (topLeft : Point) (st : RenderState) (sprite : Nat) (e : AtlasTextureEntry)
    (hinv : isInvalidTile level tile = true) (h0 : minBottoms.mSprites[0]? = some sprite)
    (he : lookupMap (sprite % 2 ^ 32) = some e) :
    groundTile lookupMap level minBottoms tile topLeft st
      = (Except.ok (),
          { drawLevelCache := ⟨st.drawLevelCache.mInstanceData ++
              [⟨(e.mWidth, e.mHeight), (e.mX, e.mY, e.mLayer),
                (topLeft.x - (64 : Int).tdiv 2, topLeft.y - 256 + 32), (0, 0, 0, 0)⟩]⟩
            log := st.log }) := by
  have hat : minBottoms.at 0 = Except.ok sprite := by
    unfold SpriteGroup.at
    rw [if_pos (le_refl 0)]
    show (match minBottoms.mSprites[0]? with
      | some sprite => Except.ok sprite
      | none => Except.error RenderError.assertFailed) = _
    rw [h0]
  unfold groundTile
  rw [if_pos hinv, bind_apply, hat]
  show drawAtTile lookupMap sprite topLeft tileWidth staticObjectHeight none st = _
  rw [drawAtTile_present lookupMap sprite e topLeft _ _ none st he]
  rfl

theorem overlayTile_invalid {scale : Nat} (lookupMap : LookupMap) (level : Level)
    (minTops : SpriteGroup) (specialSpritesHandle : Nat) (specialSpritesMap : Int → Option Int)
    (cache : Nat → SpriteGroup) (objs items : LevelObjects scale) (toScreen : Point)
    (tile : Tile) (topLeft : Point) (st : RenderState)
    (hinv : isInvalidTile level tile = true) :
    overlayTile lookupMap level minTops specialSpritesHandle specialSpritesMap cache objs items
      toScreen tile topLeft st = (Except.ok (), st) := by
  unfold overlayTile
  rw [if_pos hinv]
  rfl


theorem processLineLoop_succ (WIDTH : Int) (fuel : Nat) (point : Point) (tile : Tile) :
    processLineLoop WIDTH (fuel + 1) point tile
      = if point.x < WIDTH + tileWidth.tdiv 2 then
          (⟨⟨tile.pos.x + 1, tile.pos.y - 1⟩, tile.half⟩, ⟨point.x + tileWidth, point.y⟩) ::
            processLineLoop WIDTH fuel ⟨point.x + tileWidth, point.y⟩
              ⟨⟨tile.pos.x + 1, tile.pos.y - 1⟩, tile.half⟩
        else [] :=
  rfl

theorem scanLoop_succ (WIDTH HEIGHT : Int) (fuel : Nat) (startingPoint : Point)
    (startingTile : Tile) :
    scanLoop WIDTH HEIGHT (fuel + 1) startingPoint startingTile
      = if startingPoint.y < HEIGHT + staticObjectHeight - tileHeight then
          processLine WIDTH
              ⟨startingPoint.x - tileWidth.tdiv 2, startingPoint.y + tileHeight.tdiv 2⟩
              ⟨⟨startingTile.pos.x, startingTile.pos.y + 1⟩, startingTile.half⟩ ++
            processLine WIDTH
              ⟨startingPoint.x - tileWidth.tdiv 2 + tileWidth.tdiv 2,
                startingPoint.y + tileHeight.tdiv 2 + tileHeight.tdiv 2⟩
              ⟨⟨startingTile.pos.x + 1, startingTile.pos.y + 1⟩, startingTile.half⟩ ++
            scanLoop WIDTH HEIGHT fuel
              ⟨startingPoint.x - tileWidth.tdiv 2 + tileWidth.tdiv 2,
                startingPoint.y + tileHeight.tdiv 2 + tileHeight.tdiv 2⟩
              ⟨⟨startingTile.pos.x + 1, startingTile.pos.y + 1⟩, startingTile.half⟩
        else [] :=
  rfl

theorem processLineLoop_fuel (WIDTH : Int) (fuel : Nat) :
    ∀ (point : Point) (tile : Tile), (WIDTH + tileWidth.tdiv 2 - point.x).toNat ≤ fuel →
      processLineLoop WIDTH (fuel + 1) point tile = processLineLoop WIDTH fuel point tile := by
  have h64 : tileWidth = 64 := rfl
  have h32 : tileWidth.tdiv 2 = 32 := rfl
  induction fuel with
  | zero =>
    intro point tile hm
    rw [processLineLoop_succ, if_neg (by omega)]
    rfl
  | succ fuel ih =>
    intro point tile hm
    rw [processLineLoop_succ WIDTH (fuel + 1)]
    conv_rhs => rw [processLineLoop_succ WIDTH fuel]
    split
    · rename_i hc
      have hb : (WIDTH + tileWidth.tdiv 2 - (point.x + tileWidth)).toNat ≤ fuel := by
        rw [h32, h64] at *
        omega
      rw [ih _ _ hb]
    · rfl

/-- The line loop leaves through its condition: any bound from the distance
`WIDTH + tileWidth / 2 - point.x` on gives the calls of `processLine`. -/
theorem processLineLoop_eq_processLine (WIDTH : Int) (point : Point) (tile : Tile) (extra : Nat) :
    processLineLoop WIDTH ((WIDTH + tileWidth.tdiv 2 - point.x).toNat + extra) point tile
      = processLine WIDTH point tile := by
  induction extra with
  | zero => rfl
  | succ extra ih =>
    rw [← ih, ← Nat.add_assoc]
    exact processLineLoop_fuel WIDTH _ point tile (by omega)

theorem scanLoop_fuel (WIDTH HEIGHT : Int) (fuel : Nat) :
    ∀ (point : Point) (tile : Tile),
      (HEIGHT + staticObjectHeight - tileHeight - point.y).toNat ≤ fuel →
      scanLoop WIDTH HEIGHT (fuel + 1) point tile = scanLoop WIDTH HEIGHT fuel point tile := by
  have h256 : staticObjectHeight = 256 := rfl
  have h32 : tileHeight = 32 := rfl
  have h16 : tileHeight.tdiv 2 = 16 := rfl
  induction fuel with
  | zero =>
    intro point tile hm
    rw [scanLoop_succ, if_neg (by omega)]
    rfl
  | succ fuel ih =>
    intro point tile hm
    rw [scanLoop_succ WIDTH HEIGHT (fuel + 1)]
    conv_rhs => rw [scanLoop_succ WIDTH HEIGHT fuel]
    split
    · rename_i hc
      have hb : (HEIGHT + staticObjectHeight - tileHeight
          - (point.y + tileHeight.tdiv 2 + tileHeight.tdiv 2)).toNat ≤ fuel := by
        rw [h16, h256, h32] at *
        omega
      rw [ih _ _ hb]
    · rfl

/-- The scan loop leaves through its condition: any bound from the distance
`HEIGHT + staticObjectHeight - tileHeight - startingPoint.y` on gives the same calls. -/
theorem scanLoop_fuel_add (WIDTH HEIGHT : Int) (point : Point) (tile : Tile) (extra : Nat) :
    scanLoop WIDTH HEIGHT
        ((HEIGHT + staticObjectHeight - tileHeight - point.y).toNat + extra) point tile
      = scanLoop WIDTH HEIGHT (HEIGHT + staticObjectHeight - tileHeight - point.y).toNat
          point tile := by
  induction extra with
  | zero => rfl
  | succ extra ih =>
    rw [← ih, ← Nat.add_assoc]
    exact scanLoop_fuel WIDTH HEIGHT _ point tile (by omega)

theorem readsInLevel_pure {α : Type} (level : Level) (a : α) :
    ReadsInLevel level (pure a : RenderM α) :=
  fun st => ⟨[], (List.append_nil st.log).symm, fun _ h => absurd h (List.not_mem_nil _)⟩

theorem readsInLevel_bind {α β : Type} (level : Level) (m : RenderM α) (f : α → RenderM β)
    (hm : ReadsInLevel level m) (hf : ∀ a, ReadsInLevel level (f a)) :
    ReadsInLevel level (m >>= f) := by
  intro st
  obtain ⟨e1, h1, v1⟩ := hm st
  rw [bind_apply]
  cases hr : m st with
  | mk r st1 =>
    rw [hr] at h1
    cases r with
    | error e => exact ⟨e1, h1, v1⟩
    | ok a =>
      obtain ⟨e2, h2, v2⟩ := hf a st1
      refine ⟨e1 ++ e2, ?_, ?_⟩
      · show (f a st1).2.log = _
        rw [h2, h1, List.append_assoc]
      · intro b hb
        rcases List.mem_append.mp hb with h | h
        · exact v1 b h
        · exact v2 b h

theorem readsInLevel_logAccess (level : Level) (a : Access) (ha : Access.inLevel level a) :
    ReadsInLevel level (logAccess a) :=
  fun st => ⟨[a], rfl, fun b hb => by rw [List.mem_singleton.mp hb]; exact ha⟩

theorem readsInLevel_liftExcept {α : Type} (level : Level) (r : Except RenderError α) :
    ReadsInLevel level (liftExcept r) :=
  fun st => ⟨[], (List.append_nil st.log).symm, fun _ h => absurd h (List.not_mem_nil _)⟩

theorem readsInLevel_drawAtTile (level : Level) (lookupMap : LookupMap) (sprite : Nat)
    (tileTop : Point) (spriteW spriteH : Int) (c : Option Colour) :
    ReadsInLevel level (drawAtTile lookupMap sprite tileTop spriteW spriteH c) :=
  fun st => ⟨[], (List.append_nil st.log).symm, fun _ h => absurd h (List.not_mem_nil _)⟩

theorem readsInLevel_cacheGet (level : Level) (cache : Nat → SpriteGroup) (handle : Nat) :
    ReadsInLevel level (cacheGet cache handle) :=
  readsInLevel_bind level _ _ (readsInLevel_logAccess level _ trivial)
    (fun _ => readsInLevel_pure level _)

theorem readsInLevel_forM {α : Type} (level : Level) (f : α → RenderM PUnit) (l : List α)
    (hf : ∀ a, ReadsInLevel level (f a)) : ReadsInLevel level (l.forM f) := by
  induction l with
  | nil => exact readsInLevel_pure level _
  | cons a rest ih =>
    show ReadsInLevel level (f a >>= fun _ => rest.forM f)
    exact readsInLevel_bind level _ _ (hf a) (fun _ => ih)

theorem inLevel_of_not_invalid (level : Level) (tile : Tile)
    (hv : ¬ isInvalidTile level tile = true) :
    isInvalidTile level ⟨tile.pos, TileHalf.left⟩ = false := by
  have h : isInvalidTile level ⟨tile.pos, TileHalf.left⟩ = isInvalidTile level tile := rfl
  rw [h]
  exact Bool.eq_false_iff.mpr hv

theorem readsInLevel_groundTile (lookupMap : LookupMap) (level : Level) (minBottoms : SpriteGroup)
    (tile : Tile) (topLeft : Point) :
    ReadsInLevel level (groundTile lookupMap level minBottoms tile topLeft) := by
  unfold groundTile
  split
  · exact readsInLevel_bind level _ _ (readsInLevel_liftExcept level _)
      (fun _ => readsInLevel_drawAtTile level _ _ _ _ _ _)
  · rename_i hv
    refine readsInLevel_bind level _ _ ?_ (fun index => ?_)
    · exact readsInLevel_bind level _ _
        (readsInLevel_logAccess level _ (inLevel_of_not_invalid level tile hv))
        (fun _ => readsInLevel_pure level _)
    · split
      · exact readsInLevel_bind level _ _ (readsInLevel_liftExcept level _)
          (fun _ => readsInLevel_drawAtTile level _ _ _ _ _ _)
      · exact readsInLevel_pure level _


theorem readsInLevel_drawMovingSprite {scale : Nat} (level : Level) (lookupMap : LookupMap)
    (sprite : Nat) (fractionalPos : Vec2Fix scale) (toScreen : Point) (c : Option Colour) :
    ReadsInLevel level (drawMovingSprite lookupMap sprite fractionalPos toScreen c) := by
  unfold drawMovingSprite
  exact readsInLevel_bind level _ _ (readsInLevel_liftExcept level _)
    (fun _ => readsInLevel_drawAtTile level _ _ _ _ _ _)

theorem readsInLevel_levelGet (level : Level) (pos : Point)
    (hin : isInvalidTile level ⟨pos, TileHalf.left⟩ = false) :
    ReadsInLevel level (levelGet level pos) :=
  readsInLevel_bind level _ _ (readsInLevel_logAccess level _ hin)
    (fun _ => readsInLevel_pure level _)

theorem readsInLevel_itemsGet {scale : Nat} (level : Level) (items : LevelObjects scale)
    (x y : Int) (hin : isInvalidTile level ⟨⟨x, y⟩, TileHalf.left⟩ = false) :
    ReadsInLevel level (itemsGet items x y) :=
  readsInLevel_bind level _ _ (readsInLevel_logAccess level _ hin)
    (fun _ => readsInLevel_pure level _)

theorem readsInLevel_objsGet {scale : Nat} (level : Level) (objs : LevelObjects scale)
    (x y : Int) (hin : isInvalidTile level ⟨⟨x, y⟩, TileHalf.left⟩ = false) :
    ReadsInLevel level (objsGet objs x y) :=
  readsInLevel_bind level _ _ (readsInLevel_logAccess level _ hin)
    (fun _ => readsInLevel_pure level _)

theorem readsInLevel_overlayTile {scale : Nat} (lookupMap : LookupMap) (level : Level)
    (minTops : SpriteGroup) (specialSpritesHandle : Nat) (specialSpritesMap : Int → Option Int)
    (cache : Nat → SpriteGroup) (objs items : LevelObjects scale) (toScreen : Point)
    (tile : Tile) (topLeft : Point) :
    ReadsInLevel level (overlayTile lookupMap level minTops specialSpritesHandle
      specialSpritesMap cache objs items toScreen tile topLeft) := by
  unfold overlayTile
  split
  · exact readsInLevel_pure level _
  · rename_i hv
    have hin := inLevel_of_not_invalid level tile hv
    refine readsInLevel_bind level _ _ (readsInLevel_levelGet level _ hin) (fun index => ?_)
    lift_lets
    intro rest
    have hrest : ∀ u, ReadsInLevel level (rest u) := by
      intro u
      refine readsInLevel_bind level _ _ (readsInLevel_itemsGet level _ _ _ hin) (fun _ => ?_)
      refine readsInLevel_bind level _ _ ?_ (fun _ => ?_)
      · refine readsInLevel_forM level _ _ (fun item => ?_)
        refine readsInLevel_bind level _ _ (readsInLevel_cacheGet level _ _) (fun _ => ?_)
        refine readsInLevel_bind level _ _ (readsInLevel_liftExcept level _) (fun _ => ?_)
        exact readsInLevel_bind level _ _ (readsInLevel_liftExcept level _)
          (fun _ => readsInLevel_drawAtTile level _ _ _ _ _ _)
      refine readsInLevel_bind level _ _ (readsInLevel_objsGet level _ _ _ hin) (fun _ => ?_)
      refine readsInLevel_forM level _ _ (fun obj => ?_)
      by_cases hvalid : obj.valid = true
      · rw [if_pos hvalid]
        refine readsInLevel_bind level _ _ (readsInLevel_cacheGet level _ _) (fun _ => ?_)
        exact readsInLevel_bind level _ _ (readsInLevel_liftExcept level _)
          (fun _ => readsInLevel_drawMovingSprite level _ _ _ _ _)
      · rw [if_neg hvalid]
        exact readsInLevel_pure level _
    by_cases hidx : index < minTops.size
    · rw [if_pos hidx]
      refine readsInLevel_bind level _ _ (readsInLevel_liftExcept level _) (fun _ => ?_)
      refine readsInLevel_bind level _ _ (readsInLevel_drawAtTile level _ _ _ _ _ _)
        (fun _ => ?_)
      cases specialSpritesMap (castInt32 index) with
      | none => exact readsInLevel_bind level _ _ (readsInLevel_pure level _) hrest
      | some specialSpriteIndex =>
        refine readsInLevel_bind level _ _ (readsInLevel_cacheGet level _ _) (fun _ => ?_)
        refine readsInLevel_bind level _ _ (readsInLevel_liftExcept level _) (fun _ => ?_)
        refine readsInLevel_bind level _ _ (readsInLevel_liftExcept level _) (fun wh => ?_)
        exact readsInLevel_bind level _ _ (readsInLevel_drawAtTile level _ _ _ _ _ _) hrest
    · rw [if_neg hidx]
      exact readsInLevel_bind level _ _ (readsInLevel_pure level _) hrest

/-- In a run of `drawLevel` the level grid, the item list and the object list
are read for positions inside the level only. -/
theorem readsInLevel_drawLevel {scale : Nat} (lookupMap : LookupMap) (WIDTH HEIGHT : Int)
    (level : Level) (minTopsHandle minBottomsHandle specialSpritesHandle : Nat)
    (specialSpritesMap : Int → Option Int) (cache : Nat → SpriteGroup)
    (objs items : LevelObjects scale) (fractionalPos : Vec2Fix scale) :
    ReadsInLevel level (drawLevel lookupMap WIDTH HEIGHT level minTopsHandle minBottomsHandle
      specialSpritesHandle specialSpritesMap cache objs items fractionalPos) := by
  unfold drawLevel
  refine readsInLevel_bind level _ _ (readsInLevel_cacheGet level _ _) (fun minBottoms => ?_)
  refine readsInLevel_bind level _ _ ?_ (fun _ => ?_)
  · exact readsInLevel_forM level _ _ (fun tp => readsInLevel_groundTile _ _ _ _ _)
  refine readsInLevel_bind level _ _ (readsInLevel_cacheGet level _ _) (fun minTops => ?_)
  refine readsInLevel_bind level _ _ (readsInLevel_logAccess level _ trivial) (fun _ => ?_)
  refine readsInLevel_bind level _ _ ?_ (fun _ => ?_)
  · exact readsInLevel_forM level _ _
      (fun tp => readsInLevel_overlayTile _ _ _ _ _ _ _ _ _ _ _)
  refine readsInLevel_bind level _ _ (readsInLevel_logAccess level _ trivial) (fun _ => ?_)
  refine readsInLevel_bind level _ _ ?_ (fun _ => ?_)
  · exact fun st => ⟨[Access.setInstanceData st.drawLevelCache.mInstanceData,
        Access.drawInstances st.drawLevelCache.instanceCount], rfl,
      fun b hb => by
        rcases List.mem_cons.mp hb with h | h
        · rw [h]
          trivial
        · rw [List.mem_singleton.mp h]
          trivial⟩
  · exact fun st => ⟨[], (List.append_nil st.log).symm, fun _ h => absurd h (List.not_mem_nil _)⟩

/-! ### Tileset pillars -/

theorem sizeMinusTwo_of_le (size : Nat) (h2 : 2 ≤ size) (h64 : size < 2 ^ 64) :
    sizeMinusTwo size = size - 2 := by
  unfold sizeMinusTwo
  omega

theorem minPillarLoop_rows (pillar : List Int) (k : Nat) :
    ∀ (fuel i : Nat) (y : Int), k ≤ fuel → i + 2 * k ≤ pillar.length →
      minPillarLoop pillar fuel i (i + 2 * k) y
        = some ((List.range k).map (fun j =>
            ⟨i + 2 * j, y + 32 * j, minFrameIndex (pillar.getD (i + 2 * j) 0),
              minFrameIndex (pillar.getD (i + 2 * j + 1) 0)⟩)) := by
  induction k with
  | zero =>
    intro fuel i y _ _
    cases fuel with
    | zero => rfl
    | succ fuel =>
      unfold minPillarLoop
      rw [if_neg (by omega)]
      rfl
  | succ k ih =>
    intro fuel i y hf hlen
    cases fuel with
    | zero => omega
    | succ fuel =>
      unfold minPillarLoop
      rw [if_pos (by omega)]
      have h0 : pillar[i]? = some (pillar.getD i 0) := by
        rw [List.getD_eq_getElem?_getD, List.getElem?_eq_getElem (by omega)]
        rfl
      have h1 : pillar[i + 1]? = some (pillar.getD (i + 1) 0) := by
        rw [List.getD_eq_getElem?_getD, List.getElem?_eq_getElem (by omega)]
        rfl
      rw [h0, h1]
      have hlim : i + 2 * (k + 1) = (i + 2) + 2 * k := by ring
      rw [hlim, ih fuel (i + 2) (y + 32) (by omega) (by omega)]
      simp only [Option.map_some', List.range_succ_eq_map, List.map_cons, List.map_map]
      congr 2
      · simp
      · apply List.map_congr_left
        intro j _
        simp only [Function.comp, Nat.succ_eq_add_one]
        have e1 : i + 2 + 2 * j = i + 2 * (j + 1) := by ring
        have e2 : y + 32 + 32 * (j : Int) = y + 32 * ((j + 1 : Nat) : Int) := by push_cast; ring
        rw [e1, e2]

theorem rowsRead_range (k : Nat) :
    ∀ (i : Nat) (fy fl fr : Nat → Int),
      rowsRead ((List.range k).map (fun j => ⟨i + 2 * j, fy j, fl j, fr j⟩))
        = (List.range (2 * k)).map (fun j => i + j) := by
  induction k with
  | zero =>
    intro i fy fl fr
    rfl
  | succ k ih =>
    intro i fy fl fr
    have h2 : 2 * (k + 1) = (2 * k + 1) + 1 := by ring
    rw [List.range_succ_eq_map, List.map_cons, List.map_map, h2, List.range_succ_eq_map,
      List.range_succ_eq_map]
    simp only [List.map_cons, List.map_map, rowsRead]
    have hf : ((fun j => (⟨i + 2 * j, fy j, fl j, fr j⟩ : MinRow)) ∘ Nat.succ)
        = fun j => ⟨(i + 2) + 2 * j, fy (j + 1), fl (j + 1), fr (j + 1)⟩ := by
      funext j
      simp only [Function.comp, Nat.succ_eq_add_one]
      have : i + 2 * (j + 1) = i + 2 + 2 * j := by ring
      rw [this]
    rw [hf, ih (i + 2) (fun j => fy (j + 1)) (fun j => fl (j + 1)) (fun j => fr (j + 1))]
    simp only [Nat.mul_zero, Nat.add_zero, Nat.succ_eq_add_one, Nat.zero_add, List.cons.injEq,
      true_and]
    apply List.map_congr_left
    intro j _
    simp only [Function.comp, Nat.succ_eq_add_one]
    omega

theorem rows_index_range (k i : Nat) (fy fl fr : Nat → Int) :
    ((List.range k).map (fun j => (⟨i + 2 * j, fy j, fl j, fr j⟩ : MinRow))).map (fun row => row.i)
      = (List.range k).map (fun j => i + 2 * j) := by
  rw [List.map_map]
  rfl

/-! ### Half-tile discriminator and traversal invariant -/

/-- C19: half-tile discriminator. For every `screenPos` and `toScreen` the half
returned by `getTileFromScreenCoords` is `right` exactly when the x-remainder is
greater than the y-remainder, and that is exactly when `screenPos.x` is strictly
greater than the x coordinate of the returned tile's top point on the screen,
`tileTopPoint(tile).x + toScreen.x`; otherwise, also on the tile's vertical
centre line, it is `left`. -/
theorem half_right_iff (screenPos toScreen : Point) :
    ((getTileFromScreenCoords screenPos toScreen).half = TileHalf.right ↔
      (2 * (screenPos - toScreen).y + (screenPos - toScreen).x).tmod tileWidth
        > (2 * (screenPos - toScreen).y - (screenPos - toScreen).x).tmod tileWidth) ∧
    ((2 * (screenPos - toScreen).y + (screenPos - toScreen).x).tmod tileWidth
        > (2 * (screenPos - toScreen).y - (screenPos - toScreen).x).tmod tileWidth ↔
      screenPos.x
        > (tileTopPoint (getTileFromScreenCoords screenPos toScreen).pos).x + toScreen.x) ∧
    ((getTileFromScreenCoords screenPos toScreen).half = TileHalf.left ↔
      screenPos.x
        ≤ (tileTopPoint (getTileFromScreenCoords screenPos toScreen).pos).x + toScreen.x) := by
  have h64 : tileWidth = 64 := rfl
  have ha := Int.tdiv_add_tmod (2 * (screenPos - toScreen).y + (screenPos - toScreen).x) 64
  have hb := Int.tdiv_add_tmod (2 * (screenPos - toScreen).y - (screenPos - toScreen).x) 64
  have hx : (screenPos - toScreen).x = screenPos.x - toScreen.x := rfl
  have hhalf : (getTileFromScreenCoords screenPos toScreen).half
      = if (2 * (screenPos - toScreen).y + (screenPos - toScreen).x).tmod tileWidth
          > (2 * (screenPos - toScreen).y - (screenPos - toScreen).x).tmod tileWidth
        then TileHalf.right else TileHalf.left := rfl
  have htop : (tileTopPoint (getTileFromScreenCoords screenPos toScreen).pos).x
      = 32 * ((2 * (screenPos - toScreen).y + (screenPos - toScreen).x).tdiv 64
          - (2 * (screenPos - toScreen).y - (screenPos - toScreen).x).tdiv 64) := rfl
  have hiff : (2 * (screenPos - toScreen).y + (screenPos - toScreen).x).tmod tileWidth
        > (2 * (screenPos - toScreen).y - (screenPos - toScreen).x).tmod tileWidth ↔
      screenPos.x
        > (tileTopPoint (getTileFromScreenCoords screenPos toScreen).pos).x + toScreen.x := by
    rw [htop, h64]
    constructor <;> intro h <;> omega
  refine ⟨?_, hiff, ?_⟩
  · rw [hhalf]
    split <;> simp_all
  · rw [← not_lt, ← gt_iff_lt, ← hiff, hhalf]
    split <;> simp_all

/-- C20: traversal invariant. In every call `processTile(tile, point)` that
`drawObjectsByTiles` makes, for every `toScreen` and window size, the screen
point is the projection of the tile: `point = tileTopPoint(tile.pos) + toScreen`. -/
theorem processTile_point_is_projection (toScreen : Point) (WIDTH HEIGHT : Int) :
    ∀ call ∈ visitedTiles toScreen WIDTH HEIGHT,
      call.2 = tileTopPoint call.1.pos + toScreen :=
  visitedTiles_anchored toScreen WIDTH HEIGHT

/-! ### Pillar rows: positions and cell decoding -/

theorem minPillarLoop_rows_upto (pillar : List Int) (k : Nat) :
    ∀ (fuel i lim : Nat) (y : Int), k ≤ fuel → lim ≤ i + 2 * k → i + 2 * k ≤ lim + 1 →
      i + 2 * k ≤ pillar.length →
      minPillarLoop pillar fuel i lim y
        = some ((List.range k).map (fun j =>
            ⟨i + 2 * j, y + 32 * j, minFrameIndex (pillar.getD (i + 2 * j) 0),
              minFrameIndex (pillar.getD (i + 2 * j + 1) 0)⟩)) := by
  induction k with
  | zero =>
    intro fuel i lim y _ hlim _ _
    cases fuel with
    | zero => rfl
    | succ fuel =>
      unfold minPillarLoop
      rw [if_neg (by omega)]
      rfl
  | succ k ih =>
    intro fuel i lim y hf hlim hlim' hlen
    cases fuel with
    | zero => omega
    | succ fuel =>
      unfold minPillarLoop
      rw [if_pos (by omega)]
      have h0 : pillar[i]? = some (pillar.getD i 0) := by
        rw [List.getD_eq_getElem?_getD, List.getElem?_eq_getElem (by omega)]
        rfl
      have h1 : pillar[i + 1]? = some (pillar.getD (i + 1) 0) := by
        rw [List.getD_eq_getElem?_getD, List.getElem?_eq_getElem (by omega)]
        rfl
      rw [h0, h1, ih fuel (i + 2) lim (y + 32) (by omega) (by omega) (by omega) (by omega)]
      simp only [Option.map_some', List.range_succ_eq_map, List.map_cons, List.map_map]
      congr 2
      · simp
      · apply List.map_congr_left
        intro j _
        simp only [Function.comp, Nat.succ_eq_add_one]
        have e1 : i + 2 + 2 * j = i + 2 * (j + 1) := by ring
        have e2 : y + 32 + 32 * (j : Int) = y + 32 * ((j + 1 : Nat) : Int) := by push_cast; ring
        rw [e1, e2]

theorem minPillarRows_top (pillar : List Int) (y : Int) (h2 : 2 ≤ pillar.length)
    (h64 : pillar.length < 2 ^ 64) :
    minPillarRows pillar y true
      = some ((List.range ((pillar.length - 1) / 2)).map (fun k =>
          ⟨2 * k, y + (if pillar.length = 10 then 96 else 0) + 32 * k,
            minFrameIndex (pillar.getD (2 * k) 0), minFrameIndex (pillar.getD (2 * k + 1) 0)⟩)) := by
  unfold minPillarRows
  simp only [if_true]
  rw [sizeMinusTwo_of_le pillar.length h2 h64,
    minPillarLoop_rows_upto pillar ((pillar.length - 1) / 2) _ 0 _ _ (by omega) (by omega)
      (by omega) (by omega)]
  congr 1
  apply List.map_congr_left
  intro k _
  have hy : (if pillar.length = 10 then y + 3 * 32 else y)
      = y + (if pillar.length = 10 then 96 else 0) := by
    split <;> ring
  rw [hy]
  simp only [Nat.zero_add]

theorem minPillarRows_base (pillar : List Int) (y : Int) (h2 : 2 ≤ pillar.length)
    (h64 : pillar.length < 2 ^ 64) :
    minPillarRows pillar y false
      = some [⟨pillar.length - 2,
          y + 16 * ((pillar.length - 2 : Nat) : Int) + (if pillar.length = 10 then 96 else 0),
          minFrameIndex (pillar.getD (pillar.length - 2) 0),
          minFrameIndex (pillar.getD (pillar.length - 2 + 1) 0)⟩] := by
  unfold minPillarRows
  simp only [Bool.false_eq_true, if_false]
  rw [sizeMinusTwo_of_le pillar.length h2 h64,
    minPillarLoop_rows_upto pillar 1 _ (pillar.length - 2) _ _ (by omega) (by omega)
      (by omega) (by omega)]
  have hy : (if pillar.length = 10 then y + 3 * 32 else y) + ((pillar.length - 2 : Nat) : Int) * 16
      = y + 16 * ((pillar.length - 2 : Nat) : Int) + (if pillar.length = 10 then 96 else 0) := by
    split <;> ring
  rw [hy]
  have hr : List.range 1 = [0] := rfl
  rw [hr]
  simp

theorem drawFrame_inside (f : CelFrame) (sx sy : Nat) (s : Surface)
    (hwf : s.pixels.length = s.w * s.h) (hx : sx + f.width ≤ s.w) (hy : sy + f.height ≤ s.h) :
    (drawFrame s sx sy f).w = s.w ∧ (drawFrame s sx sy f).h = s.h ∧
    (drawFrame s sx sy f).pixels.length = (drawFrame s sx sy f).w * (drawFrame s sx sy f).h ∧
    ∀ p q : Nat, p < s.w → ¬ (sx ≤ p ∧ p < sx + f.width ∧ sy ≤ q ∧ q < sy + f.height) →
      rawPixel (drawFrame s sx sy f) p q = rawPixel s p q := by
  obtain ⟨hw, hh, hl, _⟩ := drawFrameCols_spec f sx sy s hwf hy f.width hx
  refine ⟨hw, hh, ?_, fun p q hp hout => ?_⟩
  · show (drawFrameCols s sx sy f f.width).pixels.length
      = (drawFrameCols s sx sy f f.width).w * (drawFrameCols s sx sy f f.width).h
    rw [hl, hw, hh, hwf]
  · rw [drawFrame_spec f sx sy s hwf hx hy p q hp]
    apply if_neg
    rintro ⟨h1, h2, h3, h4, _⟩
    exact hout ⟨h1, h2, h3, h4⟩

theorem drawMinTile_bottom_rows (s : Surface) (f : CelFile) (l r : Int) (y : Nat)
    (hwf : s.pixels.length = s.w * s.h) (hw : s.w = 64) (hy : y + 32 ≤ s.h)
    (hf : ∀ k, (f.frame k).width ≤ 32 ∧ (f.frame k).height ≤ 32) :
    (drawMinTile s f 0 y l r).w = s.w ∧ (drawMinTile s f 0 y l r).h = s.h ∧
    ∀ p q : Nat, p < 64 → q < y → rawPixel (drawMinTile s f 0 y l r) p q = rawPixel s p q := by
  unfold drawMinTile
  have h0 : (0 : Int) = ((0 : Nat) : Int) := rfl
  have h32 : (0 : Int) + 32 = ((32 : Nat) : Int) := rfl
  rw [h32, h0]
  have hl := hf l.toNat
  have hr := hf r.toNat
  have step1 : ∀ s1 : Surface, s1 = (if l ≠ -1 then drawFrame s (0 : Nat) y (f.frame l.toNat) else s) →
      s1.w = s.w ∧ s1.h = s.h ∧ s1.pixels.length = s1.w * s1.h ∧
      ∀ p q : Nat, p < 64 → q < y → rawPixel s1 p q = rawPixel s p q := by
    intro s1 hs1
    by_cases hc : l ≠ -1
    · rw [if_pos hc] at hs1
      obtain ⟨a, b, c, d⟩ := drawFrame_inside (f.frame l.toNat) 0 y s hwf (by omega) (by omega)
      rw [hs1]
      exact ⟨a, b, c, fun p q hp hq => d p q (by omega) (by omega)⟩
    · rw [if_neg hc] at hs1
      rw [hs1]
      exact ⟨rfl, rfl, hwf, fun _ _ _ _ => rfl⟩
  obtain ⟨a1, b1, c1, d1⟩ := step1 _ rfl
  by_cases hc : r ≠ -1
  · simp only [if_pos hc]
    obtain ⟨a, b, _, d⟩ := drawFrame_inside (f.frame r.toNat) 32 y _ c1 (by rw [a1]; omega)
      (by rw [b1]; omega)
    refine ⟨by rw [a, a1], by rw [b, b1], fun p q hp hq => ?_⟩
    rw [d p q (by rw [a1]; omega) (by omega), d1 p q hp hq]
  · simp only [if_neg hc]
    exact ⟨a1, b1, d1⟩

theorem createTransparentSurface_wf (width height : Nat) :
    (createTransparentSurface width height).pixels.length
      = (createTransparentSurface width height).w * (createTransparentSurface width height).h := by
  show (List.replicate (List.replicate (width * height) 0).length (mapRGBA 0 0 0 0)).length
    = width * height
  rw [List.length_replicate, List.length_replicate]

theorem clearTransparentSurface_create (width height : Nat) :
    clearTransparentSurface (createTransparentSurface width height)
      = createTransparentSurface width height := by
  show (⟨width, height,
      List.replicate (List.replicate (List.replicate (width * height) 0).length
        (mapRGBA 0 0 0 0)).length (mapRGBA 0 0 0 0)⟩ : Surface)
    = ⟨width, height, List.replicate (List.replicate (width * height) 0).length (mapRGBA 0 0 0 0)⟩
  simp only [List.length_replicate]

/-- Witness of C20: in a 64 x 32 window with `toScreen = (0, 0)`, tile `(-1, -1)` is
handed to `processTile` with the point `(0, -32)`, its top point. -/
theorem processTile_point_is_projection_witness :
    ((⟨⟨-1, -1⟩, TileHalf.left⟩, ⟨0, -32⟩) : Tile × Point) ∈ visitedTiles ⟨0, 0⟩ 64 32 ∧
    (⟨0, -32⟩ : Point) = tileTopPoint (⟨-1, -1⟩ : Point) + ⟨0, 0⟩ :=
  ⟨by decide, processTile_point_is_projection ⟨0, 0⟩ 64 32 (⟨⟨-1, -1⟩, TileHalf.left⟩, ⟨0, -32⟩)
    (by decide)⟩


/-! ### Coverage of the traversal -/

theorem tdiv_64_bounds (a : Int) : a - 63 ≤ 64 * a.tdiv 64 ∧ 64 * a.tdiv 64 ≤ a + 63 := by
  by_cases h : 0 ≤ a
  · rw [Int.tdiv_eq_ediv h (by decide)]
    omega
  · have ha : a = -(-a) := by omega
    rw [ha, Int.neg_tdiv, Int.tdiv_eq_ediv (by omega) (by decide)]
    omega

theorem startingPoint_bounds (toScreen : Point) :
    (tileTopPoint (getTileFromScreenCoords ⟨-2 * tileWidth, -2 * tileHeight⟩ toScreen).pos
      + toScreen).x ≤ -65 ∧
    (tileTopPoint (getTileFromScreenCoords ⟨-2 * tileWidth, -2 * tileHeight⟩ toScreen).pos
      + toScreen).y ≤ -33 := by
  have ha := tdiv_64_bounds (2 * (-64 - toScreen.y) + (-128 - toScreen.x))
  have hb := tdiv_64_bounds (2 * (-64 - toScreen.y) - (-128 - toScreen.x))
  have hx : (tileTopPoint (getTileFromScreenCoords ⟨-2 * tileWidth, -2 * tileHeight⟩
      toScreen).pos + toScreen).x
      = 32 * ((2 * (-64 - toScreen.y) + (-128 - toScreen.x)).tdiv 64
          - (2 * (-64 - toScreen.y) - (-128 - toScreen.x)).tdiv 64) + toScreen.x := rfl
  have hy : (tileTopPoint (getTileFromScreenCoords ⟨-2 * tileWidth, -2 * tileHeight⟩
      toScreen).pos + toScreen).y
      = ((2 * (-64 - toScreen.y) - (-128 - toScreen.x)).tdiv 64
          + (2 * (-64 - toScreen.y) + (-128 - toScreen.x)).tdiv 64) * 16 + toScreen.y := rfl
  rw [hx, hy]
  omega

theorem processLineLoop_step (WIDTH : Int) (fuel : Nat) (point : Point) (tile : Tile) :
    processLineLoop WIDTH (fuel + 1) point tile
      = if point.x < WIDTH + 32 then
          (⟨⟨tile.pos.x + 1, tile.pos.y - 1⟩, tile.half⟩, ⟨point.x + 64, point.y⟩) ::
            processLineLoop WIDTH fuel ⟨point.x + 64, point.y⟩
              ⟨⟨tile.pos.x + 1, tile.pos.y - 1⟩, tile.half⟩
        else [] :=
  rfl

theorem scanLoop_step (WIDTH HEIGHT : Int) (fuel : Nat) (S : Point) (T : Tile) :
    scanLoop WIDTH HEIGHT (fuel + 1) S T
      = if S.y < HEIGHT + 224 then
          processLine WIDTH ⟨S.x - 32, S.y + 16⟩ ⟨⟨T.pos.x, T.pos.y + 1⟩, T.half⟩ ++
            processLine WIDTH ⟨S.x, S.y + 32⟩ ⟨⟨T.pos.x + 1, T.pos.y + 1⟩, T.half⟩ ++
            scanLoop WIDTH HEIGHT fuel ⟨S.x, S.y + 32⟩ ⟨⟨T.pos.x + 1, T.pos.y + 1⟩, T.half⟩
        else [] := by
  rw [scanLoop_succ]
  have h1 : tileWidth.tdiv 2 = 32 := rfl
  have h2 : tileHeight.tdiv 2 = 16 := rfl
  have h3 : HEIGHT + staticObjectHeight - tileHeight = HEIGHT + 224 := by
    show HEIGHT + 256 - 32 = HEIGHT + 224
    omega
  have h4 : S.x - 32 + 32 = S.x := by omega
  have h5 : S.y + 16 + 16 = S.y + 32 := by omega
  rw [h1, h2, h3, h4, h5]

theorem processLineLoop_mem (WIDTH : Int) (m : Nat) :
    ∀ (fuel : Nat) (P : Point) (T : Tile), m + 1 ≤ fuel → P.x + 64 * (m : Int) < WIDTH + 32 →
      ((⟨⟨T.pos.x + (m + 1 : Nat), T.pos.y - (m + 1 : Nat)⟩, T.half⟩,
          ⟨P.x + 64 * ((m + 1 : Nat) : Int), P.y⟩) : Tile × Point)
        ∈ processLineLoop WIDTH fuel P T := by
  induction m with
  | zero =>
    intro fuel P T hf hx
    obtain ⟨fuel, rfl⟩ : ∃ k, fuel = k + 1 := ⟨fuel - 1, by omega⟩
    rw [processLineLoop_step, if_pos (by omega)]
    apply List.mem_cons.mpr
    left
    simp
  | succ m ih =>
    intro fuel P T hf hx
    obtain ⟨fuel, rfl⟩ : ∃ k, fuel = k + 1 := ⟨fuel - 1, by omega⟩
    rw [processLineLoop_step, if_pos (by push_cast at hx; omega)]
    apply List.mem_cons.mpr
    right
    have h := ih fuel ⟨P.x + 64, P.y⟩ ⟨⟨T.pos.x + 1, T.pos.y - 1⟩, T.half⟩ (by omega)
      (by
        show P.x + 64 + 64 * (m : Int) < WIDTH + 32
        push_cast at hx
        omega)
    have e1 : T.pos.x + 1 + ((m + 1 : Nat) : Int) = T.pos.x + ((m + 1 + 1 : Nat) : Int) := by
      push_cast; ring
    have e2 : T.pos.y - 1 - ((m + 1 : Nat) : Int) = T.pos.y - ((m + 1 + 1 : Nat) : Int) := by
      push_cast; ring
    have e3 : P.x + 64 + 64 * ((m + 1 : Nat) : Int) = P.x + 64 * ((m + 1 + 1 : Nat) : Int) := by
      push_cast; ring
    simp only [e1, e2, e3] at h
    exact h

theorem processLine_mem (WIDTH : Int) (m : Nat) (P : Point) (T : Tile)
    (hx : P.x + 64 * (m : Int) < WIDTH + 32) :
    ((⟨⟨T.pos.x + (m + 1 : Nat), T.pos.y - (m + 1 : Nat)⟩, T.half⟩,
        ⟨P.x + 64 * ((m + 1 : Nat) : Int), P.y⟩) : Tile × Point)
      ∈ processLine WIDTH P T := by
  apply processLineLoop_mem WIDTH m _ P T _ hx
  have h32 : tileWidth.tdiv 2 = 32 := rfl
  rw [h32]
  omega

theorem scanLoop_mem (WIDTH HEIGHT : Int) (j : Nat) :
    ∀ (fuel : Nat) (S : Point) (T : Tile) (e : Tile × Point), j + 1 ≤ fuel →
      S.y + 32 * (j : Int) < HEIGHT + 224 →
      (e ∈ processLine WIDTH ⟨S.x - 32, S.y + 32 * (j : Int) + 16⟩
            ⟨⟨T.pos.x + (j : Int), T.pos.y + (j : Int) + 1⟩, T.half⟩ ∨
        e ∈ processLine WIDTH ⟨S.x, S.y + 32 * (j : Int) + 32⟩
            ⟨⟨T.pos.x + (j : Int) + 1, T.pos.y + (j : Int) + 1⟩, T.half⟩) →
      e ∈ scanLoop WIDTH HEIGHT fuel S T := by
  induction j with
  | zero =>
    intro fuel S T e hf hy he
    obtain ⟨fuel, rfl⟩ : ∃ k, fuel = k + 1 := ⟨fuel - 1, by omega⟩
    rw [scanLoop_step, if_pos (by simpa using hy)]
    simp only [Nat.cast_zero, mul_zero, add_zero, zero_add] at he
    rcases he with he | he
    · exact List.mem_append.mpr (Or.inl (List.mem_append.mpr (Or.inl he)))
    · exact List.mem_append.mpr (Or.inl (List.mem_append.mpr (Or.inr he)))
  | succ j ih =>
    intro fuel S T e hf hy he
    obtain ⟨fuel, rfl⟩ : ∃ k, fuel = k + 1 := ⟨fuel - 1, by omega⟩
    rw [scanLoop_step, if_pos (by push_cast at hy; omega)]
    apply List.mem_append.mpr
    right
    apply ih fuel ⟨S.x, S.y + 32⟩ ⟨⟨T.pos.x + 1, T.pos.y + 1⟩, T.half⟩ e (by omega)
      (by
        show S.y + 32 + 32 * (j : Int) < HEIGHT + 224
        push_cast at hy
        omega)
    have e1 : S.y + 32 + 32 * (j : Int) + 16 = S.y + 32 * ((j + 1 : Nat) : Int) + 16 := by
      push_cast; ring
    have e2 : S.y + 32 + 32 * (j : Int) + 32 = S.y + 32 * ((j + 1 : Nat) : Int) + 32 := by
      push_cast; ring
    have e3 : T.pos.x + 1 + (j : Int) = T.pos.x + ((j + 1 : Nat) : Int) := by
      push_cast; ring
    have e4 : T.pos.y + 1 + (j : Int) + 1 = T.pos.y + ((j + 1 : Nat) : Int) + 1 := by
      push_cast; ring
    have e5 : T.pos.x + 1 + (j : Int) + 1 = T.pos.x + ((j + 1 : Nat) : Int) + 1 := by
      push_cast; ring
    simp only [e1, e2, e3, e4, e5]
    exact he

theorem visitedTiles_covers (toScreen : Point) (WIDTH HEIGHT : Int) (t : Point)
    (h1 : -32 < (tileTopPoint t + toScreen).x) (h2 : (tileTopPoint t + toScreen).x < WIDTH + 32)
    (h3 : -32 < (tileTopPoint t + toScreen).y)
    (h4 : (tileTopPoint t + toScreen).y < HEIGHT + 224) :
    ((⟨t, (getTileFromScreenCoords ⟨-2 * tileWidth, -2 * tileHeight⟩ toScreen).half⟩,
        tileTopPoint t + toScreen) : Tile × Point) ∈ visitedTiles toScreen WIDTH HEIGHT := by
  obtain ⟨hbx, hby⟩ := startingPoint_bounds toScreen
  obtain ⟨tx, ty⟩ := t
  unfold visitedTiles
  generalize hT : getTileFromScreenCoords ⟨-2 * tileWidth, -2 * tileHeight⟩ toScreen = T0 at *
  obtain ⟨⟨ax, ay⟩, half⟩ := T0
  have hp : tileTopPoint (⟨tx, ty⟩ : Point) + toScreen
      = ⟨32 * (tx - ty) + toScreen.x, (ty + tx) * 16 + toScreen.y⟩ := rfl
  have hs : tileTopPoint (⟨ax, ay⟩ : Point) + toScreen
      = ⟨32 * (ax - ay) + toScreen.x, (ay + ax) * 16 + toScreen.y⟩ := rfl
  rw [hp] at h1 h2 h3 h4 ⊢
  simp only [hs] at hbx hby ⊢
  simp only [] at h1 h2 h3 h4 hbx hby
  have hfuel : ∀ j : Nat, (ay + ax) * 16 + toScreen.y + 32 * (j : Int) < HEIGHT + 224 →
      j + 1 ≤ (HEIGHT + staticObjectHeight - tileHeight
        - ((ay + ax) * 16 + toScreen.y)).toNat := by
    intro j hj
    have : HEIGHT + staticObjectHeight - tileHeight = HEIGHT + 224 := by
      show HEIGHT + 256 - 32 = HEIGHT + 224
      omega
    rw [this]
    omega
  by_cases hodd : ((tx - ax) + (ty - ay)) % 2 = 1
  · obtain ⟨j, hj⟩ : ∃ j : Nat, (tx - ax) + (ty - ay) = 2 * (j : Int) + 1 :=
      ⟨(((tx - ax) + (ty - ay) - 1) / 2).toNat, by omega⟩
    obtain ⟨m, hm⟩ : ∃ m : Nat, (m : Int) + 1 = (tx - ax) - j :=
      ⟨((tx - ax) - j - 1).toNat, by omega⟩
    have hy : (ay + ax) * 16 + toScreen.y + 32 * (j : Int) < HEIGHT + 224 := by omega
    apply scanLoop_mem WIDTH HEIGHT j _ _ _ _ (hfuel j hy) hy
    left
    have hmem := processLine_mem WIDTH m
      ⟨32 * (ax - ay) + toScreen.x - 32, (ay + ax) * 16 + toScreen.y + 32 * (j : Int) + 16⟩
      ⟨⟨ax + (j : Int), ay + (j : Int) + 1⟩, half⟩
      (by
        show 32 * (ax - ay) + toScreen.x - 32 + 64 * (m : Int) < WIDTH + 32
        omega)
    have e1 : ax + (j : Int) + ((m + 1 : Nat) : Int) = tx := by push_cast; omega
    have e2 : ay + (j : Int) + 1 - ((m + 1 : Nat) : Int) = ty := by push_cast; omega
    have e3 : 32 * (ax - ay) + toScreen.x - 32 + 64 * ((m + 1 : Nat) : Int)
        = 32 * (tx - ty) + toScreen.x := by push_cast; omega
    have e4 : (ay + ax) * 16 + toScreen.y + 32 * (j : Int) + 16 = (ty + tx) * 16 + toScreen.y := by
      omega
    have heq : ((⟨⟨ax + (j : Int) + ((m + 1 : Nat) : Int),
          ay + (j : Int) + 1 - ((m + 1 : Nat) : Int)⟩, half⟩,
        ⟨32 * (ax - ay) + toScreen.x - 32 + 64 * ((m + 1 : Nat) : Int),
          (ay + ax) * 16 + toScreen.y + 32 * (j : Int) + 16⟩) : Tile × Point)
        = (⟨⟨tx, ty⟩, half⟩, ⟨32 * (tx - ty) + toScreen.x, (ty + tx) * 16 + toScreen.y⟩) := by
      rw [e1, e2, e3, e4]
    rw [← heq]
    exact hmem
  · obtain ⟨j, hj⟩ : ∃ j : Nat, (tx - ax) + (ty - ay) = 2 * (j : Int) + 2 :=
      ⟨(((tx - ax) + (ty - ay) - 2) / 2).toNat, by omega⟩
    obtain ⟨m, hm⟩ : ∃ m : Nat, (m : Int) + 1 = (tx - ax) - j - 1 :=
      ⟨((tx - ax) - j - 2).toNat, by omega⟩
    have hy : (ay + ax) * 16 + toScreen.y + 32 * (j : Int) < HEIGHT + 224 := by omega
    apply scanLoop_mem WIDTH HEIGHT j _ _ _ _ (hfuel j hy) hy
    right
    have hmem := processLine_mem WIDTH m
      ⟨32 * (ax - ay) + toScreen.x, (ay + ax) * 16 + toScreen.y + 32 * (j : Int) + 32⟩
      ⟨⟨ax + (j : Int) + 1, ay + (j : Int) + 1⟩, half⟩
      (by
        show 32 * (ax - ay) + toScreen.x + 64 * (m : Int) < WIDTH + 32
        omega)
    have e1 : ax + (j : Int) + 1 + ((m + 1 : Nat) : Int) = tx := by push_cast; omega
    have e2 : ay + (j : Int) + 1 - ((m + 1 : Nat) : Int) = ty := by push_cast; omega
    have e3 : 32 * (ax - ay) + toScreen.x + 64 * ((m + 1 : Nat) : Int)
        = 32 * (tx - ty) + toScreen.x := by push_cast; omega
    have e4 : (ay + ax) * 16 + toScreen.y + 32 * (j : Int) + 32 = (ty + tx) * 16 + toScreen.y := by
      omega
    have heq : ((⟨⟨ax + (j : Int) + 1 + ((m + 1 : Nat) : Int),
          ay + (j : Int) + 1 - ((m + 1 : Nat) : Int)⟩, half⟩,
        ⟨32 * (ax - ay) + toScreen.x + 64 * ((m + 1 : Nat) : Int),
          (ay + ax) * 16 + toScreen.y + 32 * (j : Int) + 32⟩) : Tile × Point)
        = (⟨⟨tx, ty⟩, half⟩, ⟨32 * (tx - ty) + toScreen.x, (ty + tx) * 16 + toScreen.y⟩) := by
      rw [e1, e2, e3, e4]
    rw [← heq]
    exact hmem

theorem processLineLoop_order (WIDTH : Int) (fuel : Nat) :
    ∀ (P : Point) (T : Tile),
      (∀ e ∈ processLineLoop WIDTH fuel P T,
        e.1.pos.x + e.1.pos.y = T.pos.x + T.pos.y ∧ T.pos.x < e.1.pos.x) ∧
      (processLineLoop WIDTH fuel P T).Pairwise (fun a b => a.1.pos.x < b.1.pos.x) := by
  induction fuel with
  | zero =>
    intro P T
    exact ⟨fun e he => absurd he (List.not_mem_nil _), List.Pairwise.nil⟩
  | succ fuel ih =>
    intro P T
    rw [processLineLoop_step]
    split
    · obtain ⟨hmem, hpw⟩ := ih ⟨P.x + 64, P.y⟩ ⟨⟨T.pos.x + 1, T.pos.y - 1⟩, T.half⟩
      constructor
      · intro e he
        rcases List.mem_cons.mp he with h | h
        · rw [h]
          exact ⟨by show T.pos.x + 1 + (T.pos.y - 1) = _; omega,
            by show T.pos.x < T.pos.x + 1; omega⟩
        · obtain ⟨a, b⟩ := hmem e h
          simp only [] at a b
          exact ⟨by omega, by omega⟩
      · apply List.pairwise_cons.mpr
        refine ⟨fun e he => ?_, hpw⟩
        obtain ⟨_, b⟩ := hmem e he
        exact b
    · exact ⟨fun e he => absurd he (List.not_mem_nil _), List.Pairwise.nil⟩

theorem processLine_order (WIDTH : Int) (P : Point) (T : Tile) :
    (∀ e ∈ processLine WIDTH P T, e.1.pos.x + e.1.pos.y = T.pos.x + T.pos.y) ∧
    (processLine WIDTH P T).Pairwise tileBefore := by
  obtain ⟨hmem, hpw⟩ := processLineLoop_order WIDTH
    (WIDTH + tileWidth.tdiv 2 - P.x).toNat P T
  refine ⟨fun e he => (hmem e he).1, ?_⟩
  apply List.Pairwise.imp_of_mem _ hpw
  intro a b ha hb hab
  right
  exact ⟨by rw [(hmem a ha).1, (hmem b hb).1], hab⟩

theorem scanLoop_order (WIDTH HEIGHT : Int) (fuel : Nat) :
    ∀ (S : Point) (T : Tile),
      (∀ e ∈ scanLoop WIDTH HEIGHT fuel S T, T.pos.x + T.pos.y < e.1.pos.x + e.1.pos.y) ∧
      (scanLoop WIDTH HEIGHT fuel S T).Pairwise tileBefore := by
  induction fuel with
  | zero =>
    intro S T
    exact ⟨fun e he => absurd he (List.not_mem_nil _), List.Pairwise.nil⟩
  | succ fuel ih =>
    intro S T
    rw [scanLoop_step]
    split
    · obtain ⟨hA, pA⟩ := processLine_order WIDTH ⟨S.x - 32, S.y + 16⟩
        ⟨⟨T.pos.x, T.pos.y + 1⟩, T.half⟩
      obtain ⟨hB, pB⟩ := processLine_order WIDTH ⟨S.x, S.y + 32⟩
        ⟨⟨T.pos.x + 1, T.pos.y + 1⟩, T.half⟩
      obtain ⟨hR, pR⟩ := ih ⟨S.x, S.y + 32⟩ ⟨⟨T.pos.x + 1, T.pos.y + 1⟩, T.half⟩
      simp only [] at hA hB hR
      constructor
      · intro e he
        rcases List.mem_append.mp he with h | h
        · rcases List.mem_append.mp h with h | h
          · have := hA e h
            omega
          · have := hB e h
            omega
        · have := hR e h
          omega
      · apply List.pairwise_append.mpr
        refine ⟨List.pairwise_append.mpr ⟨pA, pB, fun a ha b hb => ?_⟩, pR, fun a ha b hb => ?_⟩
        · left
          have := hA a ha
          have := hB b hb
          omega
        · left
          have := hR b hb
          rcases List.mem_append.mp ha with h | h
          · have := hA a h
            omega
          · have := hB a h
            omega
    · exact ⟨fun e he => absurd he (List.not_mem_nil _), List.Pairwise.nil⟩

theorem visitedTiles_nodup (toScreen : Point) (WIDTH HEIGHT : Int) :
    ((visitedTiles toScreen WIDTH HEIGHT).map (fun call => call.1.pos)).Nodup := by
  unfold visitedTiles
  obtain ⟨_, hpw⟩ := scanLoop_order WIDTH HEIGHT
    (HEIGHT + staticObjectHeight - tileHeight
      - (tileTopPoint (getTileFromScreenCoords ⟨-2 * tileWidth, -2 * tileHeight⟩ toScreen).pos
          + toScreen).y).toNat
    (tileTopPoint (getTileFromScreenCoords ⟨-2 * tileWidth, -2 * tileHeight⟩ toScreen).pos + toScreen)
    (getTileFromScreenCoords ⟨-2 * tileWidth, -2 * tileHeight⟩ toScreen)
  apply List.Pairwise.map _ _ hpw
  intro a b hab heq
  unfold tileBefore at hab
  rw [heq] at hab
  omega

/-! ### Single-texture concatenation -/

theorem celExtent_succ (cel : CelFile) (n : Nat) :
    celExtent cel (n + 1)
      = ((celExtent cel n).1 + (cel.frame n).width,
          if ((cel.frame n).height : Int) > (celExtent cel n).2 then ((cel.frame n).height : Int)
          else (celExtent cel n).2) := by
  unfold celExtent
  rw [List.range_succ, List.foldl_append]
  rfl

theorem celExtent_eq (cel : CelFile) (n : Nat) :
    celExtent cel n = (((sumWidths cel n : Nat) : Int), ((maxHeights cel n : Nat) : Int)) := by
  induction n with
  | zero => rfl
  | succ n ih =>
    rw [celExtent_succ, ih]
    show (((sumWidths cel n : Nat) : Int) + (cel.frame n).width,
        if ((cel.frame n).height : Int) > (maxHeights cel n : Nat) then ((cel.frame n).height : Int)
        else ((maxHeights cel n : Nat) : Int))
      = (((sumWidths cel n + (cel.frame n).width : Nat) : Int),
          ((max (maxHeights cel n) (cel.frame n).height : Nat) : Int))
    refine Prod.ext ?_ ?_
    · exact (Nat.cast_add _ _).symm
    · show (if ((cel.frame n).height : Int) > (maxHeights cel n : Nat)
          then ((cel.frame n).height : Int) else ((maxHeights cel n : Nat) : Int))
        = ((max (maxHeights cel n) (cel.frame n).height : Nat) : Int)
      split
      · rename_i h
        have h1 : maxHeights cel n < (cel.frame n).height := by exact_mod_cast h
        rw [max_eq_right (le_of_lt h1)]
      · rename_i h
        have h1 : (cel.frame n).height ≤ maxHeights cel n := by
          have : ¬ maxHeights cel n < (cel.frame n).height := by exact_mod_cast h
          omega
        rw [max_eq_left h1]

theorem drawCelFrames_succ (cel : CelFile) (s : Surface) (n : Nat) :
    drawCelFrames cel s (n + 1)
      = (drawFrame (drawCelFrames cel s n).1 (drawCelFrames cel s n).2 0 (cel.frame n),
          (drawCelFrames cel s n).2 + (cel.frame n).width) := by
  unfold drawCelFrames
  rw [List.range_succ, List.foldl_append]
  rfl

theorem sumWidths_mono (cel : CelFile) (i j : Nat) (h : i ≤ j) :
    sumWidths cel i ≤ sumWidths cel j := by
  induction j with
  | zero =>
    have : i = 0 := by omega
    rw [this]
  | succ j ih =>
    rcases Nat.lt_or_ge i (j + 1) with h1 | h1
    · have := ih (by omega)
      show sumWidths cel i ≤ sumWidths cel j + (cel.frame j).width
      omega
    · have : i = j + 1 := by omega
      rw [this]

theorem sumWidths_succ_le (cel : CelFile) (i n : Nat) (h : i < n) :
    sumWidths cel i + (cel.frame i).width ≤ sumWidths cel n :=
  sumWidths_mono cel (i + 1) n h

theorem maxHeights_ge (cel : CelFile) (i n : Nat) (h : i < n) :
    (cel.frame i).height ≤ maxHeights cel n := by
  induction n with
  | zero => omega
  | succ n ih =>
    show (cel.frame i).height ≤ max (maxHeights cel n) (cel.frame n).height
    rcases Nat.lt_or_ge i n with h1 | h1
    · exact le_trans (ih h1) (le_max_left _ _)
    · have : i = n := by omega
      rw [this]
      exact le_max_right _ _

theorem drawCelFrames_spec (cel : CelFile) (s : Surface) (hwf : s.pixels.length = s.w * s.h)
    (hzero : ∀ p q : Nat, rawPixel s p q = 0) (n : Nat) (hw : sumWidths cel n ≤ s.w)
    (hh : maxHeights cel n ≤ s.h) :
    (drawCelFrames cel s n).2 = (sumWidths cel n : Nat) ∧
    (drawCelFrames cel s n).1.w = s.w ∧ (drawCelFrames cel s n).1.h = s.h ∧
    (drawCelFrames cel s n).1.pixels.length
      = (drawCelFrames cel s n).1.w * (drawCelFrames cel s n).1.h ∧
    (∀ i x y : Nat, i < n → x < (cel.frame i).width →
      rawPixel (drawCelFrames cel s n).1 ((sumWidths cel i + x : Nat) : Int) y
        = if y < (cel.frame i).height ∧ ((cel.frame i).get x y).visible = true then
            mapRGBA ((cel.frame i).get x y).r ((cel.frame i).get x y).g
              ((cel.frame i).get x y).b 255
          else 0) ∧
    (∀ p q : Nat, p < s.w → sumWidths cel n ≤ p → rawPixel (drawCelFrames cel s n).1 p q = 0) := by
  induction n with
  | zero =>
    refine ⟨rfl, rfl, rfl, hwf, fun i x y hi _ => absurd hi (Nat.not_lt_zero i),
      fun p q _ _ => hzero p q⟩
  | succ n ih =>
    have hw1 : sumWidths cel n + (cel.frame n).width ≤ s.w := hw
    have hh1 : (cel.frame n).height ≤ s.h :=
      le_trans (maxHeights_ge cel n (n + 1) (Nat.lt_succ_self n)) hh
    have hh0 : maxHeights cel n ≤ s.h := le_trans (le_max_left _ _) hh
    obtain ⟨hx, hsw, hsh, hswf, hpix, hrest⟩ := ih (by omega) hh0
    have hD : (drawCelFrames cel s (n + 1)).1
        = drawFrame (drawCelFrames cel s n).1 ((sumWidths cel n : Nat) : Int) ((0 : Nat) : Int)
            (cel.frame n) := by
      rw [drawCelFrames_succ, hx]
      rfl
    have hx' : sumWidths cel n + (cel.frame n).width ≤ (drawCelFrames cel s n).1.w := by
      rw [hsw]
      exact hw1
    have hy' : 0 + (cel.frame n).height ≤ (drawCelFrames cel s n).1.h := by
      rw [hsh, Nat.zero_add]
      exact hh1
    obtain ⟨iw, ih', iwf, _⟩ := drawFrame_inside (cel.frame n) (sumWidths cel n) 0
      (drawCelFrames cel s n).1 hswf hx' hy'
    have hspec := drawFrame_spec (cel.frame n) (sumWidths cel n) 0 (drawCelFrames cel s n).1 hswf
      hx' hy'
    refine ⟨?_, ?_, ?_, ?_, ?_, ?_⟩
    · rw [drawCelFrames_succ, hx]
      exact (Nat.cast_add _ _).symm
    · rw [hD, iw, hsw]
    · rw [hD, ih', hsh]
    · rw [hD]
      exact iwf
    · intro i x y hi hxw
      have hp : sumWidths cel i + x < (drawCelFrames cel s n).1.w := by
        rw [hsw]
        have := sumWidths_succ_le cel i (n + 1) hi
        omega
      rw [hD, hspec (sumWidths cel i + x) y hp]
      rcases Nat.lt_or_ge i n with h1 | h1
      · have hle := sumWidths_succ_le cel i n h1
        rw [if_neg (by omega), hpix i x y h1 hxw]
      · have hin : i = n := by omega
        subst hin
        have hsub : sumWidths cel i + x - sumWidths cel i = x := by omega
        rw [hsub, Nat.sub_zero]
        by_cases hc : y < (cel.frame i).height ∧ ((cel.frame i).get x y).visible = true
        · rw [if_pos hc, if_pos ⟨by omega, by omega, by omega, by omega, hc.2⟩]
        · rw [if_neg hc, if_neg, hrest _ _ (by rw [← hsw]; exact hp) (by omega)]
          rintro ⟨_, _, _, h4, h5⟩
          exact hc ⟨by omega, h5⟩
    · intro p q hp hge
      have hge' : sumWidths cel n + (cel.frame n).width ≤ p := hge
      rw [hD, hspec p q (by rw [hsw]; exact hp), if_neg (by omega)]
      exact hrest p q hp (by omega)

theorem sumWidths_zero_of_numFrames (cel : CelFile) (h : cel.numFrames = 0) :
    sumWidths cel cel.numFrames = 0 := by
  rw [h]
  rfl

theorem toPng_eq (cel : CelFile) (hw : 0 < sumWidths cel cel.numFrames) :
    SpriteGroup.toPng cel = some (celSurface cel) := by
  have hn : cel.numFrames ≠ 0 := fun h => by
    rw [sumWidths_zero_of_numFrames cel h] at hw
    exact absurd hw (lt_irrefl 0)
  unfold SpriteGroup.toPng celSurface
  rw [if_neg hn, celExtent_eq]
  have h0 : ¬ ((sumWidths cel cel.numFrames : Nat) : Int) = 0 := by
    have : (0 : Int) < (sumWidths cel cel.numFrames : Nat) := by exact_mod_cast hw
    omega
  simp only [h0, if_false, Int.toNat_natCast]

theorem loadCelToSingleTexture_eq (cel : CelFile) (hw : 0 < sumWidths cel cel.numFrames)
    (hh : 0 < maxHeights cel cel.numFrames) :
    loadCelToSingleTexture cel = Except.ok (celSurface cel) := by
  unfold loadCelToSingleTexture celSurface
  rw [celExtent_eq]
  have h1 : ((sumWidths cel cel.numFrames : Nat) : Int) > 0 := by exact_mod_cast hw
  have h2 : ((maxHeights cel cel.numFrames : Nat) : Int) > 0 := by exact_mod_cast hh
  simp only [h1, h2, not_true_eq_false, if_false, Int.toNat_natCast]

theorem loadCelToSingleTexture_flat (cel : CelFile) (hh : maxHeights cel cel.numFrames = 0) :
    loadCelToSingleTexture cel = Except.error RenderError.assertFailed := by
  unfold loadCelToSingleTexture
  rw [celExtent_eq, hh]
  by_cases h1 : ((sumWidths cel cel.numFrames : Nat) : Int) > 0
  · simp [h1]
  · simp [h1]

theorem maxHeights_mono (cel : CelFile) (i j : Nat) (h : i ≤ j) :
    maxHeights cel i ≤ maxHeights cel j := by
  induction j with
  | zero =>
    have : i = 0 := by omega
    rw [this]
  | succ j ih =>
    rcases Nat.lt_or_ge i (j + 1) with h1 | h1
    · exact le_trans (ih (by omega)) (le_max_left _ _)
    · have : i = j + 1 := by omega
      rw [this]

/-- C17: single-texture concatenation. For every archive with positive total
width (so with at least one frame), `SpriteGroup::toPng` builds a surface, and
`loadCelToSingleTexture` builds the same surface when the largest frame height
is positive too (its second assertion). The surface is as wide as the sum of
the frame widths and as high as the highest frame; frame `i` is drawn by
`drawFrame` at `y = 0` and `x` the sum of the widths of the frames before it;
the column ranges of the frames follow each other without overlap, every frame
lies inside the surface, and the pixel at `(x_i + x, y)` is the frame pixel
`(x, y)` with alpha 255 when that is a visible pixel of frame `i` and is fully
transparent otherwise. -/
theorem single_texture_concatenation (cel : CelFile)
    (hw : 0 < sumWidths cel cel.numFrames) :
    1 ≤ cel.numFrames ∧
    SpriteGroup.toPng cel = some (celSurface cel) ∧
    (0 < maxHeights cel cel.numFrames →
      loadCelToSingleTexture cel = Except.ok (celSurface cel)) ∧
    (celSurface cel).w = sumWidths cel cel.numFrames ∧
    (celSurface cel).h = maxHeights cel cel.numFrames ∧
    (celSurface cel).pixels.length = (celSurface cel).w * (celSurface cel).h ∧
    (∀ i : Nat, i < cel.numFrames →
      (drawCelFrames cel
          (createTransparentSurface (sumWidths cel cel.numFrames) (maxHeights cel cel.numFrames))
          (i + 1)).1
        = drawFrame
            (drawCelFrames cel
              (createTransparentSurface (sumWidths cel cel.numFrames)
                (maxHeights cel cel.numFrames)) i).1
            ((sumWidths cel i : Nat) : Int) 0 (cel.frame i)) ∧
    (∀ i : Nat, i < cel.numFrames →
      sumWidths cel i + (cel.frame i).width ≤ (celSurface cel).w ∧
      (cel.frame i).height ≤ (celSurface cel).h) ∧
    (∀ i j : Nat, i < j → j < cel.numFrames →
      sumWidths cel i + (cel.frame i).width ≤ sumWidths cel j) ∧
    (∀ i x y : Nat, i < cel.numFrames → x < (cel.frame i).width →
      rawPixel (celSurface cel) ((sumWidths cel i + x : Nat) : Int) y
        = if y < (cel.frame i).height ∧ ((cel.frame i).get x y).visible = true then
            mapRGBA ((cel.frame i).get x y).r ((cel.frame i).get x y).g
              ((cel.frame i).get x y).b 255
          else 0) := by
  have hn : 1 ≤ cel.numFrames := by
    rcases Nat.eq_zero_or_pos cel.numFrames with h | h
    · rw [sumWidths_zero_of_numFrames cel h] at hw
      exact absurd hw (lt_irrefl 0)
    · exact h
  have hzero : ∀ p q : Nat,
      rawPixel (createTransparentSurface (sumWidths cel cel.numFrames)
        (maxHeights cel cel.numFrames)) p q = 0 :=
    fun p q => rawPixel_createTransparentSurface _ _ _ _
  have hspec := fun (n : Nat) (h : n ≤ cel.numFrames) =>
    drawCelFrames_spec cel
      (createTransparentSurface (sumWidths cel cel.numFrames) (maxHeights cel cel.numFrames))
      (createTransparentSurface_wf _ _) hzero n (sumWidths_mono cel n _ h)
      (maxHeights_mono cel n _ h)
  obtain ⟨_, hsw, hsh, hswf, hpix, _⟩ := hspec cel.numFrames (le_refl _)
  have hsw' : (celSurface cel).w = sumWidths cel cel.numFrames := hsw
  have hsh' : (celSurface cel).h = maxHeights cel cel.numFrames := hsh
  refine ⟨hn, toPng_eq cel hw, loadCelToSingleTexture_eq cel hw, hsw', hsh', hswf,
    fun i hi => ?_, fun i hi => ?_, fun i j hij hj => ?_, hpix⟩
  · rw [drawCelFrames_succ, (hspec i (le_of_lt hi)).1]
  · rw [hsw', hsh']
    exact ⟨sumWidths_succ_le cel i _ hi, maxHeights_ge cel i _ hi⟩
  · exact sumWidths_succ_le cel i j hij

/-- Witness of C17: the 2 x 2 frame of the compositing example followed by a
one-pixel frame gives a 3 x 2 surface with the second frame in column 2. -/
theorem single_texture_concatenation_witness :
    SpriteGroup.toPng exampleCel
      = some ⟨3, 2, [mapRGBA 10 0 0 255, 0, mapRGBA 7 8 9 255, 0, mapRGBA 0 0 10 255, 0]⟩ ∧
    loadCelToSingleTexture exampleCel
      = Except.ok ⟨3, 2, [mapRGBA 10 0 0 255, 0, mapRGBA 7 8 9 255, 0, mapRGBA 0 0 10 255, 0]⟩ :=
  have h := single_texture_concatenation exampleCel (by decide)
  have hs : celSurface exampleCel
      = ⟨3, 2, [mapRGBA 10 0 0 255, 0, mapRGBA 7 8 9 255, 0, mapRGBA 0 0 10 255, 0]⟩ := by
    decide
  ⟨h.2.1.trans (congrArg some hs), (h.2.2.1 (by decide)).trans (congrArg Except.ok hs)⟩

/-- Counterexample to C17 as stated: an archive of one frame of width 1 and
height 0 has a frame and a positive total width, and `loadCelToSingleTexture`
fails its assertion `height > 0` instead of building a surface. -/
theorem single_texture_flat_counterexample :
    1 ≤ flatCel.numFrames ∧ 0 < sumWidths flatCel flatCel.numFrames ∧
    loadCelToSingleTexture flatCel = Except.error RenderError.assertFailed ∧
    ¬ ∃ s : Surface, loadCelToSingleTexture flatCel = Except.ok s := by
  have h : loadCelToSingleTexture flatCel = Except.error RenderError.assertFailed :=
    loadCelToSingleTexture_flat flatCel (by decide)
  refine ⟨by decide, by decide, h, ?_⟩
  rintro ⟨s, hs⟩
  rw [h] at hs
  cases hs


/-! ### Pixel copies -/

theorem applyCopies_nil (original tmp : Surface) : applyCopies original [] tmp = tmp := rfl

theorem applyCopies_cons (original tmp : Surface) (c : PixelCopy) (cs : List PixelCopy) :
    applyCopies original (c :: cs) tmp
      = applyCopies original cs (setpixel tmp c.dstX c.dstY (getPixel original c.srcX c.srcY)) :=
  rfl

theorem applyCopies_append (original tmp : Surface) (l1 l2 : List PixelCopy) :
    applyCopies original (l1 ++ l2) tmp = applyCopies original l2 (applyCopies original l1 tmp) := by
  unfold applyCopies
  rw [List.foldl_append]

theorem applyCopies_shape (original : Surface) (copies : List PixelCopy) :
    ∀ tmp : Surface, (applyCopies original copies tmp).w = tmp.w ∧
      (applyCopies original copies tmp).h = tmp.h ∧
      (applyCopies original copies tmp).pixels.length = tmp.pixels.length := by
  induction copies with
  | nil => exact fun tmp => ⟨rfl, rfl, rfl⟩
  | cons c cs ih =>
    intro tmp
    rw [applyCopies_cons]
    obtain ⟨h1, h2, h3⟩ := ih (setpixel tmp c.dstX c.dstY (getPixel original c.srcX c.srcY))
    rw [h1, h2, h3, setpixel_w, setpixel_h, setpixel_length]
    exact ⟨rfl, rfl, rfl⟩

theorem rawPixel_setpixel_stored (s : Surface) (hwf : s.pixels.length = s.w * s.h) (a b p q : Nat)
    (ha : a < s.w) (hb : b < s.h) (hp : p < s.w) (c : Colour) :
    rawPixel (setpixel s a b c) p q
      = if p = a ∧ q = b then storedPixel c else rawPixel s p q :=
  rawPixel_setpixel s hwf a b p q ha hb hp c

/-- A pixel that no copy writes to keeps its value. -/
theorem applyCopies_untouched (original : Surface) (p q : Nat) (copies : List PixelCopy) :
    ∀ tmp : Surface, tmp.pixels.length = tmp.w * tmp.h → p < tmp.w →
      (∀ c ∈ copies, c.dstX < tmp.w ∧ c.dstY < tmp.h) →
      (∀ c ∈ copies, ¬ (p = c.dstX ∧ q = c.dstY)) →
      rawPixel (applyCopies original copies tmp) p q = rawPixel tmp p q := by
  induction copies with
  | nil => exact fun tmp _ _ _ _ => rfl
  | cons c cs ih =>
    intro tmp hwf hp hin hne
    have hc := hin c (List.mem_cons_self c cs)
    rw [applyCopies_cons, ih _ (by rw [setpixel_length, setpixel_w, setpixel_h]; exact hwf)
      (by rw [setpixel_w]; exact hp)
      (fun d hd => by
        rw [setpixel_w, setpixel_h]
        exact hin d (List.mem_cons_of_mem c hd))
      (fun d hd => hne d (List.mem_cons_of_mem c hd)),
      rawPixel_setpixel_stored tmp hwf c.dstX c.dstY p q hc.1 hc.2 hp,
      if_neg (hne c (List.mem_cons_self c cs))]

/-- A pixel that a copy writes to holds the stored source colour, when the copies
to one place all come from one place. -/
theorem applyCopies_written (original : Surface) (copies : List PixelCopy) :
    ∀ tmp : Surface, tmp.pixels.length = tmp.w * tmp.h →
      (∀ c ∈ copies, c.dstX < tmp.w ∧ c.dstY < tmp.h) →
      (∀ c ∈ copies, ∀ d ∈ copies, c.dstX = d.dstX → c.dstY = d.dstY →
        c.srcX = d.srcX ∧ c.srcY = d.srcY) →
      ∀ c ∈ copies,
        rawPixel (applyCopies original copies tmp) c.dstX c.dstY
          = storedPixel (getPixel original c.srcX c.srcY) := by
  induction copies with
  | nil => exact fun tmp _ _ _ c hc => absurd hc (List.not_mem_nil c)
  | cons a cs ih =>
    intro tmp hwf hin hfun c hc
    have ha := hin a (List.mem_cons_self a cs)
    have hwf1 : (setpixel tmp a.dstX a.dstY (getPixel original a.srcX a.srcY)).pixels.length
        = (setpixel tmp a.dstX a.dstY (getPixel original a.srcX a.srcY)).w
          * (setpixel tmp a.dstX a.dstY (getPixel original a.srcX a.srcY)).h := by
      rw [setpixel_length, setpixel_w, setpixel_h]
      exact hwf
    have hin1 : ∀ d ∈ cs,
        d.dstX < (setpixel tmp a.dstX a.dstY (getPixel original a.srcX a.srcY)).w ∧
        d.dstY < (setpixel tmp a.dstX a.dstY (getPixel original a.srcX a.srcY)).h := fun d hd => by
      rw [setpixel_w, setpixel_h]
      exact hin d (List.mem_cons_of_mem a hd)
    have hfun1 : ∀ c ∈ cs, ∀ d ∈ cs, c.dstX = d.dstX → c.dstY = d.dstY →
        c.srcX = d.srcX ∧ c.srcY = d.srcY := fun c hc d hd =>
      hfun c (List.mem_cons_of_mem a hc) d (List.mem_cons_of_mem a hd)
    rw [applyCopies_cons]
    by_cases hlater : ∃ d ∈ cs, c.dstX = d.dstX ∧ c.dstY = d.dstY
    · obtain ⟨d, hd, hx, hy⟩ := hlater
      obtain ⟨hsx, hsy⟩ := hfun c hc d (List.mem_cons_of_mem a hd) hx hy
      rw [hx, hy, hsx, hsy]
      exact ih _ hwf1 hin1 hfun1 d hd
    · have hca : c = a := by
        rcases List.mem_cons.mp hc with h | h
        · exact h
        · exact absurd ⟨c, h, rfl, rfl⟩ hlater
      rw [hca] at hlater ⊢
      rw [applyCopies_untouched original a.dstX a.dstY cs _ hwf1
        (by rw [setpixel_w]; exact ha.1) hin1
        (fun d hd hxy => hlater ⟨d, hd, hxy.1, hxy.2⟩),
        rawPixel_setpixel_stored tmp hwf a.dstX a.dstY a.dstX a.dstY ha.1 ha.2 ha.1,
        if_pos ⟨rfl, rfl⟩]

theorem getPixel_of_stored (s : Surface) (x y : Int) (c : Colour)
    (h : rawPixel s x y = storedPixel c) : getPixel s x y = c := by
  unfold getPixel
  rw [h]
  unfold storedPixel
  have hv : (if c.visible = true then 1 else 0) * 255 < 256 := by
    split <;> decide
  rw [getRGBA_mapRGBA _ _ _ _ c.r.isLt c.g.isLt c.b.isLt hv]
  obtain ⟨r, g, b, v⟩ := c
  simp only [Colour.mk.injEq]
  refine ⟨Fin.ext (Nat.mod_eq_of_lt r.isLt), Fin.ext (Nat.mod_eq_of_lt g.isLt),
    Fin.ext (Nat.mod_eq_of_lt b.isLt), ?_⟩
  cases v <;> simp

theorem clearTransparentSurface_eq_create (s : Surface) (hwf : s.pixels.length = s.w * s.h) :
    clearTransparentSurface s = createTransparentSurface s.w s.h := by
  unfold createTransparentSurface clearTransparentSurface
  simp only [List.length_replicate, hwf]

theorem storedPixel_getPixel (s : Surface) (x y : Int) :
    storedPixel (getPixel s x y)
      = mapRGBA (getRGBA (rawPixel s x y)).1 (getRGBA (rawPixel s x y)).2.1
          (getRGBA (rawPixel s x y)).2.2.1
          (if (getRGBA (rawPixel s x y)).2.2.2 = 255 then 255 else 0) := by
  unfold storedPixel getPixel mapRGBA getRGBA
  simp only [Fin.ofNat, Fin.val_mk, beq_iff_eq]
  split <;> omega

/-- A source pixel of 32 bits with alpha 0 or 255 is stored as it is. -/
theorem storedPixel_getPixel_exact (s : Surface) (x y : Int) (h32 : rawPixel s x y < 2 ^ 32)
    (ha : (getRGBA (rawPixel s x y)).2.2.2 = 0 ∨ (getRGBA (rawPixel s x y)).2.2.2 = 255) :
    storedPixel (getPixel s x y) = rawPixel s x y := by
  rw [storedPixel_getPixel]
  unfold mapRGBA getRGBA at *
  simp only at ha ⊢
  rcases ha with ha | ha
  · rw [if_neg (by omega)]
    omega
  · rw [if_pos ha]
    omega

/-! ### Vertical-animation split -/

theorem mem_bandCopies (w h srcY v : Nat) (c : PixelCopy) :
    c ∈ bandCopies w h srcY v
      ↔ ∃ x y : Nat, x < w ∧ y < v ∧ srcY + y < h ∧ c = ⟨x, srcY + y, x, y⟩ := by
  unfold bandCopies
  simp only [List.mem_flatMap, List.mem_range]
  constructor
  · rintro ⟨x, hx, y, hy, hc⟩
    by_cases hlt : srcY + y < h
    · rw [if_pos hlt, List.mem_singleton] at hc
      exact ⟨x, y, hx, hy, hlt, hc⟩
    · rw [if_neg hlt] at hc
      exact absurd hc (List.not_mem_nil c)
  · rintro ⟨x, y, hx, hy, hlt, rfl⟩
    refine ⟨x, hx, y, hy, ?_⟩
    rw [if_pos hlt]
    exact List.mem_singleton_self _

/-- The frame `loadVanimSprite` makes of the band that starts at row `srcY`, on a
cleared `tmp`. -/
theorem band_frame (original : Surface) (srcY v : Nat) :
    (applyCopies original (bandCopies original.w original.h srcY v)
      (createTransparentSurface original.w v)).w = original.w ∧
    (applyCopies original (bandCopies original.w original.h srcY v)
      (createTransparentSurface original.w v)).h = v ∧
    (applyCopies original (bandCopies original.w original.h srcY v)
      (createTransparentSurface original.w v)).pixels.length = original.w * v ∧
    ∀ x y : Nat, x < original.w → y < v →
      rawPixel (applyCopies original (bandCopies original.w original.h srcY v)
          (createTransparentSurface original.w v)) x y
        = if srcY + y < original.h then
            storedPixel (getPixel original x ((srcY + y : Nat) : Int))
          else 0 := by
  have hshape := applyCopies_shape original (bandCopies original.w original.h srcY v)
    (createTransparentSurface original.w v)
  have hwf := createTransparentSurface_wf original.w v
  have hin : ∀ c ∈ bandCopies original.w original.h srcY v,
      c.dstX < (createTransparentSurface original.w v).w ∧
      c.dstY < (createTransparentSurface original.w v).h := by
    intro c hc
    obtain ⟨x, y, hx, hy, _, rfl⟩ := (mem_bandCopies _ _ _ _ c).mp hc
    exact ⟨hx, hy⟩
  refine ⟨hshape.1, hshape.2.1, hshape.2.2.trans hwf, fun x y hx hy => ?_⟩
  by_cases hlt : srcY + y < original.h
  · rw [if_pos hlt]
    exact applyCopies_written original _ _ hwf hin
      (fun c hc d hd h1 h2 => by
        obtain ⟨x1, y1, _, _, _, rfl⟩ := (mem_bandCopies _ _ _ _ c).mp hc
        obtain ⟨x2, y2, _, _, _, rfl⟩ := (mem_bandCopies _ _ _ _ d).mp hd
        simp only at h1 h2
        subst h1 h2
        exact ⟨rfl, rfl⟩)
      ⟨x, srcY + y, x, y⟩ ((mem_bandCopies _ _ _ _ _).mpr ⟨x, y, hx, hy, hlt, rfl⟩)
  · rw [if_neg hlt, applyCopies_untouched original x y _ _ hwf hx hin]
    · exact rawPixel_createTransparentSurface _ _ _ _
    · intro c hc hxy
      obtain ⟨x1, y1, _, _, hlt1, rfl⟩ := (mem_bandCopies _ _ _ _ c).mp hc
      simp only at hxy
      obtain ⟨_, e2⟩ := hxy
      subst e2
      exact hlt hlt1

theorem mul_lt_iff_lt_ceil (k a v : Nat) (hv : 0 < v) : k * v < a ↔ k < (a + v - 1) / v := by
  rw [Nat.lt_iff_add_one_le, Nat.lt_iff_add_one_le, Nat.le_div_iff_mul_le hv, Nat.add_mul,
    Nat.one_mul]
  omega

theorem sizeMinusOne_of_pos (h : Nat) (h1 : 1 ≤ h) (h64 : h < 2 ^ 64) :
    sizeMinusOne h = h - 1 := by
  unfold sizeMinusOne
  omega

theorem loadVanimLoop_succ (original : Surface) (vAnim fuel srcY : Nat) (tmp : Surface) :
    loadVanimLoop original vAnim (fuel + 1) srcY tmp
      = if srcY < sizeMinusOne original.h then
          (loadVanimLoop original vAnim fuel ((srcY + vAnim) % 2 ^ 64)
              (clearTransparentSurface
                (applyCopies original (bandCopies original.w original.h srcY vAnim) tmp))).map
            (fun rest =>
              applyCopies original (bandCopies original.w original.h srcY vAnim) tmp :: rest)
        else some [] :=
  rfl

theorem loadVanimLoop_zero (original : Surface) (vAnim srcY : Nat) (tmp : Surface) :
    loadVanimLoop original vAnim 0 srcY tmp
      = if srcY < sizeMinusOne original.h then none else some [] :=
  rfl

theorem loadVanimLoop_run (original : Surface) (v : Nat) (hv : 0 < v) (h1 : 1 ≤ original.h)
    (h64 : original.h + v ≤ 2 ^ 64) :
    ∀ fuel k : Nat, k ≤ (original.h - 1 + v - 1) / v → (original.h - 1 + v - 1) / v - k ≤ fuel →
      loadVanimLoop original v fuel (k * v) (createTransparentSurface original.w v)
        = some ((List.range ((original.h - 1 + v - 1) / v - k)).map (fun j =>
            applyCopies original (bandCopies original.w original.h ((k + j) * v) v)
              (createTransparentSurface original.w v))) := by
  have hsz : sizeMinusOne original.h = original.h - 1 :=
    sizeMinusOne_of_pos original.h h1 (by omega)
  intro fuel
  induction fuel with
  | zero =>
    intro k hk hfuel
    have hkn : (original.h - 1 + v - 1) / v - k = 0 := by omega
    have hnot : ¬ k * v < original.h - 1 := fun h =>
      absurd ((mul_lt_iff_lt_ceil k _ v hv).mp h) (by omega)
    rw [loadVanimLoop_zero, hsz, if_neg hnot, hkn]
    rfl
  | succ fuel ih =>
    intro k hk hfuel
    rw [loadVanimLoop_succ, hsz]
    by_cases hlt : k * v < original.h - 1
    · have hkn : k < (original.h - 1 + v - 1) / v := (mul_lt_iff_lt_ceil k _ v hv).mp hlt
      have hstep : (k * v + v) % 2 ^ 64 = (k + 1) * v := by
        rw [Nat.add_mul, Nat.one_mul]
        exact Nat.mod_eq_of_lt (by omega)
      obtain ⟨bw, bh, bl, _⟩ := band_frame original (k * v) v
      have hclear : clearTransparentSurface
            (applyCopies original (bandCopies original.w original.h (k * v) v)
              (createTransparentSurface original.w v))
          = createTransparentSurface original.w v := by
        rw [clearTransparentSurface_eq_create _ (by rw [bl, bw, bh]), bw, bh]
      rw [if_pos hlt, hstep, hclear, ih (k + 1) hkn (by omega)]
      have hcount : (original.h - 1 + v - 1) / v - k
          = ((original.h - 1 + v - 1) / v - (k + 1)) + 1 := by omega
      rw [hcount, List.range_succ_eq_map, List.map_cons, List.map_map, Option.map_some']
      have hfn : ((fun j => applyCopies original
            (bandCopies original.w original.h ((k + j) * v) v)
            (createTransparentSurface original.w v)) ∘ Nat.succ)
          = fun j => applyCopies original (bandCopies original.w original.h ((k + 1 + j) * v) v)
            (createTransparentSurface original.w v) := by
        funext j
        show applyCopies original (bandCopies original.w original.h ((k + (j + 1)) * v) v) _ = _
        rw [show k + (j + 1) = k + 1 + j by omega]
      rw [hfn]
      simp only [Nat.add_zero]
    · have hkn : (original.h - 1 + v - 1) / v - k = 0 := by
        have := mt (mul_lt_iff_lt_ceil k (original.h - 1) v hv).mpr hlt
        omega
      rw [if_neg hlt, hkn]
      rfl

theorem ceil_pred_eq (h v : Nat) (hv : 0 < v) (h1 : 1 ≤ h) (hmod : (h - 1) % v ≠ 0) :
    (h - 1 + v - 1) / v = (h + v - 1) / v := by
  have hd := Nat.div_add_mod (h - 1) v
  have hr := Nat.mod_lt (h - 1) hv
  have e1 : h - 1 + v - 1 = ((h - 1) % v - 1) + v * ((h - 1) / v + 1) := by
    rw [Nat.mul_add, Nat.mul_one]
    omega
  have e2 : h + v - 1 = (h - 1) % v + v * ((h - 1) / v + 1) := by
    rw [Nat.mul_add, Nat.mul_one]
    omega
  rw [e1, e2, Nat.add_mul_div_left _ _ hv, Nat.add_mul_div_left _ _ hv,
    Nat.div_eq_of_lt (by omega), Nat.div_eq_of_lt hr]

theorem loadVanimSprite_eq (original : Surface) (v : Nat) (hv : 0 < v) (h1 : 1 ≤ original.h)
    (h64 : original.h + v ≤ 2 ^ 64) :
    loadVanimSprite original v
      = some ((List.range ((original.h - 1 + v - 1) / v)).map (fun j =>
          applyCopies original (bandCopies original.w original.h (j * v) v)
            (createTransparentSurface original.w v))) := by
  have hn : (original.h - 1 + v - 1) / v ≤ original.h - 1 := by
    rcases Nat.eq_zero_or_pos ((original.h - 1 + v - 1) / v) with h0 | hpos
    · omega
    · have h2 : (original.h - 1 + v - 1) / v - 1 < (original.h - 1 + v - 1) / v := by omega
      have h3 := (mul_lt_iff_lt_ceil _ (original.h - 1) v hv).mpr h2
      have h4 : (original.h - 1 + v - 1) / v - 1 ≤ ((original.h - 1 + v - 1) / v - 1) * v :=
        Nat.le_mul_of_pos_right _ hv
      omega
  have h := loadVanimLoop_run original v hv h1 h64 (sizeMinusOne original.h) 0 (Nat.zero_le _)
    (by rw [sizeMinusOne_of_pos original.h h1 (by omega)]; omega)
  simp only [Nat.zero_mul, Nat.zero_add, Nat.sub_zero] at h
  exact h

/-- C15: vertical-animation split. For a source of width `w` and height
`h >= 1` and a frame height `v >= 1` (sizes below `2^64`), `loadVanimSprite` ends
with at most `ceil(h / v)` frames, exactly that many when `h - 1` is not a
multiple of `v`. Frame `k` is `w x v`; at `(x, y)` with `k*v + y < h` it holds the
colour channels of the source pixel `(x, k*v + y)` with alpha 255 when the source
alpha is 255 and alpha 0 otherwise (read back with `getPixel` it is the source
colour, and a 32-bit source pixel with alpha 0 or 255 is copied as it is), and it
is fully transparent where `k*v + y >= h`. A source row `r` can only appear in
frame `r / v`, at row `r % v`, and when `h - 1` is not a multiple of `v` that frame
exists for every row. -/
theorem vanim_split (original : Surface) (v : Nat) (hv : 1 ≤ v) (h1 : 1 ≤ original.h)
    (h64 : original.h + v ≤ 2 ^ 64) :
    ∃ frames : List Surface,
      loadVanimSprite original v = some frames ∧
      frames.length ≤ (original.h + v - 1) / v ∧
      ((original.h - 1) % v ≠ 0 → frames.length = (original.h + v - 1) / v) ∧
      (∀ (k : Nat) (f : Surface), frames[k]? = some f →
        f.w = original.w ∧ f.h = v ∧
        ∀ x y : Nat, x < original.w → y < v →
          (k * v + y < original.h →
            rawPixel f x y = storedPixel (getPixel original x ((k * v + y : Nat) : Int)) ∧
            getPixel f x y = getPixel original x ((k * v + y : Nat) : Int) ∧
            (rawPixel original x ((k * v + y : Nat) : Int) < 2 ^ 32 →
              (getRGBA (rawPixel original x ((k * v + y : Nat) : Int))).2.2.2 = 0 ∨
                (getRGBA (rawPixel original x ((k * v + y : Nat) : Int))).2.2.2 = 255 →
              rawPixel f x y = rawPixel original x ((k * v + y : Nat) : Int))) ∧
          (original.h ≤ k * v + y → rawPixel f x y = 0)) ∧
      (∀ r k y : Nat, y < v → k * v + y = r → k = r / v ∧ y = r % v) ∧
      ((original.h - 1) % v ≠ 0 → ∀ r : Nat, r < original.h → r / v < frames.length) := by
  have hpos : 0 < v := hv
  have hlen : ((List.range ((original.h - 1 + v - 1) / v)).map (fun j =>
      applyCopies original (bandCopies original.w original.h (j * v) v)
        (createTransparentSurface original.w v))).length = (original.h - 1 + v - 1) / v := by
    rw [List.length_map, List.length_range]
  refine ⟨_, loadVanimSprite_eq original v hpos h1 h64, ?_, ?_, ?_, ?_, ?_⟩
  · rw [hlen]
    exact Nat.div_le_div_right (by omega)
  · intro hmod
    rw [hlen]
    exact ceil_pred_eq original.h v hpos h1 hmod
  · intro k f hf
    rw [List.getElem?_map] at hf
    rcases hr : (List.range ((original.h - 1 + v - 1) / v))[k]? with _ | j
    · rw [hr] at hf
      cases hf
    · rw [hr] at hf
      have hj : j = k := by
        by_cases hk : k < (original.h - 1 + v - 1) / v
        · rw [List.getElem?_range hk] at hr
          exact (Option.some.inj hr).symm
        · rw [List.getElem?_eq_none (by rw [List.length_range]; omega)] at hr
          cases hr
      subst hj
      have hfe : applyCopies original (bandCopies original.w original.h (j * v) v)
          (createTransparentSurface original.w v) = f := Option.some.inj hf
      subst hfe
      obtain ⟨bw, bh, _, bpix⟩ := band_frame original (j * v) v
      refine ⟨bw, bh, fun x y hx hy => ⟨fun hlt => ?_, fun hge => ?_⟩⟩
      · have hraw := bpix x y hx hy
        rw [if_pos hlt] at hraw
        refine ⟨hraw, getPixel_of_stored _ _ _ _ hraw, fun h32 ha => ?_⟩
        rw [hraw]
        exact storedPixel_getPixel_exact original _ _ h32 ha
      · rw [bpix x y hx hy, if_neg (by omega)]
  · intro r k y hy hr
    have hdm := Nat.div_add_mod r v
    have hmod := Nat.mod_lt r hpos
    have := index_inj v y k (r % v) (r / v) hy hmod (by rw [hr, Nat.mul_comm]; omega)
    exact ⟨this.2.symm, this.1.symm⟩
  · intro hmod r hr
    rw [hlen, ceil_pred_eq original.h v hpos h1 hmod]
    exact (mul_lt_iff_lt_ceil (r / v) original.h v hpos).mp
      (lt_of_le_of_lt (Nat.div_mul_le_self r v) hr)

/-- Witness of C15: four rows split into two frames of two rows. -/
theorem vanim_split_witness :
    ∃ frames : List Surface,
      loadVanimSprite fourRows 2 = some frames ∧ frames.length = (4 + 2 - 1) / 2 :=
  match vanim_split fourRows 2 (by decide) (by decide) (by decide) with
  | ⟨frames, h, _, hcount, _⟩ => ⟨frames, h, hcount (by decide)⟩

/-- Counterexample to C15 as stated. The last pixel of the four-row source has
alpha 128 and its copy, at `(0, 1)` of the second frame, has alpha 0, so the frame
does not hold the source pixel. And the loop runs while `srcY < h - 1`: three rows
with frame height 2 give one frame where `ceil(3 / 2) = 2` are claimed, the pixel
of row 2 being in no frame; three rows with frame height 1 give two frames; one
row gives none. -/
theorem vanim_split_counterexample :
    (loadVanimSprite fourRows 2
        = some [⟨1, 2, [mapRGBA 10 0 0 255, mapRGBA 20 0 0 255]⟩,
            ⟨1, 2, [mapRGBA 30 0 0 255, mapRGBA 40 0 0 0]⟩] ∧
      rawPixel fourRows 0 3 = mapRGBA 40 0 0 128 ∧ mapRGBA 40 0 0 0 ≠ mapRGBA 40 0 0 128) ∧
    (loadVanimSprite threeRows 2
        = some [⟨1, 2, [mapRGBA 10 0 0 255, mapRGBA 20 0 0 255]⟩] ∧
      (3 + 2 - 1) / 2 = 2 ∧
      rawPixel threeRows 0 2 ∉ [mapRGBA 10 0 0 255, mapRGBA 20 0 0 255]) ∧
    loadVanimSprite threeRows 1
      = some [⟨1, 1, [mapRGBA 10 0 0 255]⟩, ⟨1, 1, [mapRGBA 20 0 0 255]⟩] ∧
    loadVanimSprite ⟨1, 1, [mapRGBA 10 0 0 255]⟩ 1 = some [] := by
  decide

/-! ### Tile-grid resize -/

theorem succ_div_mod (k c : Nat) (hc : 0 < c) :
    (k % c + 1 < c → (k + 1) % c = k % c + 1 ∧ (k + 1) / c = k / c) ∧
    (¬ k % c + 1 < c → (k + 1) % c = 0 ∧ (k + 1) / c = k / c + 1) := by
  have hk := Nat.div_add_mod k c
  have hr := Nat.mod_lt k hc
  constructor
  · intro h
    have e : k + 1 = (k % c + 1) + c * (k / c) := by omega
    rw [e, Nat.add_mul_mod_self_left, Nat.add_mul_div_left _ _ hc, Nat.mod_eq_of_lt h,
      Nat.div_eq_of_lt h]
    omega
  · intro h
    have e : k + 1 = c * (k / c + 1) := by
      rw [Nat.mul_add, Nat.mul_one]
      omega
    rw [e, Nat.mul_mod_right, Nat.mul_div_cancel_left _ hc]
    exact ⟨rfl, rfl⟩

/-- The cursor of `loadResizedSprite` over a grid of `cols x rows` tiles of size
`t x u`: from tile `k` it moves to tile `k + 1`, and it is below the grid exactly
when `k + 1` is the number of tiles. -/
theorem cursor_step (cols rows t u k : Nat) (ht : 0 < t) (hu : 0 < u) (hc : 0 < cols)
    (hk : k < cols * rows) (hw : cols * t < 2 ^ 64) (hh : rows * u < 2 ^ 64) :
    (if (k % cols * t + t) % 2 ^ 64 ≥ cols * t then 0 else (k % cols * t + t) % 2 ^ 64)
      = (k + 1) % cols * t ∧
    (if (k % cols * t + t) % 2 ^ 64 ≥ cols * t then (k / cols * u + u) % 2 ^ 64 else k / cols * u)
      = (k + 1) / cols * u ∧
    ((k + 1) / cols * u ≥ rows * u ↔ cols * rows ≤ k + 1) := by
  have hr := Nat.mod_lt k hc
  have hq : k / cols < rows := (Nat.div_lt_iff_lt_mul hc).mpr (by rw [Nat.mul_comm]; exact hk)
  have h1 : k % cols * t + t = (k % cols + 1) * t := by ring
  have h2 : (k % cols + 1) * t ≤ cols * t := Nat.mul_le_mul_right t hr
  have h3 : k / cols * u + u = (k / cols + 1) * u := by ring
  have h4 : (k / cols + 1) * u ≤ rows * u := Nat.mul_le_mul_right u hq
  have h5 : (k % cols + 1) * t % 2 ^ 64 = (k % cols + 1) * t :=
    Nat.mod_eq_of_lt (lt_of_le_of_lt h2 hw)
  have h6 : (k / cols + 1) * u % 2 ^ 64 = (k / cols + 1) * u :=
    Nat.mod_eq_of_lt (lt_of_le_of_lt h4 hh)
  rw [h1, h5, h3, h6]
  obtain ⟨hs1, hs2⟩ := succ_div_mod k cols hc
  have hiff : (k + 1) / cols * u ≥ rows * u ↔ cols * rows ≤ k + 1 := by
    constructor
    · intro h
      have : rows ≤ (k + 1) / cols := Nat.le_of_mul_le_mul_right h hu
      have := (Nat.le_div_iff_mul_le hc).mp this
      rw [Nat.mul_comm]
      exact this
    · intro h
      have : rows ≤ (k + 1) / cols := (Nat.le_div_iff_mul_le hc).mpr (by rw [Nat.mul_comm]; exact h)
      exact Nat.mul_le_mul_right u this
  by_cases hlt : k % cols + 1 < cols
  · obtain ⟨e1, e2⟩ := hs1 hlt
    have hlt' : ¬ (k % cols + 1) * t ≥ cols * t := by
      have := Nat.mul_lt_mul_of_pos_right hlt ht
      omega
    rw [if_neg hlt', if_neg hlt']
    rw [e1, e2]
    rw [e2] at hiff
    exact ⟨rfl, rfl, hiff⟩
  · obtain ⟨e1, e2⟩ := hs2 hlt
    have heq : k % cols + 1 = cols := by omega
    have hge : (k % cols + 1) * t ≥ cols * t := by rw [heq]
    rw [if_pos hge, if_pos hge]
    rw [e1, e2]
    rw [e2] at hiff
    refine ⟨by rw [Nat.zero_mul], rfl, hiff⟩

theorem tileCopiesUpTo_succ (srcCols dstCols tileWidth tileHeight n : Nat) :
    tileCopiesUpTo srcCols dstCols tileWidth tileHeight (n + 1)
      = tileCopiesUpTo srcCols dstCols tileWidth tileHeight n ++
          tileCopies ((n % srcCols) * tileWidth) ((n / srcCols) * tileHeight)
            ((n % dstCols) * tileWidth) ((n / dstCols) * tileHeight) tileWidth tileHeight := by
  unfold tileCopiesUpTo
  rw [List.range_succ, List.flatMap_append]
  simp only [List.flatMap_cons, List.flatMap_nil, List.append_nil]

theorem loadResizedLoop_succ (original : Surface) (width height tileWidth tileHeight : Nat)
    (fuel srcX srcY dstX dstY : Nat) (tmp : Surface) (copies : List PixelCopy) :
    loadResizedLoop original width height tileWidth tileHeight (fuel + 1) srcX srcY dstX dstY tmp
        copies
      = if (if (srcX + tileWidth) % 2 ^ 64 ≥ original.w then (srcY + tileHeight) % 2 ^ 64
            else srcY) ≥ original.h then
          some (applyCopies original (tileCopies srcX srcY dstX dstY tileWidth tileHeight) tmp,
            copies ++ tileCopies srcX srcY dstX dstY tileWidth tileHeight)
        else if (if (dstX + tileWidth) % 2 ^ 64 ≥ width then (dstY + tileHeight) % 2 ^ 64
            else dstY) ≥ height then
          some (applyCopies original (tileCopies srcX srcY dstX dstY tileWidth tileHeight) tmp,
            copies ++ tileCopies srcX srcY dstX dstY tileWidth tileHeight)
        else
          loadResizedLoop original width height tileWidth tileHeight fuel
            (if (srcX + tileWidth) % 2 ^ 64 ≥ original.w then 0 else (srcX + tileWidth) % 2 ^ 64)
            (if (srcX + tileWidth) % 2 ^ 64 ≥ original.w then (srcY + tileHeight) % 2 ^ 64
              else srcY)
            (if (dstX + tileWidth) % 2 ^ 64 ≥ width then 0 else (dstX + tileWidth) % 2 ^ 64)
            (if (dstX + tileWidth) % 2 ^ 64 ≥ width then (dstY + tileHeight) % 2 ^ 64 else dstY)
            (applyCopies original (tileCopies srcX srcY dstX dstY tileWidth tileHeight) tmp)
            (copies ++ tileCopies srcX srcY dstX dstY tileWidth tileHeight) :=
  rfl

theorem loadResizedLoop_run (original : Surface) (tw th cs rs cd rd : Nat) (tmp0 : Surface)
    (htw : 0 < tw) (hth : 0 < th) (hcs : 0 < cs) (hcd : 0 < cd)
    (hsw : original.w = cs * tw) (hsh : original.h = rs * th)
    (hw64 : cs * tw < 2 ^ 64) (hh64 : rs * th < 2 ^ 64)
    (hW64 : cd * tw < 2 ^ 64) (hH64 : rd * th < 2 ^ 64) :
    ∀ fuel k : Nat, k < min (cs * rs) (cd * rd) → min (cs * rs) (cd * rd) - k ≤ fuel →
      loadResizedLoop original (cd * tw) (rd * th) tw th fuel
          (k % cs * tw) (k / cs * th) (k % cd * tw) (k / cd * th)
          (applyCopies original (tileCopiesUpTo cs cd tw th k) tmp0)
          (tileCopiesUpTo cs cd tw th k)
        = some (applyCopies original (tileCopiesUpTo cs cd tw th (min (cs * rs) (cd * rd))) tmp0,
            tileCopiesUpTo cs cd tw th (min (cs * rs) (cd * rd))) := by
  intro fuel
  induction fuel with
  | zero =>
    intro k hk hfuel
    omega
  | succ fuel ih =>
    intro k hk hfuel
    have hkS : k < cs * rs := lt_of_lt_of_le hk (min_le_left _ _)
    have hkD : k < cd * rd := lt_of_lt_of_le hk (min_le_right _ _)
    obtain ⟨s1, s2, s3⟩ := cursor_step cs rs tw th k htw hth hcs hkS hw64 hh64
    obtain ⟨d1, d2, d3⟩ := cursor_step cd rd tw th k htw hth hcd hkD hW64 hH64
    rw [loadResizedLoop_succ, hsw, hsh, s1, s2, d1, d2, ← applyCopies_append,
      ← tileCopiesUpTo_succ]
    by_cases hS : cs * rs ≤ k + 1
    · have hM : min (cs * rs) (cd * rd) = k + 1 := by omega
      rw [if_pos (s3.mpr hS), hM]
    · rw [if_neg (fun h => hS (s3.mp h))]
      by_cases hD : cd * rd ≤ k + 1
      · have hM : min (cs * rs) (cd * rd) = k + 1 := by omega
        rw [if_pos (d3.mpr hD), hM]
      · rw [if_neg (fun h => hD (d3.mp h))]
        exact ih (k + 1) (by omega) (by omega)

theorem loadResizedSprite_eq (original : Surface) (tw th cs rs cd rd : Nat)
    (htw : 0 < tw) (hth : 0 < th) (hcs : 0 < cs) (hrs : 0 < rs) (hcd : 0 < cd) (hrd : 0 < rd)
    (hsw : original.w = cs * tw) (hsh : original.h = rs * th)
    (hw64 : cs * tw < 2 ^ 64) (hh64 : rs * th < 2 ^ 64)
    (hW64 : cd * tw < 2 ^ 64) (hH64 : rd * th < 2 ^ 64) :
    loadResizedSprite original (cd * tw) (rd * th) tw th
      = some (applyCopies original (tileCopiesUpTo cs cd tw th (min (cs * rs) (cd * rd)))
            (createTransparentSurface (cd * tw) (rd * th)),
          tileCopiesUpTo cs cd tw th (min (cs * rs) (cd * rd))) := by
  have hS : 0 < cs * rs := Nat.mul_pos hcs hrs
  have hD : 0 < cd * rd := Nat.mul_pos hcd hrd
  have hfuel : min (cs * rs) (cd * rd) - 0 ≤ (original.w + 1) * (original.h + 1) := by
    have h1 : cs ≤ original.w := by
      rw [hsw]
      exact Nat.le_mul_of_pos_right cs htw
    have h2 : rs ≤ original.h := by
      rw [hsh]
      exact Nat.le_mul_of_pos_right rs hth
    have h3 : cs * rs ≤ (original.w + 1) * (original.h + 1) :=
      Nat.mul_le_mul (by omega) (by omega)
    have h4 := min_le_left (cs * rs) (cd * rd)
    omega
  have h := loadResizedLoop_run original tw th cs rs cd rd
    (createTransparentSurface (cd * tw) (rd * th)) htw hth hcs hcd hsw hsh hw64 hh64 hW64 hH64
    ((original.w + 1) * (original.h + 1)) 0 (by omega) hfuel
  simp only [Nat.zero_mod, Nat.zero_div, Nat.zero_mul] at h
  exact h

theorem mem_tileCopies (sx sy dx dy tw th : Nat) (c : PixelCopy) :
    c ∈ tileCopies sx sy dx dy tw th
      ↔ ∃ x y : Nat, x < tw ∧ y < th ∧ c = ⟨sx + x, sy + y, dx + x, dy + y⟩ := by
  unfold tileCopies
  simp only [List.mem_flatMap, List.mem_map, List.mem_range]
  constructor
  · rintro ⟨y, hy, x, hx, rfl⟩
    exact ⟨x, y, hx, hy, rfl⟩
  · rintro ⟨x, y, hx, hy, rfl⟩
    exact ⟨y, hy, x, hx, rfl⟩

theorem mem_tileCopiesUpTo (cs cd tw th n : Nat) (c : PixelCopy) :
    c ∈ tileCopiesUpTo cs cd tw th n
      ↔ ∃ k x y : Nat, k < n ∧ x < tw ∧ y < th ∧
          c = ⟨k % cs * tw + x, k / cs * th + y, k % cd * tw + x, k / cd * th + y⟩ := by
  unfold tileCopiesUpTo
  simp only [List.mem_flatMap, List.mem_range, mem_tileCopies]
  constructor
  · rintro ⟨k, hk, x, y, hx, hy, rfl⟩
    exact ⟨k, x, y, hk, hx, hy, rfl⟩
  · rintro ⟨k, x, y, hk, hx, hy, rfl⟩
    exact ⟨k, hk, x, y, hx, hy, rfl⟩

/-- A pixel of tile `k` of a grid of `cols x rows` tiles of size `t x u` is inside
the grid. -/
theorem tile_inside (cols rows t u k x y : Nat) (hc : 0 < cols) (hk : k < cols * rows)
    (hx : x < t) (hy : y < u) :
    k % cols * t + x < cols * t ∧ k / cols * u + y < rows * u := by
  have hr := Nat.mod_lt k hc
  have hq : k / cols < rows := (Nat.div_lt_iff_lt_mul hc).mpr (by rw [Nat.mul_comm]; exact hk)
  have h2 : (k % cols + 1) * t ≤ cols * t := Nat.mul_le_mul_right t hr
  have h4 : (k / cols + 1) * u ≤ rows * u := Nat.mul_le_mul_right u hq
  rw [Nat.add_mul, Nat.one_mul] at h2 h4
  omega

/-- The pixels of different tiles of a grid are different, and so are different
pixels of one tile. -/
theorem tile_pixel_inj (cols t u k j x y p q : Nat) (hx : x < t) (hy : y < u) (hp : p < t)
    (hq : q < u) (h1 : k % cols * t + x = j % cols * t + p)
    (h2 : k / cols * u + y = j / cols * u + q) :
    k = j ∧ x = p ∧ y = q := by
  obtain ⟨e1, e2⟩ := index_inj t x (k % cols) p (j % cols) hx hp h1
  obtain ⟨e3, e4⟩ := index_inj u y (k / cols) q (j / cols) hy hq h2
  refine ⟨?_, e1.symm, e3.symm⟩
  have hk := Nat.div_add_mod k cols
  have hj := Nat.div_add_mod j cols
  rw [← hk, ← hj, e2, e4]

/-- C16: tile-grid resize. With tiles of `tw x th` pixels, `tw, th > 0`, a source
of `cs x rs` tiles and a destination of `cd x rd` tiles (all positive, sizes below
`2^64`), `loadResizedSprite` ends and makes exactly the pixel copies of the first
`min(cs * rs, cd * rd)` tiles, tile `k` of the source, counted row by row, onto
tile `k` of the destination. Every read is inside the source and every write
inside the destination. A copied pixel keeps its colour channels and gets alpha
255 when the source alpha is 255 and alpha 0 otherwise (`getPixel` keeps only
whether the pixel is opaque); read back with `getPixel` it is the source colour,
and a 32-bit source pixel with alpha 0 or 255 is copied as it is. The pixels of
the destination tiles from `min(cs * rs, cd * rd)` on stay fully transparent. -/
theorem tile_grid_resize (original : Surface) (tw th cs rs cd rd : Nat)
    (htw : 0 < tw) (hth : 0 < th) (hcs : 0 < cs) (hrs : 0 < rs) (hcd : 0 < cd) (hrd : 0 < rd)
    (hsw : original.w = cs * tw) (hsh : original.h = rs * th)
    (hw64 : cs * tw < 2 ^ 64) (hh64 : rs * th < 2 ^ 64)
    (hW64 : cd * tw < 2 ^ 64) (hH64 : rd * th < 2 ^ 64) :
    ∃ (dst : Surface) (copies : List PixelCopy),
      loadResizedSprite original (cd * tw) (rd * th) tw th = some (dst, copies) ∧
      dst.w = cd * tw ∧ dst.h = rd * th ∧
      original.w / tw = cs ∧ original.h / th = rs ∧ cd * tw / tw = cd ∧ rd * th / th = rd ∧
      copies = tileCopiesUpTo cs cd tw th (min (cs * rs) (cd * rd)) ∧
      (∀ c ∈ copies,
        c.srcX < original.w ∧ c.srcY < original.h ∧ c.dstX < dst.w ∧ c.dstY < dst.h) ∧
      (∀ k x y : Nat, k < min (cs * rs) (cd * rd) → x < tw → y < th →
        rawPixel dst ((k % cd * tw + x : Nat) : Int) ((k / cd * th + y : Nat) : Int)
          = storedPixel (getPixel original ((k % cs * tw + x : Nat) : Int)
              ((k / cs * th + y : Nat) : Int)) ∧
        getPixel dst ((k % cd * tw + x : Nat) : Int) ((k / cd * th + y : Nat) : Int)
          = getPixel original ((k % cs * tw + x : Nat) : Int) ((k / cs * th + y : Nat) : Int) ∧
        (rawPixel original ((k % cs * tw + x : Nat) : Int) ((k / cs * th + y : Nat) : Int) < 2 ^ 32 →
          (getRGBA (rawPixel original ((k % cs * tw + x : Nat) : Int)
              ((k / cs * th + y : Nat) : Int))).2.2.2 = 0 ∨
            (getRGBA (rawPixel original ((k % cs * tw + x : Nat) : Int)
              ((k / cs * th + y : Nat) : Int))).2.2.2 = 255 →
          rawPixel dst ((k % cd * tw + x : Nat) : Int) ((k / cd * th + y : Nat) : Int)
            = rawPixel original ((k % cs * tw + x : Nat) : Int) ((k / cs * th + y : Nat) : Int))) ∧
      (∀ k x y : Nat, min (cs * rs) (cd * rd) ≤ k → k < cd * rd → x < tw → y < th →
        rawPixel dst ((k % cd * tw + x : Nat) : Int) ((k / cd * th + y : Nat) : Int) = 0) := by
  have hshape := applyCopies_shape original
    (tileCopiesUpTo cs cd tw th (min (cs * rs) (cd * rd)))
    (createTransparentSurface (cd * tw) (rd * th))
  have hwf := createTransparentSurface_wf (cd * tw) (rd * th)
  have hcw : (createTransparentSurface (cd * tw) (rd * th)).w = cd * tw := rfl
  have hch : (createTransparentSurface (cd * tw) (rd * th)).h = rd * th := rfl
  have hin : ∀ c ∈ tileCopiesUpTo cs cd tw th (min (cs * rs) (cd * rd)),
      c.srcX < cs * tw ∧ c.srcY < rs * th ∧ c.dstX < cd * tw ∧ c.dstY < rd * th := by
    intro c hc
    obtain ⟨k, x, y, hk, hx, hy, rfl⟩ := (mem_tileCopiesUpTo cs cd tw th _ c).mp hc
    have hs := tile_inside cs rs tw th k x y hcs (lt_of_lt_of_le hk (min_le_left _ _)) hx hy
    have hd := tile_inside cd rd tw th k x y hcd (lt_of_lt_of_le hk (min_le_right _ _)) hx hy
    exact ⟨hs.1, hs.2, hd.1, hd.2⟩
  have hfun : ∀ c ∈ tileCopiesUpTo cs cd tw th (min (cs * rs) (cd * rd)),
      ∀ d ∈ tileCopiesUpTo cs cd tw th (min (cs * rs) (cd * rd)),
      c.dstX = d.dstX → c.dstY = d.dstY → c.srcX = d.srcX ∧ c.srcY = d.srcY := by
    intro c hc d hd h1 h2
    obtain ⟨k, x, y, _, hx, hy, rfl⟩ := (mem_tileCopiesUpTo cs cd tw th _ c).mp hc
    obtain ⟨j, p, q, _, hp, hq, rfl⟩ := (mem_tileCopiesUpTo cs cd tw th _ d).mp hd
    obtain ⟨e1, e2, e3⟩ := tile_pixel_inj cd tw th k j x y p q hx hy hp hq h1 h2
    subst e1 e2 e3
    exact ⟨rfl, rfl⟩
  have hwritten : ∀ k x y : Nat, k < min (cs * rs) (cd * rd) → x < tw → y < th →
      rawPixel (applyCopies original (tileCopiesUpTo cs cd tw th (min (cs * rs) (cd * rd)))
          (createTransparentSurface (cd * tw) (rd * th)))
          ((k % cd * tw + x : Nat) : Int) ((k / cd * th + y : Nat) : Int)
        = storedPixel (getPixel original ((k % cs * tw + x : Nat) : Int)
            ((k / cs * th + y : Nat) : Int)) := fun k x y hk hx hy =>
    applyCopies_written original _ _ hwf
      (fun c hc => ⟨(hin c hc).2.2.1, (hin c hc).2.2.2⟩) hfun
      ⟨k % cs * tw + x, k / cs * th + y, k % cd * tw + x, k / cd * th + y⟩
      ((mem_tileCopiesUpTo cs cd tw th _ _).mpr ⟨k, x, y, hk, hx, hy, rfl⟩)
  refine ⟨_, _, loadResizedSprite_eq original tw th cs rs cd rd htw hth hcs hrs hcd hrd hsw hsh
    hw64 hh64 hW64 hH64, hshape.1, hshape.2.1, ?_, ?_, Nat.mul_div_cancel _ htw,
    Nat.mul_div_cancel _ hth, rfl, ?_, ?_, ?_⟩
  · rw [hsw]
    exact Nat.mul_div_cancel _ htw
  · rw [hsh]
    exact Nat.mul_div_cancel _ hth
  · intro c hc
    rw [hsw, hsh, hshape.1, hshape.2.1]
    exact hin c hc
  · intro k x y hk hx hy
    have hraw := hwritten k x y hk hx hy
    refine ⟨hraw, getPixel_of_stored _ _ _ _ hraw, fun h32 ha => ?_⟩
    rw [hraw]
    exact storedPixel_getPixel_exact original _ _ h32 ha
  · intro k x y hge hk hx hy
    have hd := tile_inside cd rd tw th k x y hcd hk hx hy
    rw [applyCopies_untouched original (k % cd * tw + x) (k / cd * th + y) _ _ hwf hd.1
      (fun c hc => ⟨(hin c hc).2.2.1, (hin c hc).2.2.2⟩)]
    · exact rawPixel_createTransparentSurface _ _ _ _
    · intro c hc hpq
      obtain ⟨j, p, q, hj, hp, hq, rfl⟩ := (mem_tileCopiesUpTo cs cd tw th _ c).mp hc
      obtain ⟨e1, _, _⟩ := tile_pixel_inj cd tw th k j x y p q hx hy hp hq hpq.1 hpq.2
      omega

/-- Witness of C16: a 4 x 1 source of two 2 x 1 tiles onto a 2 x 3 destination of
three tiles, one per row. -/
theorem tile_grid_resize_witness :
    ∃ (dst : Surface) (copies : List PixelCopy),
      loadResizedSprite twoTiles (1 * 2) (3 * 1) 2 1 = some (dst, copies) ∧
      dst.w = 1 * 2 ∧ dst.h = 3 * 1 ∧
      copies = tileCopiesUpTo 2 1 2 1 (min (2 * 1) (1 * 3)) :=
  match tile_grid_resize twoTiles 2 1 2 1 1 3 (by decide) (by decide) (by decide) (by decide)
    (by decide) (by decide) rfl rfl (by decide) (by decide) (by decide) (by decide) with
  | ⟨dst, copies, h1, h2, h3, _, _, _, _, h4, _⟩ => ⟨dst, copies, h1, h2, h3, h4⟩

/-- Counterexample to C16 as stated: the second tile of the 4 x 1 source starts
with a pixel of alpha 128; its copy, at `(0, 1)` of the 2 x 2 destination, has
alpha 0, so the tile is not copied pixel for pixel. -/
theorem tile_grid_resize_alpha_counterexample :
    (loadResizedSprite twoTiles 2 2 2 1).map (fun r => rawPixel r.1 0 1)
      = some (mapRGBA 3 0 0 0) ∧
    rawPixel twoTiles 2 0 = mapRGBA 3 0 0 128 ∧
    (loadResizedSprite twoTiles 2 2 2 1).map (fun r => rawPixel r.1 0 1)
      ≠ some (rawPixel twoTiles 2 0) := by
  decide


/-! ### Image extension -/

theorem extensionLoop_spec (path : List Char) :
    ∀ i : Nat, i < path.length →
      ∃ j : Nat, j ≤ i ∧ extensionLoop path i = some j ∧
        (∀ m : Nat, j < m → m ≤ i → path[m]? ≠ some '.') ∧
        (j = 0 ∨ path[j]? = some '.') := by
  intro i
  induction i with
  | zero =>
    intro _
    exact ⟨0, le_refl 0, rfl, fun m h1 h2 => absurd h1 (by omega), Or.inl rfl⟩
  | succ i ih =>
    intro hi
    have hget : path[i + 1]? = some (path[i + 1]) := List.getElem?_eq_getElem hi
    by_cases hdot : path[i + 1] = '.'
    · refine ⟨i + 1, le_refl _, ?_, fun m h1 h2 => absurd h1 (by omega), Or.inr ?_⟩
      · show (match path[i + 1]? with
          | some c => if c = '.' then some (i + 1) else extensionLoop path i
          | none => none) = some (i + 1)
        rw [hget]
        exact if_pos hdot
      · rw [hget, hdot]
    · obtain ⟨j, hj, hrun, hno, hat⟩ := ih (by omega)
      refine ⟨j, by omega, ?_, fun m h1 h2 => ?_, hat⟩
      · show (match path[i + 1]? with
          | some c => if c = '.' then some (i + 1) else extensionLoop path i
          | none => none) = some j
        rw [hget]
        exact (if_neg hdot).trans hrun
      · rcases Nat.lt_or_ge m (i + 1) with h3 | h3
        · exact hno m h1 (by omega)
        · have hm : m = i + 1 := by omega
          rw [hm, hget]
          exact fun h => hdot (Option.some.inj h)

theorem getImageExtension_eq (path : List Char) (hne : path ≠ []) (h64 : path.length < 2 ^ 64) :
    ∃ j : Nat, j < path.length ∧ getImageExtension path = some (path.drop (j + 1)) ∧
      (∀ m : Nat, j < m → path[m]? ≠ some '.') ∧ (j = 0 ∨ path[j]? = some '.') := by
  have hlen : 1 ≤ path.length := List.length_pos.mpr hne
  obtain ⟨j, hj, hrun, hno, hat⟩ := extensionLoop_spec path (path.length - 1) (by omega)
  refine ⟨j, by omega, ?_, fun m h1 => ?_, hat⟩
  · have e1 : (j + 1) % 2 ^ 64 = j + 1 := Nat.mod_eq_of_lt (by omega)
    have e2 : (path.length + 2 ^ 64 - j) % 2 ^ 64 = path.length - j := by omega
    unfold getImageExtension
    rewrite [sizeMinusOne_of_pos path.length hlen h64, hrun, Option.some_bind, e1, e2]
    unfold substr
    rewrite [if_neg (by omega), List.take_of_length_le (by rw [List.length_drop]; omega)]
    rfl
  · rcases Nat.lt_or_ge m path.length with h2 | h2
    · exact hno m h1 (by omega)
    · rw [List.getElem?_eq_none h2]
      exact fun h => Option.noConfusion h

/-- C21: `getImageExtension` on a non-empty path (shorter than `2^64`). When the
path contains a `'.'`, it splits as `pre ++ "." ++ ext` with no `'.'` in `ext`, that
is at its last `'.'`, and the result is exactly `ext`, which may be empty and
holds no `'.'`. When the path contains no `'.'`, the result is the path without
its first character. The call ends normally in both cases. -/
theorem getImageExtension_after_last_dot (path : List Char) (hne : path ≠ [])
    (h64 : path.length < 2 ^ 64) :
    ('.' ∈ path →
      ∃ pre ext : List Char, path = pre ++ '.' :: ext ∧ '.' ∉ ext ∧
        getImageExtension path = some ext) ∧
    ('.' ∉ path → getImageExtension path = some path.tail) := by
  obtain ⟨j, hj, hres, hno, hat⟩ := getImageExtension_eq path hne h64
  have hget : path[j]? = some (path[j]) := List.getElem?_eq_getElem hj
  have hnotin : '.' ∉ path.drop (j + 1) := by
    intro hmem
    obtain ⟨m, hm⟩ := List.mem_iff_getElem?.mp hmem
    rw [List.getElem?_drop] at hm
    exact hno (j + 1 + m) (by omega) hm
  have hsplit : path = path.take j ++ path[j] :: path.drop (j + 1) := by
    rw [← List.drop_eq_getElem_cons hj, List.take_append_drop]
  constructor
  · intro hmem
    have hdot : path[j] = '.' := by
      rcases hat with h0 | h1
      · obtain ⟨m, hm⟩ := List.mem_iff_getElem?.mp hmem
        rcases Nat.eq_zero_or_pos m with hm0 | hmpos
        · rw [hm0] at hm
          subst h0
          rw [hget] at hm
          exact Option.some.inj hm
        · exact absurd hm (hno m (by omega))
      · rw [hget] at h1
        exact Option.some.inj h1
    refine ⟨path.take j, path.drop (j + 1), ?_, hnotin, hres⟩
    rw [← hdot]
    exact hsplit
  · intro hnot
    have hj0 : j = 0 := by
      rcases hat with h0 | h1
      · exact h0
      · exact absurd (List.mem_iff_getElem?.mpr ⟨j, h1⟩) hnot
    subst hj0
    rw [hres]
    cases path with
    | nil => exact absurd rfl hne
    | cons c rest => rfl

/-- Witness of C21: a path with two dots splits at the last one and gives `cel`;
a path without a dot loses its first character. -/
theorem getImageExtension_after_last_dot_witness :
    (∃ pre ext : List Char, "levels/town.1.cel".toList = pre ++ '.' :: ext ∧ '.' ∉ ext ∧
      getImageExtension "levels/town.1.cel".toList = some ext) ∧
    getImageExtension "levels/town.1.cel".toList = some "cel".toList ∧
    getImageExtension "town".toList = some "own".toList :=
  ⟨(getImageExtension_after_last_dot "levels/town.1.cel".toList (by decide) (by decide)).1
      (by decide),
    by decide,
    (getImageExtension_after_last_dot "town".toList (by decide) (by decide)).2 (by decide)⟩


/-! ### Pillars on the surface -/

theorem drawMinPillar_top_eq (s : Surface) (x y : Int) (pillar : List Int) (tileset : CelFile)
    (h2 : 2 ≤ pillar.length) (h64 : pillar.length < 2 ^ 64) :
    drawMinPillar s x y pillar tileset true
      = some ((List.range ((pillar.length - 1) / 2)).foldl (fun (s : Surface) (k : Nat) =>
          drawMinTile s tileset x (y + 32 * (k : Int) + (if pillar.length = 10 then 96 else 0))
            (minFrameIndex (pillar.getD (2 * k) 0))
            (minFrameIndex (pillar.getD (2 * k + 1) 0))) s) := by
  unfold drawMinPillar
  rw [minPillarRows_top pillar y h2 h64, Option.map_some', List.foldl_map]
  have hf : (fun (s : Surface) (k : Nat) =>
        drawMinTile s tileset x (y + (if pillar.length = 10 then 96 else 0) + 32 * (k : Int))
          (minFrameIndex (pillar.getD (2 * k) 0)) (minFrameIndex (pillar.getD (2 * k + 1) 0)))
      = fun (s : Surface) (k : Nat) =>
        drawMinTile s tileset x (y + 32 * (k : Int) + (if pillar.length = 10 then 96 else 0))
          (minFrameIndex (pillar.getD (2 * k) 0))
          (minFrameIndex (pillar.getD (2 * k + 1) 0)) := by
    funext s k
    have e : y + (if pillar.length = 10 then 96 else 0) + 32 * (k : Int)
        = y + 32 * (k : Int) + (if pillar.length = 10 then 96 else 0) := by ring
    rw [e]
  exact congrArg (fun f => some ((List.range ((pillar.length - 1) / 2)).foldl f s)) hf

theorem drawMinPillar_base_eq (s : Surface) (x y : Int) (pillar : List Int) (tileset : CelFile)
    (h2 : 2 ≤ pillar.length) (h64 : pillar.length < 2 ^ 64) :
    drawMinPillar s x y pillar tileset false
      = some (drawMinTile s tileset x
          (y + 16 * ((pillar.length - 2 : Nat) : Int) + (if pillar.length = 10 then 96 else 0))
          (minFrameIndex (pillar.getD (pillar.length - 2) 0))
          (minFrameIndex (pillar.getD (pillar.length - 1) 0))) := by
  unfold drawMinPillar
  rw [minPillarRows_base pillar y h2 h64]
  have e : pillar.length - 2 + 1 = pillar.length - 1 := by omega
  rw [e]
  rfl

/-- The pixels of the surface after `drawMinTile` at `(0, y)` on a surface 64 wide,
with frames of at most 32 x 32: the left frame fills the columns `0 .. 31`, the
right frame the columns `32 .. 63`, both from row `y` on. -/
theorem drawMinTile_spec (s : Surface) (f : CelFile) (l r : Int) (y : Nat)
    (hwf : s.pixels.length = s.w * s.h) (hw : s.w = 64) (hy : y + 32 ≤ s.h)
    (hf : ∀ k, (f.frame k).width ≤ 32 ∧ (f.frame k).height ≤ 32) :
    (drawMinTile s f 0 y l r).w = s.w ∧ (drawMinTile s f 0 y l r).h = s.h ∧
    (∀ x q : Nat, x < 32 →
      rawPixel (drawMinTile s f 0 y l r) x q
        = if l ≠ -1 ∧ x < (f.frame l.toNat).width ∧ y ≤ q ∧ q < y + (f.frame l.toNat).height ∧
              ((f.frame l.toNat).get x (q - y)).visible = true then
            mapRGBA ((f.frame l.toNat).get x (q - y)).r ((f.frame l.toNat).get x (q - y)).g
              ((f.frame l.toNat).get x (q - y)).b 255
          else rawPixel s x q) ∧
    (∀ x q : Nat, x < 32 →
      rawPixel (drawMinTile s f 0 y l r) ((32 + x : Nat) : Int) q
        = if r ≠ -1 ∧ x < (f.frame r.toNat).width ∧ y ≤ q ∧ q < y + (f.frame r.toNat).height ∧
              ((f.frame r.toNat).get x (q - y)).visible = true then
            mapRGBA ((f.frame r.toNat).get x (q - y)).r ((f.frame r.toNat).get x (q - y)).g
              ((f.frame r.toNat).get x (q - y)).b 255
          else rawPixel s ((32 + x : Nat) : Int) q) := by
  unfold drawMinTile
  have h0 : (0 : Int) = ((0 : Nat) : Int) := rfl
  have h32 : (0 : Int) + 32 = ((32 : Nat) : Int) := rfl
  rw [h32, h0]
  have hl := hf l.toNat
  have hr := hf r.toNat
  have step1 : ∀ s1 : Surface,
      s1 = (if l ≠ -1 then drawFrame s (0 : Nat) y (f.frame l.toNat) else s) →
      s1.w = s.w ∧ s1.h = s.h ∧ s1.pixels.length = s1.w * s1.h ∧
      ∀ p q : Nat, p < 64 →
        rawPixel s1 p q
          = if l ≠ -1 ∧ p < (f.frame l.toNat).width ∧ y ≤ q ∧ q < y + (f.frame l.toNat).height ∧
                ((f.frame l.toNat).get p (q - y)).visible = true then
              mapRGBA ((f.frame l.toNat).get p (q - y)).r ((f.frame l.toNat).get p (q - y)).g
                ((f.frame l.toNat).get p (q - y)).b 255
            else rawPixel s p q := by
    intro s1 hs1
    by_cases hc : l ≠ -1
    · rw [if_pos hc] at hs1
      obtain ⟨a, b, c, _⟩ := drawFrame_inside (f.frame l.toNat) 0 y s hwf (by omega) (by omega)
      rw [hs1]
      refine ⟨a, b, c, fun p q hp => ?_⟩
      rw [drawFrame_spec (f.frame l.toNat) 0 y s hwf (by omega) (by omega) p q (by omega)]
      simp only [Nat.zero_le, true_and, Nat.zero_add, Nat.sub_zero, hc, ne_eq, not_false_eq_true]
    · rw [if_neg hc] at hs1
      rw [hs1]
      refine ⟨rfl, rfl, hwf, fun p q _ => ?_⟩
      rw [if_neg (fun h => hc h.1)]
  obtain ⟨a1, b1, c1, d1⟩ := step1 _ rfl
  by_cases hc : r ≠ -1
  · simp only [if_pos hc]
    obtain ⟨a, b, _, _⟩ := drawFrame_inside (f.frame r.toNat) 32 y _ c1 (by rw [a1]; omega)
      (by rw [b1]; omega)
    have hspec := drawFrame_spec (f.frame r.toNat) 32 y _ c1 (by rw [a1]; omega)
      (by rw [b1]; omega)
    refine ⟨by rw [a, a1], by rw [b, b1], fun x q hx => ?_, fun x q hx => ?_⟩
    · rw [hspec x q (by rw [a1]; omega), if_neg (by omega), d1 x q (by omega)]
    · rw [hspec (32 + x) q (by rw [a1]; omega), d1 (32 + x) q (by omega),
        if_neg (fun h : l ≠ -1 ∧ 32 + x < (f.frame l.toNat).width ∧ _ => by omega)]
      have e : 32 + x - 32 = x := by omega
      rw [e]
      simp only [Nat.le_add_right, true_and, Nat.add_lt_add_iff_left, hc, ne_eq,
        not_false_eq_true]
  · simp only [if_neg hc]
    refine ⟨a1, b1, fun x q hx => d1 x q (by omega), fun x q hx => ?_⟩
    rw [d1 (32 + x) q (by omega),
      if_neg (fun h : l ≠ -1 ∧ 32 + x < (f.frame l.toNat).width ∧ _ => by omega),
      if_neg (fun h => hc h.1)]

theorem mapM_eq_map {α β : Type} (f : α → Option β) (g : α → β) (l : List α)
    (h : ∀ a ∈ l, f a = some (g a)) : l.mapM f = some (l.map g) := by
  induction l with
  | nil => rfl
  | cons a rest ih =>
    rw [List.mapM_cons, h a (List.mem_cons_self a rest),
      ih (fun b hb => h b (List.mem_cons_of_mem a hb))]
    rfl

theorem drawMinTile_wf (s : Surface) (f : CelFile) (l r : Int) (y : Nat)
    (hwf : s.pixels.length = s.w * s.h) (hw : s.w = 64) (hy : y + 32 ≤ s.h)
    (hf : ∀ k, (f.frame k).width ≤ 32 ∧ (f.frame k).height ≤ 32) :
    (drawMinTile s f 0 y l r).pixels.length
      = (drawMinTile s f 0 y l r).w * (drawMinTile s f 0 y l r).h := by
  unfold drawMinTile
  have h0 : (0 : Int) = ((0 : Nat) : Int) := rfl
  have h32 : (0 : Int) + 32 = ((32 : Nat) : Int) := rfl
  rw [h32, h0]
  have hl := hf l.toNat
  have hr := hf r.toNat
  have step1 : ∀ s1 : Surface,
      s1 = (if l ≠ -1 then drawFrame s (0 : Nat) y (f.frame l.toNat) else s) →
      s1.w = s.w ∧ s1.h = s.h ∧ s1.pixels.length = s1.w * s1.h := by
    intro s1 hs1
    by_cases hc : l ≠ -1
    · rw [if_pos hc] at hs1
      obtain ⟨a, b, c, _⟩ := drawFrame_inside (f.frame l.toNat) 0 y s hwf (by omega) (by omega)
      rw [hs1]
      exact ⟨a, b, c⟩
    · rw [if_neg hc] at hs1
      rw [hs1]
      exact ⟨rfl, rfl, hwf⟩
  obtain ⟨a1, b1, c1⟩ := step1 _ rfl
  by_cases hc : r ≠ -1
  · simp only [if_pos hc]
    exact (drawFrame_inside (f.frame r.toNat) 32 y _ c1 (by rw [a1]; omega)
      (by rw [b1]; omega)).2.2.1
  · simp only [if_neg hc]
    exact c1

/-- The pixels of a 64-wide surface after the rows `0 .. m-1` of a pillar have been
drawn with `drawMinTile` at `x = 0`, row `k` at `b + 32 * k`, with frames of at
most 32 x 32: the pixel row `q` belongs to the row `(q - b) / 32` of the pillar,
and shows line `(q - b) % 32` of its left frame in the columns `0 .. 31` and of
its right frame in the columns `32 .. 63`. -/
theorem foldl_drawMinTile_spec (s : Surface) (f : CelFile) (L R : Nat → Int) (b : Nat)
    (hwf : s.pixels.length = s.w * s.h) (hw : s.w = 64)
    (hf : ∀ k, (f.frame k).width ≤ 32 ∧ (f.frame k).height ≤ 32) :
    ∀ m : Nat, b + 32 * m ≤ s.h →
      ((List.range m).foldl (fun (s : Surface) (k : Nat) =>
          drawMinTile s f 0 ((b + 32 * k : Nat) : Int) (L k) (R k)) s).w = 64 ∧
      ((List.range m).foldl (fun (s : Surface) (k : Nat) =>
          drawMinTile s f 0 ((b + 32 * k : Nat) : Int) (L k) (R k)) s).h = s.h ∧
      ((List.range m).foldl (fun (s : Surface) (k : Nat) =>
          drawMinTile s f 0 ((b + 32 * k : Nat) : Int) (L k) (R k)) s).pixels.length
        = ((List.range m).foldl (fun (s : Surface) (k : Nat) =>
            drawMinTile s f 0 ((b + 32 * k : Nat) : Int) (L k) (R k)) s).w *
          ((List.range m).foldl (fun (s : Surface) (k : Nat) =>
            drawMinTile s f 0 ((b + 32 * k : Nat) : Int) (L k) (R k)) s).h ∧
      (∀ x q : Nat, x < 32 →
        rawPixel ((List.range m).foldl (fun (s : Surface) (k : Nat) =>
            drawMinTile s f 0 ((b + 32 * k : Nat) : Int) (L k) (R k)) s) x q
          = if b ≤ q ∧ (q - b) / 32 < m ∧ L ((q - b) / 32) ≠ -1 ∧
                x < (f.frame (L ((q - b) / 32)).toNat).width ∧
                (q - b) % 32 < (f.frame (L ((q - b) / 32)).toNat).height ∧
                ((f.frame (L ((q - b) / 32)).toNat).get x ((q - b) % 32)).visible = true then
              mapRGBA ((f.frame (L ((q - b) / 32)).toNat).get x ((q - b) % 32)).r
                ((f.frame (L ((q - b) / 32)).toNat).get x ((q - b) % 32)).g
                ((f.frame (L ((q - b) / 32)).toNat).get x ((q - b) % 32)).b 255
            else rawPixel s x q) ∧
      (∀ x q : Nat, x < 32 →
        rawPixel ((List.range m).foldl (fun (s : Surface) (k : Nat) =>
            drawMinTile s f 0 ((b + 32 * k : Nat) : Int) (L k) (R k)) s) ((32 + x : Nat) : Int) q
          = if b ≤ q ∧ (q - b) / 32 < m ∧ R ((q - b) / 32) ≠ -1 ∧
                x < (f.frame (R ((q - b) / 32)).toNat).width ∧
                (q - b) % 32 < (f.frame (R ((q - b) / 32)).toNat).height ∧
                ((f.frame (R ((q - b) / 32)).toNat).get x ((q - b) % 32)).visible = true then
              mapRGBA ((f.frame (R ((q - b) / 32)).toNat).get x ((q - b) % 32)).r
                ((f.frame (R ((q - b) / 32)).toNat).get x ((q - b) % 32)).g
                ((f.frame (R ((q - b) / 32)).toNat).get x ((q - b) % 32)).b 255
            else rawPixel s ((32 + x : Nat) : Int) q) := by
  have key : ∀ (G : Nat → Int) (s0 : Surface) (m x q : Nat) (t : Nat → Int) (v : Nat),
      (f.frame (G m).toNat).height ≤ 32 →
      (v = if b ≤ q ∧ (q - b) / 32 < m ∧ G ((q - b) / 32) ≠ -1 ∧
            x < (f.frame (G ((q - b) / 32)).toNat).width ∧
            (q - b) % 32 < (f.frame (G ((q - b) / 32)).toNat).height ∧
            ((f.frame (G ((q - b) / 32)).toNat).get x ((q - b) % 32)).visible = true then
          mapRGBA ((f.frame (G ((q - b) / 32)).toNat).get x ((q - b) % 32)).r
            ((f.frame (G ((q - b) / 32)).toNat).get x ((q - b) % 32)).g
            ((f.frame (G ((q - b) / 32)).toNat).get x ((q - b) % 32)).b 255
        else rawPixel s0 (t x) q) →
      (if G m ≠ -1 ∧ x < (f.frame (G m).toNat).width ∧ b + 32 * m ≤ q ∧
            q < b + 32 * m + (f.frame (G m).toNat).height ∧
            ((f.frame (G m).toNat).get x (q - (b + 32 * m))).visible = true then
          mapRGBA ((f.frame (G m).toNat).get x (q - (b + 32 * m))).r
            ((f.frame (G m).toNat).get x (q - (b + 32 * m))).g
            ((f.frame (G m).toNat).get x (q - (b + 32 * m))).b 255
        else v)
        = if b ≤ q ∧ (q - b) / 32 < m + 1 ∧ G ((q - b) / 32) ≠ -1 ∧
              x < (f.frame (G ((q - b) / 32)).toNat).width ∧
              (q - b) % 32 < (f.frame (G ((q - b) / 32)).toNat).height ∧
              ((f.frame (G ((q - b) / 32)).toNat).get x ((q - b) % 32)).visible = true then
            mapRGBA ((f.frame (G ((q - b) / 32)).toNat).get x ((q - b) % 32)).r
              ((f.frame (G ((q - b) / 32)).toNat).get x ((q - b) % 32)).g
              ((f.frame (G ((q - b) / 32)).toNat).get x ((q - b) % 32)).b 255
          else rawPixel s0 (t x) q := by
    intro G s0 m x q t v hh hv
    by_cases hband : b + 32 * m ≤ q ∧ q < b + 32 * m + 32
    · have hk : (q - b) / 32 = m := by omega
      have hm : (q - b) % 32 = q - (b + 32 * m) := by omega
      rw [hv, hk, hm]
      simp only [Nat.lt_irrefl, false_and, and_false, if_false]
      by_cases hc : G m ≠ -1 ∧ x < (f.frame (G m).toNat).width ∧ b + 32 * m ≤ q ∧
          q < b + 32 * m + (f.frame (G m).toNat).height ∧
          ((f.frame (G m).toNat).get x (q - (b + 32 * m))).visible = true
      · rw [if_pos hc, if_pos ⟨by omega, Nat.lt_succ_self m, hc.1, hc.2.1, by omega, hc.2.2.2.2⟩]
      · rw [if_neg hc, if_neg (fun h => hc ⟨h.2.2.1, h.2.2.2.1, hband.1, by omega,
          h.2.2.2.2.2⟩)]
    · rw [if_neg (fun h => hband ⟨h.2.2.1, by omega⟩), hv]
      by_cases hc : b ≤ q ∧ (q - b) / 32 < m ∧ G ((q - b) / 32) ≠ -1 ∧
          x < (f.frame (G ((q - b) / 32)).toNat).width ∧
          (q - b) % 32 < (f.frame (G ((q - b) / 32)).toNat).height ∧
          ((f.frame (G ((q - b) / 32)).toNat).get x ((q - b) % 32)).visible = true
      · rw [if_pos hc, if_pos ⟨hc.1, Nat.lt_succ_of_lt hc.2.1, hc.2.2⟩]
      · rw [if_neg hc, if_neg (fun h => hc ⟨h.1, by omega, h.2.2⟩)]
  intro m
  induction m with
  | zero =>
    intro _
    refine ⟨hw, rfl, hwf, fun x q _ => ?_, fun x q _ => ?_⟩
    · rw [if_neg (fun h => Nat.not_lt_zero _ h.2.1)]
      rfl
    · rw [if_neg (fun h => Nat.not_lt_zero _ h.2.1)]
      rfl
  | succ m ih =>
    intro hm
    obtain ⟨a, b1, c, dl, dr⟩ := ih (by omega)
    rw [List.range_succ, List.foldl_append, List.foldl_cons, List.foldl_nil]
    obtain ⟨a2, b2, dl2, dr2⟩ := drawMinTile_spec _ f (L m) (R m) (b + 32 * m) c a
      (by rw [b1]; omega) hf
    refine ⟨by rw [a2, a], by rw [b2, b1], ?_, fun x q hx => ?_, fun x q hx => ?_⟩
    · exact drawMinTile_wf _ f (L m) (R m) (b + 32 * m) c a (by rw [b1]; omega) hf
    · rw [dl2 x q hx]
      exact key L s m x q (fun x => (x : Int)) _ (hf _).2 (dl x q hx)
    · rw [dr2 x q hx]
      exact key R s m x q (fun x => ((32 + x : Nat) : Int)) _ (hf _).2 (dr x q hx)

/-- C10 as amended: pillar entry selection. For every pillar definition with
`n >= 2` entries, `drawMinPillar` with `top = false` makes one row, reads exactly
the last two entries (indices `n-2` and `n-1`) and draws them: the surface it
returns is the one `drawMinTile` gives for these two entries. When `n` is even,
`drawMinPillar` with `top = true` makes the rows `0, 2, .., n-4`, reads exactly the
entries `0 .. n-3`, two per row, and draws them: the surface it returns is the one
the `drawMinTile` calls for the entries `2k` and `2k+1`, `k < (n-2)/2`, give in
turn. The frame indices of a row are those of the two entries it reads. -/
theorem pillar_entry_selection (pillar : List Int) (y : Int)
    (h2 : 2 ≤ pillar.length) (h64 : pillar.length < 2 ^ 64) :
    (∃ rows, minPillarRows pillar y false = some rows ∧
      rows.map (fun row => row.i) = [pillar.length - 2] ∧
      rowsRead rows = [pillar.length - 2, pillar.length - 1] ∧
      (∀ row ∈ rows, row.l = minFrameIndex (pillar.getD row.i 0) ∧
        row.r = minFrameIndex (pillar.getD (row.i + 1) 0)) ∧
      ∀ (s : Surface) (x : Int) (tileset : CelFile),
        drawMinPillar s x y pillar tileset false
          = some (rows.foldl (fun s row => drawMinTile s tileset x row.y row.l row.r) s) ∧
        drawMinPillar s x y pillar tileset false
          = some (drawMinTile s tileset x
              (y + 16 * ((pillar.length - 2 : Nat) : Int)
                + (if pillar.length = 10 then 96 else 0))
              (minFrameIndex (pillar.getD (pillar.length - 2) 0))
              (minFrameIndex (pillar.getD (pillar.length - 1) 0)))) ∧
    (pillar.length % 2 = 0 →
      ∃ rows, minPillarRows pillar y true = some rows ∧
        rows.map (fun row => row.i)
          = (List.range ((pillar.length - 2) / 2)).map (fun j => 2 * j) ∧
        rowsRead rows = List.range (pillar.length - 2) ∧
        (∀ row ∈ rows, row.l = minFrameIndex (pillar.getD row.i 0) ∧
          row.r = minFrameIndex (pillar.getD (row.i + 1) 0)) ∧
        ∀ (s : Surface) (x : Int) (tileset : CelFile),
          drawMinPillar s x y pillar tileset true
            = some (rows.foldl (fun s row => drawMinTile s tileset x row.y row.l row.r) s) ∧
          drawMinPillar s x y pillar tileset true
            = some ((List.range ((pillar.length - 2) / 2)).foldl
                (fun (s : Surface) (k : Nat) =>
                  drawMinTile s tileset x
                    (y + 32 * (k : Int) + (if pillar.length = 10 then 96 else 0))
                    (minFrameIndex (pillar.getD (2 * k) 0))
                    (minFrameIndex (pillar.getD (2 * k + 1) 0))) s)) := by
  have hb := minPillarRows_base pillar y h2 h64
  have ht := minPillarRows_top pillar y h2 h64
  refine ⟨⟨_, hb, rfl, ?_, ?_, fun s x tileset => ⟨?_, ?_⟩⟩, fun heven => ?_⟩
  · show [pillar.length - 2, pillar.length - 2 + 1] = _
    have : pillar.length - 2 + 1 = pillar.length - 1 := by omega
    rw [this]
  · intro row hrow
    rw [List.mem_singleton.mp hrow]
    exact ⟨rfl, rfl⟩
  · unfold drawMinPillar
    rw [hb]
    rfl
  · exact drawMinPillar_base_eq s x y pillar tileset h2 h64
  · have hk : (pillar.length - 1) / 2 = (pillar.length - 2) / 2 := by omega
    rw [hk] at ht
    refine ⟨_, ht, ?_, ?_, ?_, fun s x tileset => ⟨?_, ?_⟩⟩
    · rw [List.map_map]
      rfl
    · have h := rowsRead_range ((pillar.length - 2) / 2) 0
        (fun k => y + (if pillar.length = 10 then 96 else 0) + 32 * (k : Int))
        (fun k => minFrameIndex (pillar.getD (2 * k) 0))
        (fun k => minFrameIndex (pillar.getD (2 * k + 1) 0))
      simp only [Nat.zero_add] at h
      rw [h]
      have : 2 * ((pillar.length - 2) / 2) = pillar.length - 2 := by omega
      rw [this]
      exact List.map_id' _
    · intro row hrow
      obtain ⟨k, _, rfl⟩ := List.mem_map.mp hrow
      exact ⟨rfl, rfl⟩
    · unfold drawMinPillar
      rw [ht]
      rfl
    · rw [drawMinPillar_top_eq s x y pillar tileset h2 h64, hk]

/-- Witness of C10 as amended: a pillar of four entries; the base draws the
entries 2 and 3 at `y = 32`, the top the entries 0 and 1 at `y = 0`. -/
theorem pillar_entry_selection_witness :
    (∀ (s : Surface) (x : Int) (tileset : CelFile),
      drawMinPillar s x 0 [1, 2, 3, 4] tileset false
        = some (drawMinTile s tileset x 32 (minFrameIndex 3) (minFrameIndex 4))) ∧
    (∀ (s : Surface) (x : Int) (tileset : CelFile),
      drawMinPillar s x 0 [1, 2, 3, 4] tileset true
        = some (drawMinTile s tileset x 0 (minFrameIndex 1) (minFrameIndex 2))) :=
  have h := pillar_entry_selection [1, 2, 3, 4] 0 (by decide) (by decide)
  ⟨fun s x tileset =>
      match h.1 with
      | ⟨_, _, _, _, _, hdraw⟩ => (hdraw s x tileset).2,
    fun s x tileset =>
      match h.2 (by decide) with
      | ⟨_, _, _, _, _, hdraw⟩ => (hdraw s x tileset).2⟩

/-- Counterexample to C10 as stated: for a pillar of three entries, `top = true`
reads the entries 0 and 1, and entry 1 is one of the last two (`n-2`); the claim
has it read exactly the entries `0 .. n-3`, here entry 0 alone. -/
theorem pillar_entry_selection_odd_counterexample :
    (minPillarRows [1, 2, 3] 0 true).map rowsRead = some [0, 1] ∧
    (minPillarRows [1, 2, 3] 0 true).map rowsRead ≠ some (List.range (3 - 2)) ∧
    (∀ (s : Surface) (x : Int) (tileset : CelFile),
      drawMinPillar s x 0 [1, 2, 3] tileset true
        = some (drawMinTile s tileset x 0 (minFrameIndex 1) (minFrameIndex 2))) := by
  refine ⟨by decide, by decide, fun s x tileset => ?_⟩
  rw [drawMinPillar_top_eq s x 0 [1, 2, 3] tileset (by decide) (by decide)]
  rfl

/-- C11: ten-entry compensation. A top pillar with `n >= 2` entries drawn at
origin `(x, y)` has the rows `k = 0, 1, ..`, row `k` reading the entries `2k` and
`2k+1`, and `drawMinPillarTop` returns the surface on which `drawMinTile` has
drawn row `k` at vertical position `y + 32*k + c`, row after row, with `c = 96`
when `n = 10` and `c = 0` for every other size. So a 10-entry pillar is drawn
with its rows at `y + 96`, `y + 128`, `y + 160`, `y + 192` and an 8-entry pillar
with its rows at `y`, `y + 32`, `y + 64`: each row 96 pixels lower. On a surface
64 wide, at `x = 0` and with frames of at most 32 x 32 (the setting of
`loadTilesetSprite`), line `j` of row `k` is the pixel row `y + 32*k + c + j` of the
surface returned: there the columns `0 .. 31` show the visible pixels of line `j`
of the frame of entry `2k` and the columns `32 .. 63` those of entry `2k+1`, and
the pixel rows above `y + c` and below the last row are left as they were. -/
theorem top_pillar_row_positions (pillar : List Int) (y : Int) (h2 : 2 ≤ pillar.length)
    (h64 : pillar.length < 2 ^ 64) :
    (∀ (s : Surface) (x : Int) (tileset : CelFile),
      drawMinPillarTop s x y pillar tileset
        = some ((List.range ((pillar.length - 1) / 2)).foldl
            (fun (s : Surface) (k : Nat) =>
              drawMinTile s tileset x
                (y + 32 * (k : Int) + (if pillar.length = 10 then 96 else 0))
                (minFrameIndex (pillar.getD (2 * k) 0))
                (minFrameIndex (pillar.getD (2 * k + 1) 0))) s)) ∧
    (∃ rows, minPillarRows pillar y true = some rows ∧
      rows.map (fun row => (row.i, row.y))
        = (List.range ((pillar.length - 1) / 2)).map (fun k : Nat =>
            (2 * k, y + 32 * (k : Int) + (if pillar.length = 10 then 96 else 0))) ∧
      ∀ (s : Surface) (x : Int) (tileset : CelFile),
        drawMinPillarTop s x y pillar tileset
          = some (rows.foldl (fun s row => drawMinTile s tileset x row.y row.l row.r) s)) ∧
    (∀ p10 p8 : List Int, p10.length = 10 → p8.length = 8 →
      (∃ rows10 rows8, minPillarRows p10 y true = some rows10 ∧
        minPillarRows p8 y true = some rows8 ∧
        rows8.map (fun row => row.y) = [y, y + 32, y + 64] ∧
        rows10.map (fun row => row.y) = [y + 96, y + 32 + 96, y + 64 + 96, y + 96 + 96]) ∧
      ∀ (s : Surface) (x : Int) (tileset : CelFile),
        drawMinPillarTop s x y p8 tileset
          = some (drawMinTile (drawMinTile (drawMinTile s tileset x y
                (minFrameIndex (p8.getD 0 0)) (minFrameIndex (p8.getD 1 0)))
              tileset x (y + 32) (minFrameIndex (p8.getD 2 0)) (minFrameIndex (p8.getD 3 0)))
            tileset x (y + 64) (minFrameIndex (p8.getD 4 0)) (minFrameIndex (p8.getD 5 0))) ∧
        drawMinPillarTop s x y p10 tileset
          = some (drawMinTile (drawMinTile (drawMinTile (drawMinTile s tileset x (y + 96)
                  (minFrameIndex (p10.getD 0 0)) (minFrameIndex (p10.getD 1 0)))
                tileset x (y + 32 + 96) (minFrameIndex (p10.getD 2 0))
                (minFrameIndex (p10.getD 3 0)))
              tileset x (y + 64 + 96) (minFrameIndex (p10.getD 4 0))
              (minFrameIndex (p10.getD 5 0)))
            tileset x (y + 96 + 96) (minFrameIndex (p10.getD 6 0))
            (minFrameIndex (p10.getD 7 0)))) ∧
    (∀ (s : Surface) (tileset : CelFile) (y0 : Nat), y = (y0 : Int) →
      s.pixels.length = s.w * s.h → s.w = 64 →
      (∀ k, (tileset.frame k).width ≤ 32 ∧ (tileset.frame k).height ≤ 32) →
      y0 + (if pillar.length = 10 then 96 else 0) + 32 * ((pillar.length - 1) / 2) ≤ s.h →
      ∃ drawn : Surface, drawMinPillarTop s 0 y pillar tileset = some drawn ∧
        drawn.w = 64 ∧ drawn.h = s.h ∧
        (∀ k j x : Nat, k < (pillar.length - 1) / 2 → j < 32 → x < 32 →
          rawPixel drawn x
              ((y0 + 32 * k + (if pillar.length = 10 then 96 else 0) + j : Nat) : Int)
            = (if minFrameIndex (pillar.getD (2 * k) 0) ≠ -1 ∧
                  x < (tileset.frame (minFrameIndex (pillar.getD (2 * k) 0)).toNat).width ∧
                  j < (tileset.frame (minFrameIndex (pillar.getD (2 * k) 0)).toNat).height ∧
                  ((tileset.frame (minFrameIndex (pillar.getD (2 * k) 0)).toNat).get x
                    j).visible = true then
                mapRGBA
                  ((tileset.frame (minFrameIndex (pillar.getD (2 * k) 0)).toNat).get x j).r
                  ((tileset.frame (minFrameIndex (pillar.getD (2 * k) 0)).toNat).get x j).g
                  ((tileset.frame (minFrameIndex (pillar.getD (2 * k) 0)).toNat).get x j).b 255
              else rawPixel s x
                ((y0 + 32 * k + (if pillar.length = 10 then 96 else 0) + j : Nat) : Int)) ∧
          rawPixel drawn ((32 + x : Nat) : Int)
              ((y0 + 32 * k + (if pillar.length = 10 then 96 else 0) + j : Nat) : Int)
            = (if minFrameIndex (pillar.getD (2 * k + 1) 0) ≠ -1 ∧
                  x < (tileset.frame (minFrameIndex (pillar.getD (2 * k + 1) 0)).toNat).width ∧
                  j < (tileset.frame (minFrameIndex (pillar.getD (2 * k + 1) 0)).toNat).height ∧
                  ((tileset.frame (minFrameIndex (pillar.getD (2 * k + 1) 0)).toNat).get x
                    j).visible = true then
                mapRGBA
                  ((tileset.frame (minFrameIndex (pillar.getD (2 * k + 1) 0)).toNat).get x j).r
                  ((tileset.frame (minFrameIndex (pillar.getD (2 * k + 1) 0)).toNat).get x j).g
                  ((tileset.frame (minFrameIndex (pillar.getD (2 * k + 1) 0)).toNat).get x j).b
                  255
              else rawPixel s ((32 + x : Nat) : Int)
                ((y0 + 32 * k + (if pillar.length = 10 then 96 else 0) + j : Nat) : Int))) ∧
        (∀ p q : Nat, p < 64 →
          (q < y0 + (if pillar.length = 10 then 96 else 0) ∨
            y0 + (if pillar.length = 10 then 96 else 0) + 32 * ((pillar.length - 1) / 2) ≤ q) →
          rawPixel drawn p q = rawPixel s p q)) := by
  refine ⟨fun s x tileset => drawMinPillar_top_eq s x y pillar tileset h2 h64,
    ⟨_, minPillarRows_top pillar y h2 h64, ?_, fun s x tileset => ?_⟩,
    fun p10 p8 h10 h8 => ⟨?_, fun s x tileset => ⟨?_, ?_⟩⟩,
    fun s tileset y0 hy hwf hw hf hfit => ?_⟩
  · rw [List.map_map]
    apply List.map_congr_left
    intro k _
    simp only [Function.comp, Prod.mk.injEq, true_and]
    ring
  · unfold drawMinPillarTop drawMinPillar
    rw [minPillarRows_top pillar y h2 h64]
    rfl
  · refine ⟨_, _, minPillarRows_top p10 y (by omega) (by omega),
      minPillarRows_top p8 y (by omega) (by omega), ?_, ?_⟩
    · rw [h8]
      have hr : List.range ((8 - 1) / 2) = [0, 1, 2] := rfl
      rw [hr]
      simp
    · rw [h10]
      have hr : List.range ((10 - 1) / 2) = [0, 1, 2, 3] := rfl
      rw [hr]
      simp only [List.map_cons, List.map_nil, if_true]
      simp only [List.cons.injEq, and_true]
      refine ⟨?_, ?_, ?_, ?_⟩ <;> push_cast <;> ring
  · show drawMinPillar s x y p8 tileset true = _
    rw [drawMinPillar_top_eq s x y p8 tileset (by omega) (by omega), h8]
    have hr : List.range ((8 - 1) / 2) = [0, 1, 2] := rfl
    rw [hr]
    simp only [List.foldl_cons, List.foldl_nil]
    norm_num
  · show drawMinPillar s x y p10 tileset true = _
    rw [drawMinPillar_top_eq s x y p10 tileset (by omega) (by omega), h10]
    have hr : List.range ((10 - 1) / 2) = [0, 1, 2, 3] := rfl
    rw [hr]
    simp only [List.foldl_cons, List.foldl_nil]
    norm_num

  · have hfun : (fun (s : Surface) (k : Nat) =>
          drawMinTile s tileset 0
            (y + 32 * (k : Int) + (if pillar.length = 10 then 96 else 0))
            (minFrameIndex (pillar.getD (2 * k) 0)) (minFrameIndex (pillar.getD (2 * k + 1) 0)))
        = fun (s : Surface) (k : Nat) =>
          drawMinTile s tileset 0
            ((y0 + (if pillar.length = 10 then 96 else 0) + 32 * k : Nat) : Int)
            (minFrameIndex (pillar.getD (2 * k) 0))
            (minFrameIndex (pillar.getD (2 * k + 1) 0)) := by
      funext s1 k
      have e : y + 32 * (k : Int) + (if pillar.length = 10 then 96 else 0)
          = ((y0 + (if pillar.length = 10 then 96 else 0) + 32 * k : Nat) : Int) := by
        rw [hy]
        split_ifs <;> push_cast <;> ring
      rw [e]
    obtain ⟨a, b, _, dl, dr⟩ := foldl_drawMinTile_spec s tileset
      (fun k => minFrameIndex (pillar.getD (2 * k) 0))
      (fun k => minFrameIndex (pillar.getD (2 * k + 1) 0))
      (y0 + (if pillar.length = 10 then 96 else 0)) hwf hw hf ((pillar.length - 1) / 2) hfit
    refine ⟨_, ?_, a, b, fun k j x hk hj hx => ⟨?_, ?_⟩, fun p q hp hq => ?_⟩
    · show drawMinPillar s 0 y pillar tileset true = _
      rw [drawMinPillar_top_eq s 0 y pillar tileset h2 h64, hfun]
    · have hq1 : (y0 + 32 * k + (if pillar.length = 10 then 96 else 0) + j
          - (y0 + (if pillar.length = 10 then 96 else 0))) / 32 = k := by omega
      have hq2 : (y0 + 32 * k + (if pillar.length = 10 then 96 else 0) + j
          - (y0 + (if pillar.length = 10 then 96 else 0))) % 32 = j := by omega
      rw [dl x _ hx, hq1, hq2]
      by_cases hc : minFrameIndex (pillar.getD (2 * k) 0) ≠ -1 ∧
          x < (tileset.frame (minFrameIndex (pillar.getD (2 * k) 0)).toNat).width ∧
          j < (tileset.frame (minFrameIndex (pillar.getD (2 * k) 0)).toNat).height ∧
          ((tileset.frame (minFrameIndex (pillar.getD (2 * k) 0)).toNat).get x j).visible = true
      · rw [if_pos hc, if_pos ⟨by omega, hk, hc⟩]
      · rw [if_neg hc, if_neg (fun h => hc h.2.2)]
    · have hq1 : (y0 + 32 * k + (if pillar.length = 10 then 96 else 0) + j
          - (y0 + (if pillar.length = 10 then 96 else 0))) / 32 = k := by omega
      have hq2 : (y0 + 32 * k + (if pillar.length = 10 then 96 else 0) + j
          - (y0 + (if pillar.length = 10 then 96 else 0))) % 32 = j := by omega
      rw [dr x _ hx, hq1, hq2]
      by_cases hc : minFrameIndex (pillar.getD (2 * k + 1) 0) ≠ -1 ∧
          x < (tileset.frame (minFrameIndex (pillar.getD (2 * k + 1) 0)).toNat).width ∧
          j < (tileset.frame (minFrameIndex (pillar.getD (2 * k + 1) 0)).toNat).height ∧
          ((tileset.frame (minFrameIndex (pillar.getD (2 * k + 1) 0)).toNat).get x
            j).visible = true
      · rw [if_pos hc, if_pos ⟨by omega, hk, hc⟩]
      · rw [if_neg hc, if_neg (fun h => hc h.2.2)]
    · by_cases hp32 : p < 32
      · rw [dl p q hp32]
        exact if_neg (fun h => by
          rcases hq with h1 | h2
          · omega
          · have := h.2.1
            omega)
      · have hpe : p = 32 + (p - 32) := by omega
        rw [hpe, dr (p - 32) q (by omega)]
        exact if_neg (fun h => by
          rcases hq with h1 | h2
          · omega
          · have := h.2.1
            omega)

/-- Witness of C11: a pillar of ten entries drawn at `y = 0` has its rows drawn at
96, 128, 160 and 192; on the 64 x 256 surface, with the example archive, the
first visible pixel of the frame of entry 0 is at row 96 and row 0 stays
transparent. -/
theorem top_pillar_row_positions_witness :
    (∀ (s : Surface) (x : Int) (tileset : CelFile),
      drawMinPillarTop s x 0 [1, 2, 3, 4, 5, 6, 7, 8, 9, 10] tileset
        = some (drawMinTile (drawMinTile (drawMinTile (drawMinTile s tileset x 96
                (minFrameIndex 1) (minFrameIndex 2))
              tileset x 128 (minFrameIndex 3) (minFrameIndex 4))
            tileset x 160 (minFrameIndex 5) (minFrameIndex 6))
          tileset x 192 (minFrameIndex 7) (minFrameIndex 8))) ∧
    (∃ drawn : Surface,
      drawMinPillarTop (createTransparentSurface 64 256) 0 0 [1, 2, 3, 4, 5, 6, 7, 8, 9, 10]
          exampleCel = some drawn ∧
        rawPixel drawn 0 96 = mapRGBA 10 0 0 255 ∧ rawPixel drawn 0 0 = 0) := by
  have h := top_pillar_row_positions [1, 2, 3, 4, 5, 6, 7, 8, 9, 10] 0 (by decide) (by decide)
  refine ⟨fun s x tileset =>
    ((h.2.2.1 [1, 2, 3, 4, 5, 6, 7, 8, 9, 10] [1, 2, 3, 4, 5, 6, 7, 8] rfl rfl).2 s x
      tileset).2, ?_⟩
  have hf : ∀ k, (exampleCel.frame k).width ≤ 32 ∧ (exampleCel.frame k).height ≤ 32 := by
    intro k
    show (if k = 0 then exampleFrame else ⟨1, 1, fun _ _ => ⟨7, 8, 9, true⟩⟩).width ≤ 32 ∧
      (if k = 0 then exampleFrame else ⟨1, 1, fun _ _ => ⟨7, 8, 9, true⟩⟩).height ≤ 32
    split_ifs <;> exact ⟨by decide, by decide⟩
  obtain ⟨drawn, hd, _, _, hrows, hout⟩ := h.2.2.2 (createTransparentSurface 64 256) exampleCel 0
    rfl (createTransparentSurface_wf 64 256) rfl hf (by decide)
  refine ⟨drawn, hd, ?_, ?_⟩
  · exact (hrows 0 0 0 (by decide) (by decide) (by decide)).1.trans
      (if_pos ⟨by decide, by decide, by decide, by decide⟩)
  · exact (hout 0 0 (by decide) (Or.inl (by decide))).trans
      (rawPixel_createTransparentSurface 64 256 0 0)

theorem drawMinPillarBase_tileset (pillar : List Int) (cel : CelFile)
    (hn : pillar.length = 10 ∨ pillar.length = 16) :
    drawMinPillarBase (clearTransparentSurface (createTransparentSurface 64 256)) 0 0 pillar cel
      = some (drawMinTile (createTransparentSurface 64 256) cel 0 ((224 : Nat) : Int)
          (minFrameIndex (pillar.getD (pillar.length - 2) 0))
          (minFrameIndex (pillar.getD (pillar.length - 1) 0))) := by
  have h2 : 2 ≤ pillar.length := by omega
  have h64 : pillar.length < 2 ^ 64 := by omega
  have hy0 : (0 : Int) + 16 * ((pillar.length - 2 : Nat) : Int)
      + (if pillar.length = 10 then 96 else 0) = ((224 : Nat) : Int) := by
    rcases hn with h | h <;> rw [h] <;> simp
  show drawMinPillar _ 0 0 pillar cel false = _
  rw [drawMinPillar_base_eq _ 0 0 pillar cel h2 h64, hy0, clearTransparentSurface_create]

/-- C12: base pillar position. A base pillar with `n >= 2` entries (every even
`n >= 2` in particular) drawn at origin `(x, y)` has one row, reading the entries
`n-2` and `n-1`, and `drawMinPillarBase` returns the surface on which `drawMinTile`
has drawn that row at vertical position `y + 16*(n-2) + c`, with `c = 96` when
`n = 10` and `0` otherwise. For the 10-entry and the 16-entry format that is
`y + 224`, and every row of the top pillar is drawn so that it ends at or above
it. On the 64 x 256 surface of `loadTilesetSprite` (origin `(0, 0)`, frames of at
most 32 x 32) the base row is drawn into the bottom 32 rows, `224 + 32 = 256`:
the pixel `(x, q)` of the columns `0 .. 31` is the visible pixel `(x, q - 224)` of
the left frame, the pixel `(32 + x, q)` that of the right frame, and every other
pixel, all rows above 224 among them, is fully transparent; `loadTilesetSprite`
with `top = false` returns these surfaces, one per pillar of the file but the
last. -/
theorem base_pillar_row_position (pillar : List Int) (y : Int)
    (h2 : 2 ≤ pillar.length) (h64 : pillar.length < 2 ^ 64) :
    minPillarRows pillar y false
      = some [⟨pillar.length - 2,
          y + 16 * ((pillar.length - 2 : Nat) : Int) + (if pillar.length = 10 then 96 else 0),
          minFrameIndex (pillar.getD (pillar.length - 2) 0),
          minFrameIndex (pillar.getD (pillar.length - 2 + 1) 0)⟩] ∧
    (∀ (s : Surface) (x : Int) (tileset : CelFile),
      drawMinPillarBase s x y pillar tileset
        = some (drawMinTile s tileset x
            (y + 16 * ((pillar.length - 2 : Nat) : Int)
              + (if pillar.length = 10 then 96 else 0))
            (minFrameIndex (pillar.getD (pillar.length - 2) 0))
            (minFrameIndex (pillar.getD (pillar.length - 1) 0)))) ∧
    (pillar.length = 10 ∨ pillar.length = 16 →
      y + 16 * ((pillar.length - 2 : Nat) : Int) + (if pillar.length = 10 then 96 else 0)
        = y + 224 ∧
      (∃ rows, minPillarRows pillar y true = some rows ∧
        (∀ (s : Surface) (x : Int) (tileset : CelFile),
          drawMinPillarTop s x y pillar tileset
            = some (rows.foldl (fun s row => drawMinTile s tileset x row.y row.l row.r) s)) ∧
        ∀ row ∈ rows, row.y + 32 ≤ y + 224) ∧
      ((224 : Int) + 32 = (createTransparentSurface 64 256).h) ∧
      ∀ cel : CelFile, (∀ k, (cel.frame k).width ≤ 32 ∧ (cel.frame k).height ≤ 32) →
        ∃ s, drawMinPillarBase (clearTransparentSurface (createTransparentSurface 64 256)) 0 0
            pillar cel = some s ∧
          s = drawMinTile (createTransparentSurface 64 256) cel 0 224
            (minFrameIndex (pillar.getD (pillar.length - 2) 0))
            (minFrameIndex (pillar.getD (pillar.length - 1) 0)) ∧
          s.w = 64 ∧ s.h = 256 ∧
          (∀ x q : Nat, x < 32 →
            rawPixel s x q
              = if minFrameIndex (pillar.getD (pillar.length - 2) 0) ≠ -1 ∧
                    x < (cel.frame
                      (minFrameIndex (pillar.getD (pillar.length - 2) 0)).toNat).width ∧
                    224 ≤ q ∧
                    q < 224 + (cel.frame
                      (minFrameIndex (pillar.getD (pillar.length - 2) 0)).toNat).height ∧
                    ((cel.frame (minFrameIndex (pillar.getD (pillar.length - 2) 0)).toNat).get
                      x (q - 224)).visible = true then
                  mapRGBA
                    ((cel.frame (minFrameIndex (pillar.getD (pillar.length - 2) 0)).toNat).get
                      x (q - 224)).r
                    ((cel.frame (minFrameIndex (pillar.getD (pillar.length - 2) 0)).toNat).get
                      x (q - 224)).g
                    ((cel.frame (minFrameIndex (pillar.getD (pillar.length - 2) 0)).toNat).get
                      x (q - 224)).b 255
                else 0) ∧
          (∀ x q : Nat, x < 32 →
            rawPixel s ((32 + x : Nat) : Int) q
              = if minFrameIndex (pillar.getD (pillar.length - 1) 0) ≠ -1 ∧
                    x < (cel.frame
                      (minFrameIndex (pillar.getD (pillar.length - 1) 0)).toNat).width ∧
                    224 ≤ q ∧
                    q < 224 + (cel.frame
                      (minFrameIndex (pillar.getD (pillar.length - 1) 0)).toNat).height ∧
                    ((cel.frame (minFrameIndex (pillar.getD (pillar.length - 1) 0)).toNat).get
                      x (q - 224)).visible = true then
                  mapRGBA
                    ((cel.frame (minFrameIndex (pillar.getD (pillar.length - 1) 0)).toNat).get
                      x (q - 224)).r
                    ((cel.frame (minFrameIndex (pillar.getD (pillar.length - 1) 0)).toNat).get
                      x (q - 224)).g
                    ((cel.frame (minFrameIndex (pillar.getD (pillar.length - 1) 0)).toNat).get
                      x (q - 224)).b 255
                else 0) ∧
          (∀ p q : Nat, p < 64 → q < 224 → rawPixel s p q = 0)) ∧
    (∀ (cel : CelFile) (min : List (List Int)), 1 ≤ min.length →
      (∀ i : Nat, i < min.length - 1 →
        (min.getD i []).length = 10 ∨ (min.getD i []).length = 16) →
      loadTilesetSprite cel min false
        = some ((List.range (min.length - 1)).map (fun i =>
            drawMinTile (createTransparentSurface 64 256) cel 0 224
              (minFrameIndex ((min.getD i []).getD ((min.getD i []).length - 2) 0))
              (minFrameIndex ((min.getD i []).getD ((min.getD i []).length - 1) 0))))) := by
  have hbase := minPillarRows_base pillar y h2 h64
  refine ⟨hbase, fun s x tileset => drawMinPillar_base_eq s x y pillar tileset h2 h64,
    fun hn => ?_, fun cel min hmin hlen => ?_⟩
  · have hy224 : y + 16 * ((pillar.length - 2 : Nat) : Int)
        + (if pillar.length = 10 then 96 else 0) = y + 224 := by
      rcases hn with h | h
      · rw [h]
        norm_num
        ring
      · rw [h]
        norm_num
    refine ⟨hy224, ⟨_, minPillarRows_top pillar y h2 h64, fun s x tileset => ?_, ?_⟩, rfl,
      fun cel hf => ?_⟩
    · unfold drawMinPillarTop drawMinPillar
      rw [minPillarRows_top pillar y h2 h64]
      rfl
    · intro row hrow
      obtain ⟨k, hk, rfl⟩ := List.mem_map.mp hrow
      have hk' := List.mem_range.mp hk
      show y + (if pillar.length = 10 then 96 else 0) + 32 * (k : Int) + 32 ≤ y + 224
      rcases hn with h | h <;> rw [h] at hk' ⊢ <;> simp <;> omega
    · obtain ⟨a, b, hleft, hright⟩ := drawMinTile_spec (createTransparentSurface 64 256) cel
        (minFrameIndex (pillar.getD (pillar.length - 2) 0))
        (minFrameIndex (pillar.getD (pillar.length - 1) 0)) 224
        (createTransparentSurface_wf 64 256) rfl (Nat.le_refl 256) hf
      refine ⟨_, drawMinPillarBase_tileset pillar cel hn, rfl, a, b, fun x q hx => ?_,
        fun x q hx => ?_, fun p q hp hq => ?_⟩
      · rw [hleft x q hx, rawPixel_createTransparentSurface]
      · rw [hright x q hx, rawPixel_createTransparentSurface]
      · rcases Nat.lt_or_ge p 32 with h32 | h32
        · rw [hleft p q h32, rawPixel_createTransparentSurface, if_neg (by omega)]
        · have hp' : p = 32 + (p - 32) := by omega
          rw [hp', hright (p - 32) q (by omega), rawPixel_createTransparentSurface,
            if_neg (by omega)]
  · unfold loadTilesetSprite
    rw [if_neg (by omega)]
    apply mapM_eq_map
    intro i hi
    have hi' := List.mem_range.mp hi
    simp only [Bool.false_eq_true, if_false]
    exact drawMinPillarBase_tileset (min.getD i []) cel (hlen i hi')

/-- Witness of C12: a base pillar of sixteen entries at `y = 0` is drawn by one
`drawMinTile` at 224, and a file of two such pillars gives one surface. -/
theorem base_pillar_row_position_witness :
    (∀ (s : Surface) (x : Int) (tileset : CelFile),
      drawMinPillarBase s x 0 [1, 2, 3, 4, 5, 6, 7, 8, 9, 10, 11, 12, 13, 14, 15, 16] tileset
        = some (drawMinTile s tileset x 224 (minFrameIndex 15) (minFrameIndex 16))) ∧
    (∀ cel : CelFile,
      loadTilesetSprite cel
          [[1, 2, 3, 4, 5, 6, 7, 8, 9, 10, 11, 12, 13, 14, 15, 16],
            [1, 2, 3, 4, 5, 6, 7, 8, 9, 10, 11, 12, 13, 14, 15, 16]] false
        = some [drawMinTile (createTransparentSurface 64 256) cel 0 224 (minFrameIndex 15)
            (minFrameIndex 16)]) :=
  have h := base_pillar_row_position [1, 2, 3, 4, 5, 6, 7, 8, 9, 10, 11, 12, 13, 14, 15, 16] 0
    (by decide) (by decide)
  ⟨h.2.1, fun cel =>
    h.2.2.2 cel
      [[1, 2, 3, 4, 5, 6, 7, 8, 9, 10, 11, 12, 13, 14, 15, 16],
        [1, 2, 3, 4, 5, 6, 7, 8, 9, 10, 11, 12, 13, 14, 15, 16]] (by decide)
      (fun i hi => by
        have hi0 : i = 0 := by
          have : i < 1 := hi
          omega
        rw [hi0]
        exact Or.inr rfl)⟩

/-! ### The traversal as a run of `processTile` -/

theorem forM_total {α : Type} (step : α → RenderState → RenderState) (l : List α) :
    ∀ st : RenderState,
      l.forM (fun a => stepAction (step a)) st
        = (Except.ok PUnit.unit, l.foldl (fun st a => step a st) st) := by
  induction l with
  | nil => exact fun st => rfl
  | cons a rest ih =>
    intro st
    show (stepAction (step a) >>= fun _ => rest.forM (fun a => stepAction (step a))) st = _
    rw [bind_apply]
    exact ih (step a st)

theorem foldl_log_append {α : Type} (rec : α → Access) (l : List α) :
    ∀ st : RenderState,
      l.foldl (fun st a => ({ st with log := st.log ++ [rec a] } : RenderState)) st
        = { st with log := st.log ++ l.map rec } := by
  induction l with
  | nil =>
    intro st
    show st = { st with log := st.log ++ [] }
    rw [List.append_nil]
  | cons a rest ih =>
    intro st
    rw [List.foldl_cons, ih]
    show ({ st with log := (st.log ++ [rec a]) ++ rest.map rec } : RenderState)
      = { st with log := st.log ++ (rec a :: rest.map rec) }
    rw [List.append_assoc]
    rfl

/-- C18: visible-tile coverage. For every `toScreen` offset and window size,
`drawObjectsByTiles` leaves both loops through their conditions and runs
`processTile` on the calls of `visitedTiles`, in order, whatever `processTile`
is; with a `processTile` that cannot fail it ends normally in the state the
calls lead to, one after the other; with the `processTile` that records the tile
it is given, the record has exactly one entry for every tile whose top point
`p = tileTopPoint(tile) + toScreen` has `-32 < p.x < WIDTH + 32` and
`-32 < p.y < HEIGHT + 224` (the tiles whose 64 x 256 sprite rectangle meets the
screen), and no tile twice. The call for such a tile is made with that point. -/
theorem visible_tile_coverage (toScreen : Point) (WIDTH HEIGHT : Int) :
    (∀ (processTile : Tile → Point → RenderM Unit) (st : RenderState),
      drawObjectsByTiles toScreen WIDTH HEIGHT processTile st
        = (visitedTiles toScreen WIDTH HEIGHT).forM (fun call => processTile call.1 call.2) st) ∧
    (∀ (step : Tile → Point → RenderState → RenderState) (st : RenderState),
      drawObjectsByTiles toScreen WIDTH HEIGHT (fun tile point => stepAction (step tile point)) st
        = (Except.ok (),
            (visitedTiles toScreen WIDTH HEIGHT).foldl (fun st call => step call.1 call.2 st)
              st)) ∧
    (∀ st : RenderState, ∃ calls : List Access,
      drawObjectsByTiles toScreen WIDTH HEIGHT
          (fun tile _ => logAccess (Access.levelGet tile.pos)) st
        = (Except.ok (), { st with log := st.log ++ calls }) ∧
      calls.Nodup ∧
      ∀ t : Point,
        -32 < (tileTopPoint t + toScreen).x → (tileTopPoint t + toScreen).x < WIDTH + 32 →
        -32 < (tileTopPoint t + toScreen).y → (tileTopPoint t + toScreen).y < HEIGHT + 224 →
        calls.count (Access.levelGet t) = 1) ∧
    ((visitedTiles toScreen WIDTH HEIGHT).map (fun call => call.1.pos)).Nodup ∧
    (∀ t : Point,
      -32 < (tileTopPoint t + toScreen).x → (tileTopPoint t + toScreen).x < WIDTH + 32 →
      -32 < (tileTopPoint t + toScreen).y → (tileTopPoint t + toScreen).y < HEIGHT + 224 →
      ((visitedTiles toScreen WIDTH HEIGHT).map (fun call => call.1.pos)).count t = 1 ∧
      ∃ call ∈ visitedTiles toScreen WIDTH HEIGHT,
        call.1.pos = t ∧ call.2 = tileTopPoint t + toScreen) ∧
    (∀ extra : Nat,
      scanLoop WIDTH HEIGHT
        ((HEIGHT + staticObjectHeight - tileHeight
          - (tileTopPoint (getTileFromScreenCoords ⟨-2 * tileWidth, -2 * tileHeight⟩ toScreen).pos
              + toScreen).y).toNat + extra)
        (tileTopPoint (getTileFromScreenCoords ⟨-2 * tileWidth, -2 * tileHeight⟩ toScreen).pos
          + toScreen)
        (getTileFromScreenCoords ⟨-2 * tileWidth, -2 * tileHeight⟩ toScreen)
        = visitedTiles toScreen WIDTH HEIGHT) ∧
    (∀ (P : Point) (T : Tile) (extra : Nat),
      processLineLoop WIDTH ((WIDTH + tileWidth.tdiv 2 - P.x).toNat + extra) P T
        = processLine WIDTH P T) := by
  have hnodup := visitedTiles_nodup toScreen WIDTH HEIGHT
  have hrun : ∀ (step : Tile → Point → RenderState → RenderState) (st : RenderState),
      drawObjectsByTiles toScreen WIDTH HEIGHT (fun tile point => stepAction (step tile point)) st
        = (Except.ok (),
            (visitedTiles toScreen WIDTH HEIGHT).foldl (fun st call => step call.1 call.2 st)
              st) := fun step st =>
    forM_total (fun (call : Tile × Point) st => step call.1 call.2 st) _ st
  refine ⟨fun processTile st => rfl, hrun, fun st => ?_, hnodup, fun t h1 h2 h3 h4 => ?_,
    fun extra => scanLoop_fuel_add WIDTH HEIGHT _ _ extra,
    fun P T extra => processLineLoop_eq_processLine WIDTH P T extra⟩
  · refine ⟨(visitedTiles toScreen WIDTH HEIGHT).map (fun call => Access.levelGet call.1.pos),
      ?_, ?_, fun t h1 h2 h3 h4 => ?_⟩
    · have h := hrun (fun tile _ st => { st with log := st.log ++ [Access.levelGet tile.pos] }) st
      rw [foldl_log_append (fun call : Tile × Point => Access.levelGet call.1.pos)] at h
      exact h
    · have hmap : (visitedTiles toScreen WIDTH HEIGHT).map
            (fun call => Access.levelGet call.1.pos)
          = ((visitedTiles toScreen WIDTH HEIGHT).map (fun call => call.1.pos)).map
              Access.levelGet := by
        rw [List.map_map]
        rfl
      rw [hmap]
      exact List.Nodup.map (fun a b h => Access.levelGet.inj h) hnodup
    · have hmap : (visitedTiles toScreen WIDTH HEIGHT).map
            (fun call => Access.levelGet call.1.pos)
          = ((visitedTiles toScreen WIDTH HEIGHT).map (fun call => call.1.pos)).map
              Access.levelGet := by
        rw [List.map_map]
        rfl
      have hmem := visitedTiles_covers toScreen WIDTH HEIGHT t h1 h2 h3 h4
      rw [hmap]
      apply List.count_eq_one_of_mem
        (List.Nodup.map (fun a b h => Access.levelGet.inj h) hnodup)
      exact List.mem_map.mpr ⟨t, List.mem_map.mpr ⟨_, hmem, rfl⟩, rfl⟩
  · have hmem := visitedTiles_covers toScreen WIDTH HEIGHT t h1 h2 h3 h4
    refine ⟨?_, _, hmem, rfl, rfl⟩
    apply List.count_eq_one_of_mem hnodup
    exact List.mem_map.mpr ⟨_, hmem, rfl⟩

/-- Witness of C18: in a 64 x 32 window with `toScreen = (0, 0)`, tile `(0, 0)`, whose
top point is the screen origin, is handed to `processTile` exactly once. -/
theorem visible_tile_coverage_witness :
    ∃ calls : List Access,
      drawObjectsByTiles ⟨0, 0⟩ 64 32 (fun tile _ => logAccess (Access.levelGet tile.pos))
          ⟨⟨[]⟩, []⟩
        = (Except.ok (), ⟨⟨[]⟩, [] ++ calls⟩) ∧
      calls.count (Access.levelGet ⟨0, 0⟩) = 1 :=
  match (visible_tile_coverage ⟨0, 0⟩ 64 32).2.2.1 ⟨⟨[]⟩, []⟩ with
  | ⟨calls, hrun, _, hcount⟩ =>
    ⟨calls, hrun, hcount ⟨0, 0⟩ (by decide) (by decide) (by decide) (by decide)⟩

/-! ### Anchoring -/

theorem extend_extend (st : RenderState) (r1 r2 : List SpriteVertexPerInstance)
    (c1 c2 : List Access) :
    (st.extend r1 c1).extend r2 c2 = st.extend (r1 ++ r2) (c1 ++ c2) := by
  unfold RenderState.extend
  simp only [List.append_assoc]

theorem extend_nil (st : RenderState) : st.extend [] [] = st := by
  unfold RenderState.extend
  simp only [List.append_nil]

theorem drawAtTile_run (lookupMap : LookupMap) (entry : Nat → AtlasTextureEntry)
    (sprite : Nat) (he : lookupMap (sprite % 2 ^ 32) = some (entry (sprite % 2 ^ 32)))
    (tileTop : Point) (spriteW spriteH : Int) (c : Option Colour) (st : RenderState) :
    drawAtTile lookupMap sprite tileTop spriteW spriteH c st
      = (Except.ok (),
          st.extend [anchoredRecord (entry (sprite % 2 ^ 32)) tileTop spriteW spriteH c] []) := by
  rw [drawAtTile_present lookupMap sprite _ tileTop spriteW spriteH c st he]
  unfold RenderState.extend anchoredRecord
  simp only [List.append_nil]

theorem spriteGroup_at_ok (group : SpriteGroup) (frame : Int) (h0 : 0 ≤ frame)
    (h1 : frame.toNat < group.size) :
    group.at frame = Except.ok (spriteOf group frame) := by
  unfold SpriteGroup.at spriteOf
  rw [if_pos h0]
  have h : group.mSprites[frame.toNat]? = some (group.mSprites.getD frame.toNat 0) := by
    rw [List.getD_eq_getElem?_getD, List.getElem?_eq_getElem h1]
    rfl
  rw [h]

theorem spriteOf_mem (group : SpriteGroup) (frame : Int)
    (h1 : frame.toNat < group.size) : spriteOf group frame ∈ group.mSprites := by
  unfold spriteOf
  rw [List.getD_eq_getElem?_getD, List.getElem?_eq_getElem h1]
  exact List.getElem_mem h1

theorem spriteSize_run (lookupMap : LookupMap) (entry : Nat → AtlasTextureEntry)
    (sprite : Nat) (he : lookupMap sprite = some (entry sprite)) :
    spriteSize lookupMap sprite
      = Except.ok (((entry sprite).mWidth : Int), ((entry sprite).mHeight : Int)) := by
  unfold spriteSize
  rw [he]

theorem forM_run {α : Type} (f : α → RenderM PUnit) (records : α → List SpriteVertexPerInstance)
    (calls : α → List Access) (l : List α)
    (h : ∀ a ∈ l, ∀ st, f a st = (Except.ok PUnit.unit, st.extend (records a) (calls a))) :
    ∀ st, l.forM f st
      = (Except.ok PUnit.unit, st.extend (l.map records).flatten (l.map calls).flatten) := by
  induction l with
  | nil =>
    intro st
    show (Except.ok PUnit.unit, st) = _
    rw [List.map_nil, List.map_nil, List.flatten_nil, List.flatten_nil, extend_nil]
  | cons a rest ih =>
    intro st
    show (f a >>= fun _ => rest.forM f) st = _
    rw [bind_apply, h a (List.mem_cons_self a rest)]
    simp only []
    rw [ih (fun b hb => h b (List.mem_cons_of_mem a hb)), extend_extend]
    simp only [List.map_cons, List.flatten_cons]

theorem cacheGet_run (cache : Nat → SpriteGroup) (handle : Nat) (st : RenderState) :
    cacheGet cache handle st = (Except.ok (cache handle), st.extend [] [Access.cacheGet handle]) := by
  unfold RenderState.extend
  rw [List.append_nil]
  rfl

theorem levelGet_run (level : Level) (pos : Point) (st : RenderState) :
    levelGet level pos st = (Except.ok (level.index pos), st.extend [] [Access.levelGet pos]) := by
  unfold RenderState.extend
  rw [List.append_nil]
  rfl

theorem itemsGet_run {scale : Nat} (items : LevelObjects scale) (x y : Int) (st : RenderState) :
    itemsGet items x y st = (Except.ok (items x y), st.extend [] [Access.itemsGet x y]) := by
  unfold RenderState.extend
  rw [List.append_nil]
  rfl

theorem objsGet_run {scale : Nat} (objs : LevelObjects scale) (x y : Int) (st : RenderState) :
    objsGet objs x y st = (Except.ok (objs x y), st.extend [] [Access.objsGet x y]) := by
  unfold RenderState.extend
  rw [List.append_nil]
  rfl

theorem liftExcept_run {α : Type} (r : Except RenderError α) (st : RenderState) :
    liftExcept r st = (r, st) :=
  rfl

theorem pure_run {α : Type} (a : α) (st : RenderState) :
    (pure a : RenderM α) st = (Except.ok a, st) :=
  rfl

theorem itemStep_run {scale : Nat} (lookupMap : LookupMap) (entry : Nat → AtlasTextureEntry)
    (cache : Nat → SpriteGroup) (hcache : ∀ h, knownGroup lookupMap entry (cache h))
    (topLeft : Point)
    (item : LevelObject scale) (h0 : 0 ≤ item.spriteFrame)
    (h1 : item.spriteFrame.toNat < (cache item.spriteCacheIndex).size) (st : RenderState) :
    (do
      let group ← cacheGet cache item.spriteCacheIndex
      let sprite ← liftExcept (group.at item.spriteFrame)
      let (w, h) ← liftExcept (spriteSize lookupMap sprite)
      drawAtTile lookupMap sprite topLeft w h item.hoverColor : RenderM Unit) st
      = (Except.ok (),
          st.extend
            [anchoredRecord
              (entry (spriteOf (cache item.spriteCacheIndex) item.spriteFrame % 2 ^ 32)) topLeft
              (entry (spriteOf (cache item.spriteCacheIndex) item.spriteFrame)).mWidth
              (entry (spriteOf (cache item.spriteCacheIndex) item.spriteFrame)).mHeight
              item.hoverColor]
            [Access.cacheGet item.spriteCacheIndex]) := by
  have hs := hcache item.spriteCacheIndex _ (spriteOf_mem _ item.spriteFrame h1)
  rw [bind_apply, cacheGet_run]
  dsimp only
  rw [bind_apply, liftExcept_run, spriteGroup_at_ok _ _ h0 h1]
  dsimp only
  rw [bind_apply, liftExcept_run, spriteSize_run lookupMap entry _ hs.1]
  dsimp only
  rw [drawAtTile_run lookupMap entry _ hs.2, extend_extend]
  rfl

theorem objStep_run {scale : Nat} (lookupMap : LookupMap) (entry : Nat → AtlasTextureEntry)
    (cache : Nat → SpriteGroup) (hcache : ∀ h, knownGroup lookupMap entry (cache h))
    (toScreen : Point)
    (obj : LevelObject scale)
    (hframe : obj.valid = true →
      0 ≤ obj.spriteFrame ∧ obj.spriteFrame.toNat < (cache obj.spriteCacheIndex).size)
    (st : RenderState) :
    (do
      if obj.valid then
        let sprite ← cacheGet cache obj.spriteCacheIndex
        let frame ← liftExcept (sprite.at obj.spriteFrame)
        drawMovingSprite lookupMap frame obj.fractionalPos toScreen obj.hoverColor :
      RenderM Unit) st
      = (Except.ok (),
          st.extend
            (if obj.valid then
              [anchoredRecord
                (entry (spriteOf (cache obj.spriteCacheIndex) obj.spriteFrame % 2 ^ 32))
                (tileTopPoint obj.fractionalPos + toScreen)
                (entry (spriteOf (cache obj.spriteCacheIndex) obj.spriteFrame)).mWidth
                (entry (spriteOf (cache obj.spriteCacheIndex) obj.spriteFrame)).mHeight
                obj.hoverColor]
             else [])
            (if obj.valid then [Access.cacheGet obj.spriteCacheIndex] else [])) := by
  by_cases hv : obj.valid = true
  · obtain ⟨h0, h1⟩ := hframe hv
    have hs := hcache obj.spriteCacheIndex _ (spriteOf_mem _ obj.spriteFrame h1)
    simp only [hv, if_true]
    rw [bind_apply, cacheGet_run]
    dsimp only
    rw [bind_apply, liftExcept_run, spriteGroup_at_ok _ _ h0 h1]
    dsimp only
    unfold drawMovingSprite
    rw [bind_apply, liftExcept_run, spriteSize_run lookupMap entry _ hs.1]
    dsimp only
    rw [drawAtTile_run lookupMap entry _ hs.2, extend_extend]
    rfl
  · simp only [hv, Bool.false_eq_true, if_false]
    rw [extend_nil]
    rfl

theorem flatten_map_singleton {α β : Type} (g : α → β) (l : List α) :
    (l.map (fun a => [g a])).flatten = l.map g := by
  induction l with
  | nil => rfl
  | cons a rest ih =>
    rw [List.map_cons, List.flatten_cons, ih]
    rfl

theorem flatten_map_if {α β : Type} (p : α → Bool) (g : α → β) (l : List α) :
    (l.map (fun a => if p a = true then [g a] else [])).flatten = (l.filter p).map g := by
  induction l with
  | nil => rfl
  | cons a rest ih =>
    rw [List.map_cons, List.flatten_cons, ih]
    by_cases h : p a = true
    · rw [if_pos h, List.filter_cons_of_pos h]
      rfl
    · rw [if_neg h, List.filter_cons_of_neg h]
      rfl

theorem tileObjects_run {scale : Nat} (lookupMap : LookupMap) (entry : Nat → AtlasTextureEntry)
    (cache : Nat → SpriteGroup) (hcache : ∀ h, knownGroup lookupMap entry (cache h))
    (objs items : LevelObjects scale) (toScreen : Point)
    (tile : Tile) (topLeft : Point)
    (hitems : ∀ item ∈ items tile.pos.x tile.pos.y,
      0 ≤ item.spriteFrame ∧ item.spriteFrame.toNat < (cache item.spriteCacheIndex).size)
    (hobjs : ∀ obj ∈ objs tile.pos.x tile.pos.y, obj.valid = true →
      0 ≤ obj.spriteFrame ∧ obj.spriteFrame.toNat < (cache obj.spriteCacheIndex).size)
    (st : RenderState) :
    ∃ calls : List Access,
      (do
        let itemsForTile ← itemsGet items tile.pos.x tile.pos.y
        itemsForTile.forM (fun item => do
          let group ← cacheGet cache item.spriteCacheIndex
          let sprite ← liftExcept (group.at item.spriteFrame)
          let (w, h) ← liftExcept (spriteSize lookupMap sprite)
          drawAtTile lookupMap sprite topLeft w h item.hoverColor)
        let objsForTile ← objsGet objs tile.pos.x tile.pos.y
        objsForTile.forM (fun obj => do
          if obj.valid then
            let sprite ← cacheGet cache obj.spriteCacheIndex
            let frame ← liftExcept (sprite.at obj.spriteFrame)
            drawMovingSprite lookupMap frame obj.fractionalPos toScreen obj.hoverColor) :
        RenderM Unit) st
        = (Except.ok (),
            st.extend
              ((items tile.pos.x tile.pos.y).map
                  (fun item => ownSizeRecord entry (cache item.spriteCacheIndex) item.spriteFrame
                    topLeft item.hoverColor) ++
                ((objs tile.pos.x tile.pos.y).filter (fun obj => obj.valid)).map
                  (fun obj => ownSizeRecord entry (cache obj.spriteCacheIndex) obj.spriteFrame
                    (tileTopPoint obj.fractionalPos + toScreen) obj.hoverColor))
              calls) := by
  have h1 := forM_run _
    (fun item : LevelObject scale =>
      [ownSizeRecord entry (cache item.spriteCacheIndex) item.spriteFrame topLeft item.hoverColor])
    (fun item : LevelObject scale => [Access.cacheGet item.spriteCacheIndex])
    (items tile.pos.x tile.pos.y)
    (fun item hmem st1 =>
      itemStep_run lookupMap entry cache hcache topLeft item (hitems item hmem).1
        (hitems item hmem).2 st1)
  have h2 := forM_run _
    (fun obj : LevelObject scale =>
      if obj.valid = true then
        [ownSizeRecord entry (cache obj.spriteCacheIndex) obj.spriteFrame
          (tileTopPoint obj.fractionalPos + toScreen) obj.hoverColor]
      else [])
    (fun obj : LevelObject scale =>
      if obj.valid = true then [Access.cacheGet obj.spriteCacheIndex] else [])
    (objs tile.pos.x tile.pos.y)
    (fun obj hmem st1 =>
      objStep_run lookupMap entry cache hcache toScreen obj (hobjs obj hmem) st1)
  rw [flatten_map_singleton] at h1
  rw [flatten_map_if (fun obj : LevelObject scale => obj.valid)] at h2
  refine ⟨Access.itemsGet tile.pos.x tile.pos.y ::
    (((items tile.pos.x tile.pos.y).map
        (fun item : LevelObject scale => [Access.cacheGet item.spriteCacheIndex])).flatten ++
      Access.objsGet tile.pos.x tile.pos.y ::
        ((objs tile.pos.x tile.pos.y).map
          (fun obj : LevelObject scale =>
            if obj.valid = true then [Access.cacheGet obj.spriteCacheIndex] else [])).flatten), ?_⟩
  rw [bind_apply, itemsGet_run]
  dsimp only
  rw [bind_apply]
  erw [h1]
  dsimp only
  rw [bind_apply, objsGet_run]
  dsimp only
  erw [h2]
  rw [extend_extend, extend_extend, extend_extend]
  simp only [List.nil_append, List.append_nil, List.append_assoc, List.singleton_append]

theorem overlayTile_run {scale : Nat} (lookupMap : LookupMap) (entry : Nat → AtlasTextureEntry)
    (level : Level)
    (minTops : SpriteGroup) (specialSpritesHandle : Nat) (specialSpritesMap : Int → Option Int)
    (cache : Nat → SpriteGroup) (objs items : LevelObjects scale) (toScreen : Point)
    (tile : Tile) (topLeft : Point) (st : RenderState)
    (hvalid : isInvalidTile level tile = false)
    (hframes : framesInRange level minTops specialSpritesHandle specialSpritesMap cache objs items
      tile)
    (hTops : knownGroup lookupMap entry minTops)
    (hcache : ∀ h, knownGroup lookupMap entry (cache h)) :
    ∃ calls : List Access,
      overlayTile lookupMap level minTops specialSpritesHandle specialSpritesMap cache objs items
        toScreen tile topLeft st
        = (Except.ok (),
            st.extend
              (overlayRecords entry level minTops specialSpritesHandle specialSpritesMap cache objs
                items toScreen tile topLeft)
              calls) := by
  obtain ⟨hspecial, hitems, hobjs⟩ := hframes
  have htail := tileObjects_run lookupMap entry cache hcache objs items toScreen tile topLeft
    hitems hobjs
  unfold overlayTile overlayRecords
  rw [hvalid]
  simp only [Bool.false_eq_true, if_false]
  rw [bind_apply, levelGet_run]
  dsimp only
  by_cases hidx : level.index tile.pos < minTops.size
  · rw [if_pos hidx, if_pos hidx, bind_apply, liftExcept_run,
      spriteGroup_at_ok minTops _ (Int.ofNat_nonneg _) (by rw [Int.toNat_ofNat]; exact hidx)]
    dsimp only
    rw [bind_apply, drawAtTile_run lookupMap entry _
      (hTops _ (spriteOf_mem minTops _ (by rw [Int.toNat_ofNat]; exact hidx))).2]
    dsimp only
    cases hs : specialSpritesMap (castInt32 (level.index tile.pos)) with
    | none =>
      dsimp only
      rw [bind_apply, pure_run]
      dsimp only
      obtain ⟨calls, hc⟩ := htail
        ((st.extend [] [Access.levelGet tile.pos]).extend
          [anchoredRecord (entry (spriteOf minTops (level.index tile.pos) % 2 ^ 32)) topLeft
            tileWidth staticObjectHeight none] [])
      refine ⟨Access.levelGet tile.pos :: calls, ?_⟩
      erw [hc]
      rw [extend_extend, extend_extend]
      simp only [List.nil_append, List.append_nil, List.append_assoc, List.singleton_append,
        List.cons_append, staticRecord]
    | some k =>
      obtain ⟨hk0, hk1⟩ := hspecial hidx k hs
      have hsp := hcache specialSpritesHandle _ (spriteOf_mem _ k hk1)
      dsimp only
      rw [bind_apply, cacheGet_run]
      dsimp only
      rw [bind_apply, liftExcept_run, spriteGroup_at_ok _ _ hk0 hk1]
      dsimp only
      rw [bind_apply, liftExcept_run, spriteSize_run lookupMap entry _ hsp.1]
      dsimp only
      rw [bind_apply, drawAtTile_run lookupMap entry _ hsp.2]
      dsimp only
      obtain ⟨calls, hc⟩ := htail
        ((((st.extend [] [Access.levelGet tile.pos]).extend
          [anchoredRecord (entry (spriteOf minTops (level.index tile.pos) % 2 ^ 32)) topLeft
            tileWidth staticObjectHeight none] []).extend [] [Access.cacheGet specialSpritesHandle]).extend
          [anchoredRecord (entry (spriteOf (cache specialSpritesHandle) k % 2 ^ 32)) topLeft
            (entry (spriteOf (cache specialSpritesHandle) k)).mWidth
            (entry (spriteOf (cache specialSpritesHandle) k)).mHeight none] [])
      refine ⟨Access.levelGet tile.pos :: Access.cacheGet specialSpritesHandle :: calls, ?_⟩
      erw [hc]
      rw [extend_extend, extend_extend, extend_extend, extend_extend]
      simp only [List.nil_append, List.append_nil, List.append_assoc, List.singleton_append,
        List.cons_append, staticRecord, ownSizeRecord]
  · rw [if_neg hidx, if_neg hidx, bind_apply, pure_run]
    dsimp only
    obtain ⟨calls, hc⟩ := htail (st.extend [] [Access.levelGet tile.pos])
    refine ⟨Access.levelGet tile.pos :: calls, ?_⟩
    erw [hc]
    rw [extend_extend]
    simp only [List.nil_append, List.append_nil, List.append_assoc, List.singleton_append,
      List.cons_append]

theorem groundTile_run (lookupMap : LookupMap) (entry : Nat → AtlasTextureEntry)
    (level : Level) (minBottoms : SpriteGroup)
    (tile : Tile) (topLeft : Point) (st : RenderState)
    (hbottoms : isInvalidTile level tile = true → 0 < minBottoms.size)
    (hBottoms : knownGroup lookupMap entry minBottoms) :
    ∃ calls : List Access,
      groundTile lookupMap level minBottoms tile topLeft st
        = (Except.ok (), st.extend (groundRecords entry level minBottoms tile topLeft) calls) := by
  unfold groundTile groundRecords
  by_cases hinv : isInvalidTile level tile = true
  · rw [if_pos hinv, if_pos hinv, bind_apply, liftExcept_run,
      spriteGroup_at_ok minBottoms 0 (le_refl 0) (hbottoms hinv)]
    dsimp only
    rw [drawAtTile_run lookupMap entry _
      (hBottoms _ (spriteOf_mem minBottoms 0 (hbottoms hinv))).2]
    exact ⟨[], rfl⟩
  · rw [if_neg hinv, if_neg hinv, bind_apply, levelGet_run]
    dsimp only
    by_cases hidx : level.index tile.pos < minBottoms.size
    · rw [if_pos hidx, if_pos hidx, bind_apply, liftExcept_run,
        spriteGroup_at_ok minBottoms _ (Int.ofNat_nonneg _) (by rw [Int.toNat_ofNat]; exact hidx)]
      dsimp only
      rw [drawAtTile_run lookupMap entry _
        (hBottoms _ (spriteOf_mem minBottoms _ (by rw [Int.toNat_ofNat]; exact hidx))).2,
        extend_extend]
      exact ⟨_, rfl⟩
    · rw [if_neg hidx, if_neg hidx]
      exact ⟨_, rfl⟩

theorem extend_records (st : RenderState) (records : List SpriteVertexPerInstance)
    (calls : List Access) :
    (st.extend records calls).drawLevelCache.mInstanceData
      = st.drawLevelCache.mInstanceData ++ records :=
  rfl

theorem forM_run_exists {α : Type} (f : α → RenderM PUnit)
    (records : α → List SpriteVertexPerInstance) (l : List α)
    (h : ∀ a ∈ l, ∀ st, ∃ calls : List Access,
      f a st = (Except.ok PUnit.unit, st.extend (records a) calls)) :
    ∀ st, ∃ calls : List Access,
      l.forM f st = (Except.ok PUnit.unit, st.extend (l.map records).flatten calls) := by
  induction l with
  | nil =>
    intro st
    refine ⟨[], ?_⟩
    show (Except.ok PUnit.unit, st) = _
    rw [List.map_nil, List.flatten_nil, extend_nil]
  | cons a rest ih =>
    intro st
    obtain ⟨c1, h1⟩ := h a (List.mem_cons_self a rest) st
    obtain ⟨c2, h2⟩ := ih (fun b hb => h b (List.mem_cons_of_mem a hb)) (st.extend (records a) c1)
    refine ⟨c1 ++ c2, ?_⟩
    show (f a >>= fun _ => rest.forM f) st = _
    rw [bind_apply, h1]
    simp only []
    rw [h2, extend_extend]
    simp only [List.map_cons, List.flatten_cons]

theorem logAccess_run (a : Access) (st : RenderState) :
    logAccess a st = (Except.ok (), st.extend [] [a]) := by
  unfold RenderState.extend
  rw [List.append_nil]
  rfl

theorem drawLevel_run {scale : Nat} (lookupMap : LookupMap) (entry : Nat → AtlasTextureEntry)
    (WIDTH HEIGHT : Int) (level : Level)
    (minTopsHandle minBottomsHandle specialSpritesHandle : Nat)
    (specialSpritesMap : Int → Option Int) (cache : Nat → SpriteGroup)
    (objs items : LevelObjects scale) (fractionalPos : Vec2Fix scale) (st : RenderState)
    (hcache : ∀ h, knownGroup lookupMap entry (cache h))
    (hbottoms : 0 < (cache minBottomsHandle).size)
    (hframes : ∀ call ∈ visitedTiles (worldToScreenVector WIDTH HEIGHT fractionalPos) WIDTH HEIGHT,
      isInvalidTile level call.1 = false →
      framesInRange level (cache minTopsHandle) specialSpritesHandle specialSpritesMap cache objs
        items call.1) :
    ∃ calls : List Access,
      drawLevel lookupMap WIDTH HEIGHT level minTopsHandle minBottomsHandle specialSpritesHandle
          specialSpritesMap cache objs items fractionalPos st
        = (Except.ok (),
            ⟨⟨[]⟩, st.log ++ calls ++
              [Access.setInstanceData (st.drawLevelCache.mInstanceData ++
                  levelRecords entry WIDTH HEIGHT level minTopsHandle minBottomsHandle
                    specialSpritesHandle specialSpritesMap cache objs items fractionalPos),
                Access.drawInstances (st.drawLevelCache.mInstanceData ++
                  levelRecords entry WIDTH HEIGHT level minTopsHandle minBottomsHandle
                    specialSpritesHandle specialSpritesMap cache objs items
                    fractionalPos).length]⟩) := by
  have hpass1 := forM_run_exists
    (fun call : Tile × Point => groundTile lookupMap level (cache minBottomsHandle) call.1 call.2)
    (fun call => groundRecords entry level (cache minBottomsHandle) call.1 call.2)
    (visitedTiles (worldToScreenVector WIDTH HEIGHT fractionalPos) WIDTH HEIGHT)
    (fun call _ st1 => groundTile_run lookupMap entry level (cache minBottomsHandle) call.1
      call.2 st1 (fun _ => hbottoms) (hcache minBottomsHandle))
  have hpass2 := forM_run_exists
    (fun call : Tile × Point => overlayTile lookupMap level (cache minTopsHandle)
      specialSpritesHandle specialSpritesMap cache objs items
      (worldToScreenVector WIDTH HEIGHT fractionalPos) call.1 call.2)
    (fun call =>
      if isInvalidTile level call.1 then []
      else overlayRecords entry level (cache minTopsHandle) specialSpritesHandle
        specialSpritesMap cache objs items (worldToScreenVector WIDTH HEIGHT fractionalPos)
        call.1 call.2)
    (visitedTiles (worldToScreenVector WIDTH HEIGHT fractionalPos) WIDTH HEIGHT)
    (fun call hmem st1 => by
      by_cases hinv : isInvalidTile level call.1 = true
      · refine ⟨[], ?_⟩
        dsimp only
        rw [if_pos hinv, extend_nil]
        exact overlayTile_invalid lookupMap level _ _ _ cache objs items _ call.1 call.2 st1 hinv
      · have hvalid : isInvalidTile level call.1 = false := by
          cases h : isInvalidTile level call.1
          · rfl
          · exact absurd h hinv
        dsimp only
        rw [if_neg hinv]
        exact overlayTile_run lookupMap entry level (cache minTopsHandle) specialSpritesHandle
          specialSpritesMap cache objs items _ call.1 call.2 st1 hvalid (hframes call hmem hvalid)
          (hcache minTopsHandle) hcache)
  obtain ⟨c1, h1⟩ := hpass1 (st.extend [] [Access.cacheGet minBottomsHandle])
  obtain ⟨c2, h2⟩ := hpass2
    ((((st.extend [] [Access.cacheGet minBottomsHandle]).extend
      ((visitedTiles (worldToScreenVector WIDTH HEIGHT fractionalPos) WIDTH HEIGHT).map
        (fun call => groundRecords entry level (cache minBottomsHandle) call.1
          call.2)).flatten c1).extend [] [Access.cacheGet minTopsHandle]).extend []
      [Access.setImmortal minTopsHandle true])
  refine ⟨Access.cacheGet minBottomsHandle :: (c1 ++ Access.cacheGet minTopsHandle ::
    Access.setImmortal minTopsHandle true :: (c2 ++ [Access.setImmortal minTopsHandle false])),
    ?_⟩
  unfold drawLevel
  rw [bind_apply, cacheGet_run]
  dsimp only
  rw [bind_apply]
  unfold drawObjectsByTiles
  erw [h1]
  dsimp only
  rw [bind_apply, cacheGet_run]
  dsimp only
  rw [bind_apply, logAccess_run]
  dsimp only
  rw [bind_apply]
  erw [h2]
  dsimp only
  rw [bind_apply, logAccess_run]
  dsimp only
  rw [bind_apply]
  unfold drawCachedLevel clearDrawLevelCache levelRecords RenderState.extend
    DrawLevelCache.instanceCount DrawLevelCache.clear
  simp only [List.append_nil, List.append_assoc, List.cons_append, List.nil_append,
    List.singleton_append]

/-- C14: anchoring rule. `drawAtTile(sprite, t, w, h, colour)` is exactly one
`drawSprite`, at `x = t.x - w / 2` (truncating division) and `y = t.y - h + 32`,
so the bottom edge `y + h` is `t.y + 32`, and when the atlas has the sprite it
appends one record with that offset. In both passes of `drawLevel` the static
tile sprites are anchored with the fixed size `(64, 256)`, whatever their atlas
entry says: offset `(topLeft.x - 32, topLeft.y - 224)`. The overlay of a tile,
the items and the valid moving objects are anchored with the width and height of
their own atlas entry, the moving objects at the projection of their fractional
position. A whole run of `drawLevel` uploads these records, pass by pass and
call by call of the traversal, and draws as many instances. The atlas knows the
sprites of the groups that are used (a finite atlas does) and the frames asked
of the sprite groups are inside them. -/
theorem anchoring_rule {scale : Nat} (lookupMap : LookupMap) (entry : Nat → AtlasTextureEntry)
    (level : Level) (minBottoms minTops : SpriteGroup) (specialSpritesHandle : Nat)
    (specialSpritesMap : Int → Option Int) (cache : Nat → SpriteGroup)
    (objs items : LevelObjects scale) (toScreen : Point) (tile : Tile) (topLeft : Point)
    (st : RenderState)
    (hBottoms : knownGroup lookupMap entry minBottoms)
    (hTops : knownGroup lookupMap entry minTops)
    (hcache : ∀ handle, knownGroup lookupMap entry (cache handle))
    (hbottoms : isInvalidTile level tile = true → 0 < minBottoms.size)
    (hframes : isInvalidTile level tile = false →
      framesInRange level minTops specialSpritesHandle specialSpritesMap cache objs items tile) :
    (∀ (sprite : Nat) (t : Point) (w h : Int) (c : Option Colour),
      drawAtTile lookupMap sprite t w h c
        = drawSprite lookupMap (sprite % 2 ^ 32) (t.x - w.tdiv 2) (t.y - h + 32) c ∧
      (t.y - h + 32) + h = t.y + 32 ∧
      (∀ e : AtlasTextureEntry, lookupMap (sprite % 2 ^ 32) = some e →
        drawAtTile lookupMap sprite t w h c st
          = (Except.ok (), st.extend [anchoredRecord e t w h c] [])) ∧
      (∀ e : AtlasTextureEntry,
        (anchoredRecord e t w h c).v_imageOffset = (t.x - w.tdiv 2, t.y - h + 32))) ∧
    ((groundTile lookupMap level minBottoms tile topLeft st).1 = Except.ok () ∧
      (groundTile lookupMap level minBottoms tile topLeft st).2.drawLevelCache.mInstanceData
        = st.drawLevelCache.mInstanceData ++ groundRecords entry level minBottoms tile topLeft) ∧
    ((overlayTile lookupMap level minTops specialSpritesHandle specialSpritesMap cache objs items
        toScreen tile topLeft st).1 = Except.ok () ∧
      (overlayTile lookupMap level minTops specialSpritesHandle specialSpritesMap cache objs items
        toScreen tile topLeft st).2.drawLevelCache.mInstanceData
        = st.drawLevelCache.mInstanceData ++
            if isInvalidTile level tile then []
            else overlayRecords entry level minTops specialSpritesHandle specialSpritesMap cache
              objs items toScreen tile topLeft) ∧
    (∀ (group : SpriteGroup) (index : Int) (t : Point),
      (staticRecord entry group index t).v_imageOffset = (t.x - 32, t.y - 224) ∧
      (staticRecord entry group index t).v_imageSize
        = ((entry (spriteOf group index % 2 ^ 32)).mWidth,
            (entry (spriteOf group index % 2 ^ 32)).mHeight)) ∧
    (∀ (group : SpriteGroup) (index : Int) (t : Point) (c : Option Colour),
      (ownSizeRecord entry group index t c).v_imageOffset
        = (t.x - ((entry (spriteOf group index)).mWidth : Int).tdiv 2,
            t.y - (entry (spriteOf group index)).mHeight + 32)) ∧
    (∀ (WIDTH HEIGHT : Int) (minTopsHandle minBottomsHandle : Nat)
      (fractionalPos : Vec2Fix scale),
      0 < (cache minBottomsHandle).size →
      (∀ call ∈ visitedTiles (worldToScreenVector WIDTH HEIGHT fractionalPos) WIDTH HEIGHT,
        isInvalidTile level call.1 = false →
        framesInRange level (cache minTopsHandle) specialSpritesHandle specialSpritesMap cache
          objs items call.1) →
      ∃ calls : List Access,
        drawLevel lookupMap WIDTH HEIGHT level minTopsHandle minBottomsHandle
            specialSpritesHandle specialSpritesMap cache objs items fractionalPos st
          = (Except.ok (),
              ⟨⟨[]⟩, st.log ++ calls ++
                [Access.setInstanceData (st.drawLevelCache.mInstanceData ++
                    levelRecords entry WIDTH HEIGHT level minTopsHandle minBottomsHandle
                      specialSpritesHandle specialSpritesMap cache objs items fractionalPos),
                  Access.drawInstances (st.drawLevelCache.mInstanceData ++
                    levelRecords entry WIDTH HEIGHT level minTopsHandle minBottomsHandle
                      specialSpritesHandle specialSpritesMap cache objs items
                      fractionalPos).length]⟩)) := by
  refine ⟨fun sprite t w h c => ⟨rfl, by ring,
    fun e he => drawAtTile_run lookupMap (fun _ => e) sprite he t w h c st, fun e => rfl⟩,
    ?_, ?_, fun group index t => ⟨?_, rfl⟩, fun group index t c => rfl,
    fun WIDTH HEIGHT minTopsHandle minBottomsHandle fractionalPos hsize hall =>
      drawLevel_run lookupMap entry WIDTH HEIGHT level minTopsHandle minBottomsHandle
        specialSpritesHandle specialSpritesMap cache objs items fractionalPos st hcache hsize
        hall⟩
  · obtain ⟨calls, hc⟩ := groundTile_run lookupMap entry level minBottoms tile topLeft st
      hbottoms hBottoms
    rw [hc]
    exact ⟨rfl, rfl⟩
  · by_cases hinv : isInvalidTile level tile = true
    · rw [overlayTile_invalid lookupMap level minTops specialSpritesHandle specialSpritesMap cache
        objs items toScreen tile topLeft st hinv, if_pos hinv, List.append_nil]
      exact ⟨rfl, rfl⟩
    · have hvalid : isInvalidTile level tile = false := by
        cases h : isInvalidTile level tile
        · rfl
        · exact absurd h hinv
      obtain ⟨calls, hc⟩ := overlayTile_run lookupMap entry level minTops
        specialSpritesHandle specialSpritesMap cache objs items toScreen tile topLeft st hvalid
        (hframes hvalid) hTops hcache
      rw [hc, if_neg hinv]
      exact ⟨rfl, rfl⟩
  · show ((t.x - (64 : Int).tdiv 2, t.y - 256 + 32) : Int × Int) = (t.x - 32, t.y - 224)
    have h1 : (64 : Int).tdiv 2 = 32 := by decide
    rw [h1]
    have h2 : t.y - 256 + 32 = t.y - 224 := by ring
    rw [h2]

/-- Witness of C14: tile `(1, 1)` of a 2 x 2 level, with a top sprite, an overlay,
one item and two moving objects of which one is valid, and an atlas of the 100
handles below 100; the atlas entries are 96 x 128, and the static top sprite is
still anchored as 64 x 256. -/
theorem anchoring_rule_witness :
    exampleLookupMap 100 = none ∧
    (groundTile exampleLookupMap exampleLevel ⟨[10, 11]⟩
        ⟨⟨1, 1⟩, TileHalf.left⟩ ⟨300, 200⟩ ⟨⟨[]⟩, []⟩).2.drawLevelCache.mInstanceData
      = [⟨(96, 128), (11, 0, 0), (268, -24), (0, 0, 0, 0)⟩] ∧
    (overlayTile exampleLookupMap exampleLevel ⟨[20, 21]⟩ 3
        (fun i => if i = 1 then some 0 else none) exampleCache exampleObjs exampleItems ⟨100, 50⟩
        ⟨⟨1, 1⟩, TileHalf.left⟩ ⟨300, 200⟩ ⟨⟨[]⟩, []⟩).2.drawLevelCache.mInstanceData
      = [⟨(96, 128), (21, 0, 0), (268, -24), (0, 0, 0, 0)⟩,
          ⟨(96, 128), (30, 0, 0), (252, 104), (0, 0, 0, 0)⟩,
          ⟨(96, 128), (31, 0, 0), (252, 104), (0, 0, 0, 0)⟩,
          ⟨(96, 128), (30, 0, 0), (52, -14), (200, 100, 50, 255)⟩] :=
  have hknown : ∀ a b : Nat, a < 100 → b < 100 →
      knownGroup exampleLookupMap exampleEntry ⟨[a, b]⟩ := fun a b ha hb s hs => by
    have hlt : s < 100 := by
      rcases List.mem_cons.mp hs with h1 | h2
      · rw [h1]
        exact ha
      · rw [List.mem_singleton.mp h2]
        exact hb
    have hmod : s % 2 ^ 32 = s := Nat.mod_eq_of_lt (by omega)
    unfold knownSprite
    rw [hmod]
    unfold exampleLookupMap
    rw [if_pos hlt]
    exact ⟨rfl, rfl⟩
  have h := anchoring_rule exampleLookupMap exampleEntry exampleLevel ⟨[10, 11]⟩
    ⟨[20, 21]⟩ 3 (fun i => if i = 1 then some 0 else none) exampleCache exampleObjs exampleItems
    ⟨100, 50⟩ ⟨⟨1, 1⟩, TileHalf.left⟩ ⟨300, 200⟩ ⟨⟨[]⟩, []⟩
    (hknown 10 11 (by decide) (by decide)) (hknown 20 21 (by decide) (by decide))
    (fun _ => hknown 30 31 (by decide) (by decide)) (fun _ => by decide)
    (fun _ =>
      ⟨fun _ k hk => by
          have hk0 : k = 0 := by
            have h1 : (if castInt32 (exampleLevel.index (⟨⟨1, 1⟩, TileHalf.left⟩ : Tile).pos) = 1
                then some (0 : Int) else none) = some 0 := by decide
            exact (Option.some.inj (h1.symm.trans hk)).symm
          rw [hk0]
          decide,
        fun item hmem => by
          rw [List.mem_singleton.mp hmem]
          decide,
        fun obj hmem hv => by
          rcases List.mem_cons.mp hmem with h1 | h2
          · rw [h1]
            decide
          · rw [List.mem_singleton.mp h2] at hv
            exact absurd hv (by decide)⟩)
  ⟨rfl, h.2.1.2.trans (by decide), h.2.2.1.2.trans (by decide)⟩

/-- C5: out-of-bounds tile fallback. `drawLevel` hands `groundTile` and
`overlayTile` to `drawObjectsByTiles`. For every call `(tile, topLeft)` of the
traversal whose tile is outside the level (`x < 0`, `y < 0`, `x >= width` or
`y >= height`), `topLeft` is the top point of that tile on the screen, the
ground pass appends exactly one record, that of `minBottoms[0]` anchored there
with size `(64, 256)`, and records no read (`level.get` is not called), and the
second pass leaves the state as it is: nothing drawn, neither the item list nor
the object list read. Over a whole run of `drawLevel`, from any state, every
recorded `level.get`, `items.get` and `objs.get` is for a position inside the
level. And when the atlas knows the sprites of the cached groups and the frames
asked for the tiles inside the level are in their groups, the run of `drawLevel`
from `st` ends normally, the data it uploads to the instance buffer are the
records of `st` followed by those of the two passes, the record of
`minBottoms[0]` at `(topLeft.x - 32, topLeft.y - 224)` is among them, being all
the first pass draws for this call, and the second pass draws nothing for it. -/
theorem outOfBounds_tile_fallback {scale : Nat} (lookupMap : LookupMap)
    (entry : Nat → AtlasTextureEntry) (WIDTH HEIGHT : Int)
    (level : Level) (minTopsHandle minBottomsHandle specialSpritesHandle : Nat)
    (specialSpritesMap : Int → Option Int) (cache : Nat → SpriteGroup)
    (objs items : LevelObjects scale) (fractionalPos : Vec2Fix scale)
    (tile : Tile) (topLeft : Point) (st : RenderState) (sprite : Nat) (e : AtlasTextureEntry)
    (hvisit : (tile, topLeft) ∈ visitedTiles (worldToScreenVector WIDTH HEIGHT fractionalPos)
      WIDTH HEIGHT)
    (hinv : tile.pos.x < 0 ∨ tile.pos.y < 0 ∨ tile.pos.x ≥ castInt32 level.width ∨
      tile.pos.y ≥ castInt32 level.height)
    (h0 : (cache minBottomsHandle).mSprites[0]? = some sprite)
    (he : lookupMap (sprite % 2 ^ 32) = some e) :
    topLeft = tileTopPoint tile.pos + worldToScreenVector WIDTH HEIGHT fractionalPos ∧
    groundTile lookupMap level (cache minBottomsHandle) tile topLeft st
      = (Except.ok (),
          { drawLevelCache := ⟨st.drawLevelCache.mInstanceData ++
              [⟨(e.mWidth, e.mHeight), (e.mX, e.mY, e.mLayer),
                (topLeft.x - (64 : Int).tdiv 2, topLeft.y - 256 + 32), (0, 0, 0, 0)⟩]⟩
            log := st.log }) ∧
    overlayTile lookupMap level (cache minTopsHandle) specialSpritesHandle specialSpritesMap
      cache objs items (worldToScreenVector WIDTH HEIGHT fractionalPos) tile topLeft st
      = (Except.ok (), st) ∧
    ReadsInLevel level (drawLevel lookupMap WIDTH HEIGHT level minTopsHandle minBottomsHandle
      specialSpritesHandle specialSpritesMap cache objs items fractionalPos) ∧
    ((∀ handle, knownGroup lookupMap entry (cache handle)) →
      (∀ call ∈ visitedTiles (worldToScreenVector WIDTH HEIGHT fractionalPos) WIDTH HEIGHT,
        isInvalidTile level call.1 = false →
        framesInRange level (cache minTopsHandle) specialSpritesHandle specialSpritesMap cache
          objs items call.1) →
      (∃ calls : List Access,
        drawLevel lookupMap WIDTH HEIGHT level minTopsHandle minBottomsHandle
            specialSpritesHandle specialSpritesMap cache objs items fractionalPos st
          = (Except.ok (),
              ⟨⟨[]⟩, st.log ++ calls ++
                [Access.setInstanceData (st.drawLevelCache.mInstanceData ++
                    levelRecords entry WIDTH HEIGHT level minTopsHandle minBottomsHandle
                      specialSpritesHandle specialSpritesMap cache objs items fractionalPos),
                  Access.drawInstances (st.drawLevelCache.mInstanceData ++
                    levelRecords entry WIDTH HEIGHT level minTopsHandle minBottomsHandle
                      specialSpritesHandle specialSpritesMap cache objs items
                      fractionalPos).length]⟩)) ∧
      (⟨(e.mWidth, e.mHeight), (e.mX, e.mY, e.mLayer), (topLeft.x - 32, topLeft.y - 224),
          (0, 0, 0, 0)⟩ : SpriteVertexPerInstance)
        ∈ levelRecords entry WIDTH HEIGHT level minTopsHandle minBottomsHandle
            specialSpritesHandle specialSpritesMap cache objs items fractionalPos ∧
      groundRecords entry level (cache minBottomsHandle) tile topLeft
        = [⟨(e.mWidth, e.mHeight), (e.mX, e.mY, e.mLayer), (topLeft.x - 32, topLeft.y - 224),
            (0, 0, 0, 0)⟩] ∧
      (if isInvalidTile level tile then []
        else overlayRecords entry level (cache minTopsHandle) specialSpritesHandle
          specialSpritesMap cache objs items (worldToScreenVector WIDTH HEIGHT fractionalPos)
          tile topLeft) = []) := by
  have hinv' : isInvalidTile level tile = true := by
    unfold isInvalidTile
    simp only [Bool.or_eq_true, decide_eq_true_eq]
    tauto
  refine ⟨visitedTiles_anchored _ WIDTH HEIGHT _ hvisit,
    groundTile_invalid lookupMap level _ tile topLeft st sprite e hinv' h0 he,
    overlayTile_invalid lookupMap level _ _ _ cache objs items _ tile topLeft st hinv',
    readsInLevel_drawLevel lookupMap WIDTH HEIGHT level _ _ _ _ cache objs items fractionalPos,
    fun hcache hframes => ?_⟩
  have hlen : 0 < (cache minBottomsHandle).size := by
    unfold SpriteGroup.size
    cases hl : (cache minBottomsHandle).mSprites with
    | nil =>
      rw [hl] at h0
      exact absurd h0 (by simp)
    | cons a rest => exact Nat.succ_pos _
  have hs : spriteOf (cache minBottomsHandle) 0 = sprite := by
    unfold spriteOf
    show (cache minBottomsHandle).mSprites.getD 0 0 = sprite
    rw [List.getD_eq_getElem?_getD, h0]
    rfl
  have hee : e = entry (sprite % 2 ^ 32) :=
    Option.some.inj (he.symm.trans
      (hcache minBottomsHandle _ (hs ▸ spriteOf_mem (cache minBottomsHandle) 0 hlen)).2)
  have hrec : groundRecords entry level (cache minBottomsHandle) tile topLeft
      = [⟨(e.mWidth, e.mHeight), (e.mX, e.mY, e.mLayer), (topLeft.x - 32, topLeft.y - 224),
          (0, 0, 0, 0)⟩] := by
    unfold groundRecords
    rw [if_pos hinv']
    unfold staticRecord anchoredRecord
    rw [hs, ← hee]
    have h1 : topLeft.x - tileWidth.tdiv 2 = topLeft.x - 32 := by
      have h3 : tileWidth.tdiv 2 = 32 := by decide
      rw [h3]
    have h2 : topLeft.y - staticObjectHeight + 32 = topLeft.y - 224 := by
      unfold staticObjectHeight
      ring
    rw [h1, h2]
  refine ⟨drawLevel_run lookupMap entry WIDTH HEIGHT level minTopsHandle minBottomsHandle
    specialSpritesHandle specialSpritesMap cache objs items fractionalPos st hcache hlen hframes,
    ?_, hrec, if_pos hinv'⟩
  unfold levelRecords
  refine List.mem_append_left _ (List.mem_flatten.mpr ⟨_, List.mem_map.mpr ⟨(tile, topLeft),
    hvisit, rfl⟩, ?_⟩)
  dsimp only
  rw [hrec]
  exact List.mem_singleton.mpr rfl

set_option maxRecDepth 100000 in
/-- Witness of C5: a 10 x 10 level in the default 1280 x 960 window with the
camera on tile `(0, 0)` and an atlas of the handles below 100; tile `(-1, -1)` is
visited with its top point at `(640, 376)` on the screen, and the run of
`drawLevel` uploads the record of sprite 5 at `(608, 152)`. -/
theorem outOfBounds_tile_fallback_witness :
    ((⟨⟨-1, -1⟩, TileHalf.left⟩, ⟨640, 376⟩) : Tile × Point)
        ∈ visitedTiles (worldToScreenVector 1280 960 (Vec2Fix.ofTile 1000 ⟨0, 0⟩)) 1280 960 ∧
    groundTile exampleLookupMap ⟨10, 10, fun _ => 0⟩ ⟨[5]⟩
        ⟨⟨-1, -1⟩, TileHalf.left⟩ ⟨640, 376⟩ ⟨⟨[]⟩, []⟩
      = (Except.ok (), ⟨⟨[⟨(96, 128), (5, 0, 0), (608, 152), (0, 0, 0, 0)⟩]⟩, []⟩) ∧
    overlayTile exampleLookupMap ⟨10, 10, fun _ => 0⟩ ⟨[5]⟩ 2 (fun _ => none)
        (fun _ => ⟨[5]⟩) ((fun _ _ => []) : LevelObjects 1000) (fun _ _ => [])
        (worldToScreenVector 1280 960 (Vec2Fix.ofTile 1000 ⟨0, 0⟩))
        ⟨⟨-1, -1⟩, TileHalf.left⟩ ⟨640, 376⟩ ⟨⟨[]⟩, []⟩
      = (Except.ok (), ⟨⟨[]⟩, []⟩) ∧
    (∃ calls : List Access,
      drawLevel exampleLookupMap 1280 960 ⟨10, 10, fun _ => 0⟩ 0 1 2 (fun _ => none)
          (fun _ => ⟨[5]⟩) ((fun _ _ => []) : LevelObjects 1000) (fun _ _ => [])
          (Vec2Fix.ofTile 1000 ⟨0, 0⟩) ⟨⟨[]⟩, []⟩
        = (Except.ok (),
            ⟨⟨[]⟩, [] ++ calls ++
              [Access.setInstanceData ([] ++
                  levelRecords exampleEntry 1280 960 ⟨10, 10, fun _ => 0⟩ 0 1 2 (fun _ => none)
                    (fun _ => ⟨[5]⟩) ((fun _ _ => []) : LevelObjects 1000) (fun _ _ => [])
                    (Vec2Fix.ofTile 1000 ⟨0, 0⟩)),
                Access.drawInstances ([] ++
                  levelRecords exampleEntry 1280 960 ⟨10, 10, fun _ => 0⟩ 0 1 2 (fun _ => none)
                    (fun _ => ⟨[5]⟩) ((fun _ _ => []) : LevelObjects 1000) (fun _ _ => [])
                    (Vec2Fix.ofTile 1000 ⟨0, 0⟩)).length]⟩)) ∧
    (⟨(96, 128), (5, 0, 0), (608, 152), (0, 0, 0, 0)⟩ : SpriteVertexPerInstance)
      ∈ levelRecords exampleEntry 1280 960 ⟨10, 10, fun _ => 0⟩ 0 1 2 (fun _ => none)
          (fun _ => ⟨[5]⟩) ((fun _ _ => []) : LevelObjects 1000) (fun _ _ => [])
          (Vec2Fix.ofTile 1000 ⟨0, 0⟩) := by
  have hvisit : ((⟨⟨-1, -1⟩, TileHalf.left⟩, ⟨640, 376⟩) : Tile × Point)
      ∈ visitedTiles (worldToScreenVector 1280 960 (Vec2Fix.ofTile 1000 ⟨0, 0⟩)) 1280 960 := by
    decide
  have hknown : ∀ handle : Nat, knownGroup exampleLookupMap exampleEntry
      ((fun _ => ⟨[5]⟩ : Nat → SpriteGroup) handle) := fun _ s hs => by
    rw [List.mem_singleton.mp hs]
    exact ⟨rfl, rfl⟩
  have h := outOfBounds_tile_fallback exampleLookupMap exampleEntry 1280 960
    ⟨10, 10, fun _ => 0⟩ 0 1 2 (fun _ => none) (fun _ => ⟨[5]⟩) (fun _ _ => []) (fun _ _ => [])
    (Vec2Fix.ofTile 1000 ⟨0, 0⟩) ⟨⟨-1, -1⟩, TileHalf.left⟩ ⟨640, 376⟩ ⟨⟨[]⟩, []⟩ 5
    (exampleEntry 5) hvisit (Or.inl (by decide)) rfl rfl
  have hrun := h.2.2.2.2 hknown (fun call _ _ =>
    ⟨fun _ k hk => Option.noConfusion hk, fun item hmem => absurd hmem (List.not_mem_nil item),
      fun obj hmem _ => absurd hmem (List.not_mem_nil obj)⟩)
  exact ⟨hvisit, h.2.1, h.2.2.1, hrun.1, hrun.2.1⟩

end Render
